import Mathlib

/-!
# The keyboard event pipeline of `src/main.c`

A shallow embedding of the key tracker (`update_key_index`), the layer
translator (`translate_key_index`), the report builder
(`generate_hid_report_task`), the matrix scan (`scan_matrix_task`, for the
source and for the sink) and the processing of sync messages
(`process_slave_key_index_task`), followed by the properties proved about
them.

Conventions of the embedding:

* C arrays are lists of the declared length; an access outside the array is
  the fault `Fault.out_of_bounds` (the C behaviour is undefined there).  The
  matrix-shaped globals `key_pressed` and `debounce` are functions of
  `(row, col)`: the scan only accesses them inside its loop bounds.
* `int8_t` values are `Int`, `uint8_t`/`uint32_t` values are `Nat`; a store
  that can truncate is written with an explicit `% 256` (or `int8_wrap`).
* The constants, tables and macros of the absent headers
  (`config/firmware_config.h`, `config/keyboard.h`, `config/keymap.h`) are
  parameters.
-/

namespace Bmk

/-- Ways in which the embedded code can fail to produce a result. -/
inductive Fault where
  | out_of_bounds
  | out_of_fuel
deriving DecidableEq, Repr

/-- The struct `key_index_t` of `main.c`. -/
structure key_index_t where
  index : Int
  source : Nat
  translated : Bool
  has_modifiers : Bool
  is_key : Bool
  modifiers : Nat
  key : Nat
deriving DecidableEq, Repr

/-- A `key_index_t` after `memset(&key, 0, sizeof(key_index_t))`. -/
def key_index_t.zero : key_index_t :=
  { index := 0, source := 0, translated := false, has_modifiers := false,
    is_key := false, modifiers := 0, key := 0 }

/-- The globals `keys[KEY_NUM]` and `next_key`. -/
structure Tracker where
  keys : List key_index_t
  next_key : Nat
deriving DecidableEq, Repr

/-- The tracker after `firmware_init`: every slot zeroed, `next_key = 0`. -/
def Tracker.empty (KEY_NUM : Nat) : Tracker :=
  { keys := List.replicate KEY_NUM key_index_t.zero, next_key := 0 }

/-- The array `keys` has its declared length and `next_key` is within it. -/
def Tracker.wf (KEY_NUM : Nat) (st : Tracker) : Prop :=
  st.keys.length = KEY_NUM ∧ st.next_key ≤ KEY_NUM

/-- Conversion of an `int` to `int8_t` (two's complement wrap-around). -/
def int8_wrap (x : Int) : Int := (x + 128) % 256 - 128

/-- Array read `xs[i]`. -/
def read {α : Type} (xs : List α) (i : Nat) : Except Fault α :=
  match xs[i]? with
  | some x => .ok x
  | none => .error .out_of_bounds

/-- Array write `xs[i] = x`. -/
def write {α : Type} (xs : List α) (i : Nat) (x : α) : Except Fault (List α) :=
  if i < xs.length then .ok (xs.set i x) else .error .out_of_bounds

/-- The inner loop of `update_key_index`,
`while (keys[i].index != key.index || keys[i].source != key.source) i++;`,
run on the part of the array that starts at slot `i`.  The loop has no bound
on `i`: when no slot matches it reads past the end of the array. -/
def find_entry : List key_index_t → key_index_t → Nat → Except Fault Nat
  | [], _, _ => .error .out_of_bounds
  | k :: rest, key, i =>
    if k.index ≠ key.index ∨ k.source ≠ key.source then find_entry rest key (i + 1)
    else .ok i

/-- The loop `for (i; i < next_key - 1; i++) keys[i] = keys[i + 1];` with its
trip count `next_key - 1 - i` as first argument; returns the array and the
final `i`. -/
def shift_left : Nat → List key_index_t → Nat → Except Fault (List key_index_t × Nat)
  | 0, keys, i => .ok (keys, i)
  | n + 1, keys, i => do
    let k ← read keys (i + 1)
    let keys ← write keys i k
    shift_left n keys (i + 1)

/-- The outer loop `while (i < next_key)` of the release branch of
`update_key_index`; the first argument bounds the number of evaluations of
the loop condition. -/
def release_loop (key : key_index_t) : Nat → Tracker → Nat → Except Fault Tracker
  | 0, _, _ => .error .out_of_fuel
  | fuel + 1, st, i =>
    if i < st.next_key then do
      let i ← find_entry (st.keys.drop i) key i
      if i < st.next_key then do
        let (keys, i) ← shift_left (st.next_key - 1 - i) st.keys i
        let next_key := st.next_key - 1
        let keys ← write keys next_key key_index_t.zero
        release_loop key fuel { keys := keys, next_key := next_key } i
      else
        release_loop key fuel st i
    else .ok st

/-- The function `update_key_index(int8_t index, uint8_t source)`. -/
def update_key_index (KEY_NUM : Nat) (st : Tracker) (index : Int) (source : Nat) :
    Except Fault Tracker :=
  let key : key_index_t := { key_index_t.zero with index := index, source := source }
  if st.next_key < KEY_NUM ∧ key.index > 0 then do
    let keys ← write st.keys st.next_key key
    .ok { keys := keys, next_key := st.next_key + 1 }
  else if st.next_key > 0 ∧ key.index < 0 then
    release_loop { key with index := int8_wrap (-key.index) } (st.next_key + 1) st 0
  else .ok st

/-- The loop of `generate_hid_report_task` with its trip count `next_key - i`
as first argument; `LEN` is `INPUT_REPORT_KEYS_MAX_LEN`. -/
def report_loop (LEN : Nat) (keys : List key_index_t) :
    Nat → Nat → List Nat → Nat → Except Fault (List Nat × Nat)
  | 0, _, report, report_index => .ok (report, report_index)
  | n + 1, i, report, report_index => do
    let k ← read keys i
    let report ←
      if k.has_modifiers then do
        let r0 ← read report 0
        write report 0 (r0 ||| k.modifiers)
      else .ok report
    if k.is_key ∧ report_index < LEN then do
      let report ← write report report_index k.key
      report_loop LEN keys n (i + 1) report (report_index + 1)
    else
      report_loop LEN keys n (i + 1) report report_index

/-- The function `generate_hid_report_task`: returns the tracker as the task
leaves it and the buffer handed to `hids_send_keyboard_report`. -/
def generate_hid_report_task (LEN : Nat) (st : Tracker) :
    Except Fault (Tracker × List Nat) := do
  let (report, _) ← report_loop LEN st.keys st.next_key 0 (List.replicate LEN 0) 2
  .ok (st, report)

/-- The parts of `config/keymap.h` used by `translate_key_index`: the table
`KEYMAP`, the constants `_BASE_LAYER` and `KC_TRANSPARENT`, and the macros on
key codes.  The header is not part of the sources, so they are parameters. -/
structure Keymap where
  _BASE_LAYER : Nat
  KEYMAP : List (List Nat)
  KC_TRANSPARENT : Nat
  IS_LAYER : Nat → Bool
  LAYER : Nat → Nat
  IS_MOD : Nat → Bool
  MOD_BIT : Nat → Nat
  MOD_CODE : Nat → Nat
  IS_KEY : Nat → Bool

/-- The table access `KEYMAP[layer][index]`, with `index` an `int8_t`. -/
def Keymap.lookup (cfg : Keymap) (layer : Nat) (index : Int) : Except Fault Nat :=
  if index < 0 then .error .out_of_bounds
  else do
    let row ← read cfg.KEYMAP layer
    read row index.toNat

/-- The loop
`while (temp_layer >= 0 && KEYMAP[temp_layer][index] == KC_TRANSPARENT) temp_layer--;`
of `translate_key_index`.  `temp_layer` is a `uint8_t`: the test
`temp_layer >= 0` always holds and `temp_layer--` at 0 gives 255.  The first
argument bounds the number of iterations: after 256 of them every value of
`temp_layer` has been tried, and the loop would run forever. -/
def transparent_search (cfg : Keymap) (index : Int) : Nat → Nat → Except Fault Nat
  | 0, _ => .error .out_of_fuel
  | fuel + 1, temp_layer =>
    if 0 ≤ temp_layer then do
      let code ← cfg.lookup temp_layer index
      if code = cfg.KC_TRANSPARENT then
        transparent_search cfg index fuel ((temp_layer + 255) % 256)
      else .ok temp_layer
    else .ok temp_layer

/-- The last two blocks of the loop body of `translate_key_index`: the
`if (IS_MOD(code))` block followed by the `if (IS_KEY(code))` block, applied
to the resolved `code` and the entry `keys[i]`. -/
def classify (cfg : Keymap) (code : Nat) (k : key_index_t) : key_index_t :=
  let k1 : key_index_t :=
    if cfg.IS_MOD code then
      { k with translated := true, has_modifiers := true, modifiers := cfg.MOD_BIT code % 256 }
    else k
  let code1 : Nat := if cfg.IS_MOD code then cfg.MOD_CODE code % 4294967296 else code
  if cfg.IS_KEY code1 then
    { k1 with translated := true, is_key := true, key := code1 % 256 }
  else k1

/-- The body of the loop of `translate_key_index` for the entry `k = keys[i]`
and the current `layer`: returns the layer and the entry as the iteration
leaves them. -/
def translate_entry (cfg : Keymap) (layer : Nat) (k : key_index_t) :
    Except Fault (Nat × key_index_t) :=
  if k.translated then .ok (layer, k)
  else do
    let index := int8_wrap (k.index - 1)
    let code ← cfg.lookup layer index
    if cfg.IS_LAYER code then .ok (cfg.LAYER code % 256, k)
    else if code = cfg.KC_TRANSPARENT then do
      let k := { k with translated := true }
      let temp_layer ← transparent_search cfg index 256 layer
      if temp_layer < 0 then .ok (layer, k)
      else do
        let code ← cfg.lookup temp_layer index
        .ok (layer, classify cfg code k)
    else .ok (layer, classify cfg code k)

/-- The loop `for (int i = 0; i < next_key; i++)` of `translate_key_index`
with its trip count `next_key - i` as first argument. -/
def translate_loop (cfg : Keymap) :
    Nat → Nat → Nat → List key_index_t → Except Fault (List key_index_t)
  | 0, _, _, keys => .ok keys
  | n + 1, i, layer, keys => do
    let k ← read keys i
    let (layer, k) ← translate_entry cfg layer k
    let keys ← write keys i k
    translate_loop cfg n (i + 1) layer keys

/-- The function `translate_key_index`, up to the scheduling of
`generate_hid_report_task`. -/
def translate_key_index (cfg : Keymap) (st : Tracker) : Except Fault Tracker := do
  let keys ← translate_loop cfg st.next_key 0 (cfg._BASE_LAYER % 256) st.keys
  .ok { st with keys := keys }

/-- The debounce constants of `config/firmware_config.h` (parameters: the
header is not part of the sources). -/
structure Debounce where
  KEY_PRESS_DEBOUNCE : Int
  KEY_RELEASE_DEBOUNCE : Int
  SCAN_DELAY : Int

/-- One cell of the globals `key_pressed[row][col]` and `debounce[row][col]`. -/
structure Cell where
  key_pressed : Bool
  debounce : Int
deriving DecidableEq, Repr

/-- The state of cell `(row, col)` at boot.  The initialiser
`int debounce[..][..] = {KEY_PRESS_DEBOUNCE}` sets the first element only; C
zero-initialises the remaining elements. -/
def boot_cell (cfg : Debounce) (row col : Nat) : Cell :=
  { key_pressed := false,
    debounce := if row = 0 ∧ col = 0 then cfg.KEY_PRESS_DEBOUNCE else 0 }

/-- The body of the inner loop of `scan_matrix_task` for one cell: `pressed`
is the raw sample and `m` is `MATRIX[row][col]`.  Returns the cell and the
delta passed on (to `update_key_index` or to the buffer), if any. -/
def cell_step (cfg : Debounce) (m : Int) (c : Cell) (pressed : Bool) : Cell × Option Int :=
  if c.key_pressed = pressed then
    if pressed then ({ c with debounce := cfg.KEY_RELEASE_DEBOUNCE }, none)
    else ({ c with debounce := cfg.KEY_PRESS_DEBOUNCE }, none)
  else
    if c.debounce ≤ 0 then
      if pressed then
        ({ key_pressed := true, debounce := cfg.KEY_RELEASE_DEBOUNCE }, some m)
      else
        ({ key_pressed := false, debounce := cfg.KEY_PRESS_DEBOUNCE }, some (-m))
    else ({ c with debounce := c.debounce - cfg.SCAN_DELAY }, none)

/-- The cell step over a sequence of raw samples, one per scan tick; returns
the final cell and the deltas emitted, in order. -/
def cell_run (cfg : Debounce) (m : Int) : Cell → List Bool → Cell × List Int
  | c, [] => (c, [])
  | c, s :: rest =>
    let (c1, ev) := cell_step cfg m c s
    let (c2, evs) := cell_run cfg m c1 rest
    (c2, ev.toList ++ evs)

/-- The threshold that applies to a cell: `KEY_RELEASE_DEBOUNCE` when it is
pressed, `KEY_PRESS_DEBOUNCE` when it is released. -/
def Debounce.threshold (cfg : Debounce) (key_pressed : Bool) : Int :=
  if key_pressed then cfg.KEY_RELEASE_DEBOUNCE else cfg.KEY_PRESS_DEBOUNCE

/-- A threshold counted in scan ticks of `SCAN_DELAY`, rounded up. -/
def Debounce.ticks (cfg : Debounce) (key_pressed : Bool) : Nat :=
  ((cfg.threshold key_pressed + cfg.SCAN_DELAY - 1) / cfg.SCAN_DELAY).toNat

/-! ## Definitions used to state the properties -/

/-- The live entries of the tracker: the slots below `next_key`, in order. -/
def Tracker.live (st : Tracker) : List key_index_t := st.keys.take st.next_key

/-- The bitwise OR of `modifiers` over the entries with `has_modifiers`. -/
def modifier_byte (l : List key_index_t) : Nat :=
  (l.filter (fun k => k.has_modifiers)).foldl (fun acc k => acc ||| k.modifiers) 0

/-- The `key` codes of the entries with `is_key`, in order. -/
def regular_keys (l : List key_index_t) : List Nat :=
  (l.filter (fun k => k.is_key)).map (fun k => k.key)

/-- The body of `report_loop` iterated over a list of entries instead of a
range of slots (used in the proofs only). -/
def report_list (LEN : Nat) : List key_index_t → List Nat → Nat → Except Fault (List Nat × Nat)
  | [], report, report_index => .ok (report, report_index)
  | k :: rest, report, report_index => do
    let report ←
      if k.has_modifiers then do
        let r0 ← read report 0
        write report 0 (r0 ||| k.modifiers)
      else .ok report
    if k.is_key ∧ report_index < LEN then do
      let report ← write report report_index k.key
      report_list LEN rest report (report_index + 1)
    else
      report_list LEN rest report report_index

/-- A tracker with three live entries, of which two carry modifiers and two
are regular keys. -/
def report_example : Tracker :=
  { keys := [⟨1, 0, true, true, true, 2, 4⟩, ⟨2, 0, true, true, false, 1, 5⟩,
             ⟨3, 1, true, false, true, 1, 6⟩],
    next_key := 3 }

/-- The entry that `update_key_index` builds for a press: zeroed, then `index`
and `source` set. -/
def key_index_t.pressed (p : Int) (s : Nat) : key_index_t :=
  { key_index_t.zero with index := p, source := s }

/-- A tracker with `KEY_NUM = 4` holding three keys, two of them at position 7
(one from each source). -/
def release_example : Tracker :=
  { keys := [key_index_t.pressed 5 0, key_index_t.pressed 7 1, key_index_t.pressed 7 0,
             key_index_t.zero],
    next_key := 3 }

/-- A full tracker with `KEY_NUM = 2`. -/
def overflow_example : Tracker :=
  { keys := [key_index_t.pressed 4 0, key_index_t.pressed 6 1], next_key := 2 }

/-- A sequence of calls `update_key_index(delta, source)`, in order. -/
def run_updates (KEY_NUM : Nat) : Tracker → List (Int × Nat) → Except Fault Tracker
  | st, [] => .ok st
  | st, (delta, source) :: rest => do
    let st ← update_key_index KEY_NUM st delta source
    run_updates KEY_NUM st rest

/-- The tracker whose live entries are `l` and whose free slots are zeroed. -/
def Tracker.of_live (KEY_NUM : Nat) (l : List key_index_t) : Tracker :=
  { keys := l ++ List.replicate (KEY_NUM - l.length) key_index_t.zero, next_key := l.length }

/-- The entry of a (position, source) pair as a press stores it. -/
def pressed_pair (x : Int × Nat) : key_index_t := key_index_t.pressed x.1 x.2

/-- The release delta of a (position, source) pair. -/
def release_of (x : Int × Nat) : Int × Nat := (-x.1, x.2)

/-- The (index, source) pairs of the live entries, in tracker order. -/
def Tracker.live_pairs (st : Tracker) : List (Int × Nat) :=
  st.live.map (fun k => (k.index, k.source))

/-- No two live entries have the same (index, source) pair. -/
def Tracker.no_duplicates (st : Tracker) : Prop := st.live_pairs.Nodup

/-- A tracker with `KEY_NUM = 2` holding position 1 of source 0. -/
def single_example : Tracker :=
  { keys := [key_index_t.pressed 1 0, key_index_t.zero], next_key := 1 }

/-- The tracker `single_example` after a second press of the same pair. -/
def double_example : Tracker :=
  { keys := [key_index_t.pressed 1 0, key_index_t.pressed 1 0], next_key := 2 }

/-- The tracker `single_example` after a press of position 2 of source 0. -/
def pair_example : Tracker :=
  { keys := [key_index_t.pressed 1 0, key_index_t.pressed 2 0], next_key := 2 }

/-- The debounce counter of the cell holds the full threshold for its state. -/
def Cell.armed (cfg : Debounce) (c : Cell) : Prop :=
  c.debounce = cfg.threshold c.key_pressed

/-- A configuration with a press threshold of 2 ticks and a release threshold
of 3 ticks. -/
def debounce_example : Debounce :=
  { KEY_PRESS_DEBOUNCE := 2, KEY_RELEASE_DEBOUNCE := 3, SCAN_DELAY := 1 }

/-- A keymap with three layers and three positions: positions 0 and 1 hold
layer-shift codes on the base layer (to layers 1 and 2); position 0 is
transparent above the base layer, position 1 is the regular key 27 on layer 1
and transparent on layer 2; position 2 is the regular key 4, 5, 6 on layers
0, 1, 2.  Codes `0x0F00 + n` shift to layer `n`, codes `0x0100 * b + c` with
`1 ≤ b ≤ 8` carry the modifier bits `b` and the base code `c`, and codes
`4..255` are regular keys. -/
def layers_example : Keymap :=
  { _BASE_LAYER := 0,
    KEYMAP := [[3841, 3842, 4], [1, 27, 5], [1, 1, 6]],
    KC_TRANSPARENT := 1,
    IS_LAYER := fun code => code / 256 == 15,
    LAYER := fun code => code % 256,
    IS_MOD := fun code => 1 ≤ code / 256 && code / 256 ≤ 8,
    MOD_BIT := fun code => code / 256,
    MOD_CODE := fun code => code % 256,
    IS_KEY := fun code => 4 ≤ code && code ≤ 255 }

/-- A keymap with two layers in which position 0 is transparent on both. -/
def bottomless_example : Keymap :=
  { layers_example with KEYMAP := [[1, 4], [1, 5]] }

/-- A keymap with three layers in which position 0 carries modifier bits 2
and the regular key 7 on layer 0 and is transparent on layers 1 and 2. -/
def fallthrough_example : Keymap :=
  { layers_example with KEYMAP := [[519, 4], [1, 5], [1, 6]] }

/-- A tracker with `KEY_NUM = 3` holding positions 0, 1 and 2 (indices 1, 2,
3), pressed in that order and none translated yet. -/
def three_keys_example : Tracker :=
  { keys := [key_index_t.pressed 1 0, key_index_t.pressed 2 0, key_index_t.pressed 3 0],
    next_key := 3 }

/-- A keymap like `layers_example` in which position 1 is a layer-shift code
(to layer 2) on layer 1 as well. -/
def stacked_layers_example : Keymap :=
  { layers_example with KEYMAP := [[3841, 3842, 4], [1, 3842, 5], [1, 1, 6]] }

/-! ## The matrix scan and the link between the two halves -/

/-- The loop `for (int i = start; i < start + n; i++) body`, with its trip
count `n` as first argument and the current `i` as second. -/
def for_loop {σ : Type} (body : Nat → σ → Except Fault σ) : Nat → Nat → σ → Except Fault σ
  | 0, _, s => .ok s
  | n + 1, i, s => do
    let s ← body i s
    for_loop body n (i + 1) s

/-- An `int8_t` object read as a `uint8_t` (the cast `(uint8_t *)buffer`). -/
def byte_of_int8 (d : Int) : Nat := (d % 256).toNat

/-- A byte read as an `int8_t` (the cast `(int8_t *)data`). -/
def int8_of_byte (b : Nat) : Int := int8_wrap (b : Int)

/-- The constants of the absent configuration headers, in one record:
the debounce constants, the matrix dimensions, the table `MATRIX[row][col]`,
the keymap, `KEY_NUM`, `SLAVE_KEY_NUM`, `SOURCE`, `SOURCE_SLAVE` and
`INPUT_REPORT_KEYS_MAX_LEN`. -/
structure Firmware where
  debounce : Debounce
  MATRIX_ROW_NUM : Nat
  MATRIX_COL_NUM : Nat
  MATRIX : Nat → Nat → Int
  keymap : Keymap
  KEY_NUM : Nat
  SLAVE_KEY_NUM : Nat
  SOURCE : Nat
  SOURCE_SLAVE : Nat
  INPUT_REPORT_KEYS_MAX_LEN : Nat

/-- The globals `key_pressed[row][col]` and `debounce[row][col]` as a function
of `(row, col)`; the scan only accesses them inside the loop bounds, which are
the declared dimensions. -/
abbrev Grid := Nat → Nat → Cell

/-- The assignment of one cell of the grid. -/
def Grid.set (g : Grid) (row col : Nat) (c : Cell) : Grid :=
  fun r k => if r = row ∧ k = col then c else g r k

/-- The grid at boot (see `boot_cell`). -/
def boot_grid (cfg : Debounce) : Grid := fun row col => boot_cell cfg row col

/-- The function `process_slave_key_index_task(data, size)`: `data` holds the
received bytes. -/
def process_slave_key_index_task (fw : Firmware) (st : Tracker) (data : List Nat) (size : Nat) :
    Except Fault Tracker := do
  let st ← for_loop (fun i st => do
    let b ← read data i
    update_key_index fw.KEY_NUM st (int8_of_byte b) fw.SOURCE_SLAVE) size 0 st
  translate_key_index fw.keymap st

/-- What the sink keeps between two scans: the grid and the static
`buffer_updated`. -/
structure Sink where
  cells : Grid
  buffer_updated : Bool

/-- The state of `scan_matrix_task` on the sink while it scans: the grid, the
static `buffer_updated`, and the locals `buffer_len` and `buffer`. -/
structure SinkScan where
  cells : Grid
  buffer_updated : Bool
  buffer_len : Nat
  buffer : List Int

/-- The block
`if (buffer_len < SLAVE_KEY_NUM) { buffer_updated = true; buffer[buffer_len++] = delta; }`
of `scan_matrix_task`; the store converts `delta` to `int8_t`. -/
def buffer_push (SLAVE_KEY_NUM : Nat) (s : SinkScan) (delta : Int) : Except Fault SinkScan :=
  if s.buffer_len < SLAVE_KEY_NUM then do
    let buffer ← write s.buffer s.buffer_len (int8_wrap delta)
    .ok { s with buffer_updated := true, buffer_len := s.buffer_len + 1, buffer := buffer }
  else .ok s

/-- The body of the inner loop of `scan_matrix_task` with `SLAVE` defined;
`raw row col` is the sample `nrf_gpio_pin_read(ROWS[row]) > 0` taken while
column `col` is driven.  The debounce part is `cell_step`. -/
def slave_cell (fw : Firmware) (raw : Nat → Nat → Bool) (col row : Nat) (s : SinkScan) :
    Except Fault SinkScan :=
  let pressed := raw row col
  let step := cell_step fw.debounce (fw.MATRIX row col) (s.cells row col) pressed
  let s := { s with cells := s.cells.set row col step.1 }
  match step.2 with
  | none => .ok s
  | some delta => buffer_push fw.SLAVE_KEY_NUM s delta

/-- The scan state of the sink at the start of `scan_matrix_task`:
`buffer_len = 0` and `buffer` zeroed by `memset`. -/
def SinkScan.start (SLAVE_KEY_NUM : Nat) (s : Sink) : SinkScan :=
  { cells := s.cells, buffer_updated := s.buffer_updated, buffer_len := 0,
    buffer := List.replicate SLAVE_KEY_NUM 0 }

/-- The bytes that `scan_matrix_task` hands to `kb_link_key_index_update`:
the first `buffer_len` elements of `buffer`, read as `uint8_t`. -/
def SinkScan.message (s : SinkScan) : List Nat := (s.buffer.take s.buffer_len).map byte_of_int8

/-- The function `scan_matrix_task` with `SLAVE` defined: returns the state
and the bytes handed to `kb_link_key_index_update`, if it is called. -/
def scan_matrix_task_slave (fw : Firmware) (s : Sink) (raw : Nat → Nat → Bool) :
    Except Fault (Sink × Option (List Nat)) := do
  let s1 ← for_loop (fun col s =>
    for_loop (fun row s => slave_cell fw raw col row s) fw.MATRIX_ROW_NUM 0 s)
    fw.MATRIX_COL_NUM 0 (SinkScan.start fw.SLAVE_KEY_NUM s)
  if s1.buffer_updated then
    .ok ({ cells := s1.cells, buffer_updated := false }, some s1.message)
  else .ok ({ cells := s1.cells, buffer_updated := s1.buffer_updated }, none)

/-- The state of `scan_matrix_task` on the source while it scans: the grid,
the tracker, and the locals `has_key_press` and `has_key_release`. -/
structure SourceScan where
  cells : Grid
  tracker : Tracker
  has_key_press : Bool
  has_key_release : Bool

/-- The body of the inner loop of `scan_matrix_task` with `MASTER` defined. -/
def master_cell (fw : Firmware) (raw : Nat → Nat → Bool) (col row : Nat) (s : SourceScan) :
    Except Fault SourceScan :=
  let pressed := raw row col
  let step := cell_step fw.debounce (fw.MATRIX row col) (s.cells row col) pressed
  let s := { s with cells := s.cells.set row col step.1 }
  match step.2 with
  | none => .ok s
  | some delta => do
    let tracker ← update_key_index fw.KEY_NUM s.tracker (int8_wrap delta) fw.SOURCE
    if pressed then .ok { s with tracker := tracker, has_key_press := true }
    else .ok { s with tracker := tracker, has_key_release := true }

/-- The two nested loops of `scan_matrix_task` with `MASTER` defined. -/
def master_scan (fw : Firmware) (raw : Nat → Nat → Bool) (s : SourceScan) :
    Except Fault SourceScan :=
  for_loop (fun col s =>
    for_loop (fun row s => master_cell fw raw col row s) fw.MATRIX_ROW_NUM 0 s)
    fw.MATRIX_COL_NUM 0 s

/-- What the source keeps between two scans: the grid and the tracker. -/
structure Source where
  cells : Grid
  tracker : Tracker

/-- The source at boot, after `firmware_init`. -/
def Source.boot (fw : Firmware) : Source :=
  { cells := boot_grid fw.debounce, tracker := Tracker.empty fw.KEY_NUM }

/-- The function `scan_matrix_task` with `MASTER` defined: returns the state
and whether `generate_hid_report_task` has been scheduled (by
`translate_key_index` after a press, directly after releases only). -/
def scan_matrix_task_master (fw : Firmware) (s : Source) (raw : Nat → Nat → Bool) :
    Except Fault (Source × Bool) := do
  let s1 ← master_scan fw raw
    { cells := s.cells, tracker := s.tracker, has_key_press := false, has_key_release := false }
  if s1.has_key_press then do
    let tracker ← translate_key_index fw.keymap s1.tracker
    .ok ({ cells := s1.cells, tracker := tracker }, true)
  else if s1.has_key_release then
    .ok ({ cells := s1.cells, tracker := s1.tracker }, true)
  else .ok ({ cells := s1.cells, tracker := s1.tracker }, false)

/-- The block `buffer_push` applied to a sequence of deltas, in order. -/
def buffer_push_all (SLAVE_KEY_NUM : Nat) : SinkScan → List Int → Except Fault SinkScan
  | s, [] => .ok s
  | s, delta :: rest => do
    let s ← buffer_push SLAVE_KEY_NUM s delta
    buffer_push_all SLAVE_KEY_NUM s rest

/-- One scan tick of the source followed by the scheduled
`generate_hid_report_task`, if any: returns the state and the report sent. -/
def source_tick (fw : Firmware) (s : Source) (raw : Nat → Nat → Bool) :
    Except Fault (Source × Option (List Nat)) := do
  let (s, scheduled) ← scan_matrix_task_master fw s raw
  if scheduled then do
    let (tracker, report) ← generate_hid_report_task fw.INPUT_REPORT_KEYS_MAX_LEN s.tracker
    .ok ({ s with tracker := tracker }, some report)
  else .ok (s, none)

/-- A sequence of scan ticks of the source, one sample function per tick;
returns the state and the reports sent, in order. -/
def source_run (fw : Firmware) : Source → List (Nat → Nat → Bool) →
    Except Fault (Source × List (List Nat))
  | s, [] => .ok (s, [])
  | s, raw :: rest => do
    let (s, report) ← source_tick fw s raw
    let (s, reports) ← source_run fw s rest
    .ok (s, report.toList ++ reports)

/-- A firmware configuration with a 2 x 2 matrix, debounce thresholds of one
scan tick, positions `2 * row + col + 1`, one keymap layer with the regular
keys 4, 5, 6, 7 (4 is the usage code of the key A), `KEY_NUM = 4`,
`SLAVE_KEY_NUM = 2` and an 8-byte report. -/
def firmware_example : Firmware :=
  { debounce := { KEY_PRESS_DEBOUNCE := 1, KEY_RELEASE_DEBOUNCE := 1, SCAN_DELAY := 1 },
    MATRIX_ROW_NUM := 2,
    MATRIX_COL_NUM := 2,
    MATRIX := fun row col => 2 * (row : Int) + (col : Int) + 1,
    keymap := { layers_example with KEYMAP := [[4, 5, 6, 7]] },
    KEY_NUM := 4,
    SLAVE_KEY_NUM := 2,
    SOURCE := 0,
    SOURCE_SLAVE := 1,
    INPUT_REPORT_KEYS_MAX_LEN := 8 }

/-- A tracker with `KEY_NUM = 4` that already holds position 3 of source 1
(the remote half), followed by position 5 of source 0. -/
def remote_held_example : Tracker :=
  { keys := [key_index_t.pressed 3 1, key_index_t.pressed 5 0, key_index_t.zero,
             key_index_t.zero],
    next_key := 2 }

/-- A full tracker with `KEY_NUM = 2` that holds position 3 of source 1 and
position 5 of source 0. -/
def remote_full_example : Tracker :=
  { keys := [key_index_t.pressed 3 1, key_index_t.pressed 5 0], next_key := 2 }

/-- The cells in the order in which `scan_matrix_task` visits them: column by
column, and by increasing row inside a column; as `(row, col)` pairs. -/
def scan_order (fw : Firmware) : List (Nat × Nat) :=
  (List.range' 0 fw.MATRIX_COL_NUM).flatMap
    (fun col => (List.range' 0 fw.MATRIX_ROW_NUM).map (fun row => (row, col)))

/-- The debounce step of the cell `rc = (row, col)` of the grid `g` for the
samples `raw`. -/
def Firmware.step (fw : Firmware) (g : Grid) (raw : Nat → Nat → Bool) (rc : Nat × Nat) :
    Cell × Option Int :=
  cell_step fw.debounce (fw.MATRIX rc.1 rc.2) (g rc.1 rc.2) (raw rc.1 rc.2)

/-- The transitions of one scan tick, in scan order: the deltas that the
cells of the grid `g` emit for the samples `raw`. -/
def tick_transitions (fw : Firmware) (g : Grid) (raw : Nat → Nat → Bool) : List Int :=
  (scan_order fw).filterMap (fun rc => (fw.step g raw rc).2)

/-- The grid after one scan tick: every cell of the matrix has made its
debounce step. -/
def Grid.stepped (fw : Firmware) (g : Grid) (raw : Nat → Nat → Bool) : Grid :=
  fun row col =>
    if row < fw.MATRIX_ROW_NUM ∧ col < fw.MATRIX_COL_NUM then (fw.step g raw (row, col)).1
    else g row col

/-- A loop body iterated over a list of loop indices (used in the proofs
only). -/
def run_list {α σ : Type} (body : α → σ → Except Fault σ) : List α → σ → Except Fault σ
  | [], s => .ok s
  | a :: rest, s => do
    let s ← body a s
    run_list body rest s

/-- A sink whose four cells are released with a debounce counter of zero (as
after one idle tick followed by one tick with all four keys held). -/
def sink_ready_example : Sink :=
  { cells := fun _ _ => { key_pressed := false, debounce := 0 }, buffer_updated := false }

/-- Some cell of the matrix flips to pressed in the scan tick. -/
def tick_has_press (fw : Firmware) (g : Grid) (raw : Nat → Nat → Bool) : Bool :=
  (scan_order fw).any (fun rc => (fw.step g raw rc).2.isSome && raw rc.1 rc.2)

/-- Some cell of the matrix flips to released in the scan tick. -/
def tick_has_release (fw : Firmware) (g : Grid) (raw : Nat → Nat → Bool) : Bool :=
  (scan_order fw).any (fun rc => (fw.step g raw rc).2.isSome && !raw rc.1 rc.2)

/-- A keymap with one layer whose position 0 is a modifier-only code
(modifier bits 2, no base key). -/
def modifier_example : Keymap :=
  { layers_example with KEYMAP := [[512, 4]] }

/-- A configuration whose thresholds are not multiples of `SCAN_DELAY`. -/
def uneven_debounce_example : Debounce :=
  { KEY_PRESS_DEBOUNCE := 1, KEY_RELEASE_DEBOUNCE := 1, SCAN_DELAY := 2 }

/-- The raw samples of a scan during which only the key at cell (0, 0) is
held. -/
def first_key_held : Nat → Nat → Bool := fun row col => decide (row = 0 ∧ col = 0)

/-- The raw samples of a scan during which no key is held. -/
def no_key_held : Nat → Nat → Bool := fun _ _ => false

/-- A grid of a 2 x 2 matrix whose cell (0, 0) is `c` and whose other three
cells are released (used in the proofs only). -/
def Grid.only_first (g : Grid) (c : Cell) : Prop :=
  g 0 0 = c ∧ (g 1 0).key_pressed = false ∧ (g 0 1).key_pressed = false ∧
    (g 1 1).key_pressed = false

/-- The cells of the matrix whose `key_pressed` is set, in scan order. -/
def pressed_cells (fw : Firmware) (g : Grid) : List (Nat × Nat) :=
  (scan_order fw).filter (fun rc => (g rc.1 rc.2).key_pressed)

/-- The (index, source) pair under which the source tracks the key of a cell
of its own matrix. -/
def Firmware.local_pair (fw : Firmware) (rc : Nat × Nat) : Int × Nat :=
  (fw.MATRIX rc.1 rc.2, fw.SOURCE)

/-- A sequence of scan ticks of the source, one sample function per tick, with
no call of `process_slave_key_index_task` in between. -/
def scan_ticks (fw : Firmware) : Source → List (Nat → Nat → Bool) → Except Fault Source
  | s, [] => .ok s
  | s, raw :: rest => do
    let (s, _) ← scan_matrix_task_master fw s raw
    scan_ticks fw s rest

/-- The tracker has zeroed free slots and its live entries are, up to order,
the pairs of the pressed cells (used in the proofs only). -/
def Firmware.tracked (fw : Firmware) (g : Grid) (tr : Tracker) : Prop :=
  ∃ l : List key_index_t, tr = Tracker.of_live fw.KEY_NUM l ∧
    (l.map (fun k => (k.index, k.source))).Perm ((pressed_cells fw g).map fw.local_pair)

/-! ## The report builder -/

theorem read_eq_ok {α : Type} {xs : List α} {i : Nat} {x : α} (h : xs[i]? = some x) :
    read xs i = .ok x := by
  simp [read, h]

theorem report_loop_eq_list (LEN : Nat) (keys : List key_index_t) :
    ∀ (n i : Nat) (report : List Nat) (ri : Nat), i + n ≤ keys.length →
      report_loop LEN keys n i report ri = report_list LEN ((keys.drop i).take n) report ri := by
  intro n
  induction n with
  | zero => intro i report ri _; simp [report_loop, report_list]
  | succ n ih =>
    intro i report ri h
    have hi : i < keys.length := by omega
    have hd : keys.drop i = keys[i] :: keys.drop (i + 1) := by
      simp
    rw [hd, List.take_succ_cons]
    have ih2 := fun r ri => ih (i + 1) r ri (by omega)
    simp only [report_loop, report_list, read_eq_ok (List.getElem?_eq_getElem hi), ih2]
    rfl


theorem set_append_replicate (ks : List Nat) (n x : Nat) :
    (ks ++ List.replicate (n + 1) 0).set ks.length x = ks ++ x :: List.replicate n 0 := by
  induction ks with
  | nil => simp [List.replicate_succ]
  | cons a ks ih => simp [ih]

theorem report_list_spec (K : Nat) :
    ∀ (l : List key_index_t) (m : Nat) (ks : List Nat), ks.length ≤ K →
      report_list (K + 2) l (m :: 0 :: (ks ++ List.replicate (K - ks.length) 0)) (2 + ks.length)
        = .ok ((l.filter (fun k => k.has_modifiers)).foldl (fun acc k => acc ||| k.modifiers) m
                :: 0 :: ((ks ++ regular_keys l).take K
                  ++ List.replicate (K - ((ks ++ regular_keys l).take K).length) 0),
               2 + ((ks ++ regular_keys l).take K).length) := by
  intro l
  induction l with
  | nil =>
    intro m ks h
    simp [report_list, regular_keys, List.take_of_length_le h]
  | cons k l ih =>
    intro m ks h
    have key_step : ∀ m2 : Nat,
        (if k.is_key = true ∧ 2 + ks.length < K + 2 then
          (write (m2 :: 0 :: (ks ++ List.replicate (K - ks.length) 0)) (2 + ks.length) k.key) >>=
            fun report => report_list (K + 2) l report (2 + ks.length + 1)
        else report_list (K + 2) l (m2 :: 0 :: (ks ++ List.replicate (K - ks.length) 0))
          (2 + ks.length))
        = .ok ((l.filter (fun k => k.has_modifiers)).foldl (fun acc k => acc ||| k.modifiers) m2
                :: 0 :: ((ks ++ regular_keys (k :: l)).take K
                  ++ List.replicate (K - ((ks ++ regular_keys (k :: l)).take K).length) 0),
               2 + ((ks ++ regular_keys (k :: l)).take K).length) := by
      intro m2
      by_cases hk : k.is_key = true
      · by_cases hlt : ks.length < K
        · have hrep : K - ks.length = (K - (ks ++ [k.key]).length) + 1 := by
            simp; omega
          have hw : write (m2 :: 0 :: (ks ++ List.replicate (K - ks.length) 0)) (2 + ks.length) k.key
              = .ok (m2 :: 0 :: ((ks ++ [k.key]) ++ List.replicate (K - (ks ++ [k.key]).length) 0)) := by
            have hlen : 2 + ks.length < (m2 :: 0 :: (ks ++ List.replicate (K - ks.length) 0)).length := by
              simp; omega
            rw [write, if_pos hlen]
            have h2 : 2 + ks.length = ks.length + 1 + 1 := by omega
            rw [h2, List.set_cons_succ, List.set_cons_succ, hrep, set_append_replicate]
            simp
          have hidx : 2 + ks.length + 1 = 2 + (ks ++ [k.key]).length := by simp; omega
          rw [if_pos ⟨hk, by omega⟩, hw, hidx]
          have := ih m2 (ks ++ [k.key]) (by simp; omega)
          simpa [regular_keys, hk, bind, Except.bind] using this
        · have hfull : ks.length = K := by omega
          rw [if_neg (by omega)]
          have := ih m2 ks h
          have ht : ∀ r : List Nat, (ks ++ r).take K = ks := by
            intro r; rw [List.take_append_of_le_length (by omega), List.take_of_length_le (by omega)]
          simpa [ht] using this
      · rw [if_neg (by simp [hk])]
        have := ih m2 ks h
        simpa [regular_keys, hk] using this
    by_cases hm : k.has_modifiers = true
    · have hr : ∀ tl : List Nat, read (m :: tl) 0 = .ok m := by
        intro tl; simp [read]
      have hw0 : ∀ (tl : List Nat) (x : Nat), write (m :: tl) 0 x = .ok (x :: tl) := by
        intro tl x; simp [write]
      simp only [report_list, hm, if_true, hr, hw0, bind, Except.bind]
      have := key_step (m ||| k.modifiers)
      simpa [hm, bind, Except.bind] using this
    · simp only [report_list, hm, bind, Except.bind]
      have := key_step m
      simpa [hm, bind, Except.bind] using this


/-- C1: for a tracker whose `next_key` is within the array and a report length
`INPUT_REPORT_KEYS_MAX_LEN` of at least 2, `generate_hid_report_task` builds a
buffer of exactly that many bytes: byte 0 is the OR of `modifiers` over the
live entries with `has_modifiers`, byte 1 is 0, the following bytes are the
`key` codes of the first `INPUT_REPORT_KEYS_MAX_LEN - 2` live entries with
`is_key`, in tracker order, then zeros; the tracker is returned unchanged. -/
theorem generate_hid_report_task_layout (KEY_NUM LEN : Nat) (st : Tracker)
    (hwf : st.wf KEY_NUM) (hlen : 2 ≤ LEN) :
    ∃ report : List Nat,
      generate_hid_report_task LEN st = .ok (st, report) ∧
      report.length = LEN ∧
      report = modifier_byte st.live :: 0 ::
        ((regular_keys st.live).take (LEN - 2) ++
          List.replicate (LEN - 2 - ((regular_keys st.live).take (LEN - 2)).length) 0) := by
  obtain ⟨K, rfl⟩ : ∃ K, LEN = K + 2 := ⟨LEN - 2, by omega⟩
  have hb : 0 + st.next_key ≤ st.keys.length := by
    have := hwf.1; have := hwf.2; omega
  have h0 := report_list_spec K st.live 0 [] (Nat.zero_le _)
  simp only [List.nil_append, List.length_nil, Nat.sub_zero, Nat.add_zero, Tracker.live] at h0
  have hrep : List.replicate (K + 2) 0 = 0 :: 0 :: List.replicate K 0 := by
    simp [List.replicate_succ]
  refine ⟨_, ?_, ?_, rfl⟩
  · unfold generate_hid_report_task
    rw [report_loop_eq_list _ _ _ _ _ _ hb, hrep]
    simp only [List.drop_zero]
    rw [h0]
    simp [bind, Except.bind, modifier_byte, Tracker.live]
  · simp

/-- C1 at `report_example` with an 8-byte report. -/
theorem generate_hid_report_task_layout_witness :
    report_example.wf 3 ∧ 2 ≤ 8 ∧
    ∃ report : List Nat,
      generate_hid_report_task 8 report_example = .ok (report_example, report) ∧
      report.length = 8 ∧
      report = modifier_byte report_example.live :: 0 ::
        ((regular_keys report_example.live).take (8 - 2) ++
          List.replicate (8 - 2 - ((regular_keys report_example.live).take (8 - 2)).length) 0) :=
  ⟨⟨rfl, by decide⟩, by decide,
    generate_hid_report_task_layout 3 8 report_example ⟨rfl, by decide⟩ (by decide)⟩

/-! ## The key tracker -/

theorem write_eq_ok {α : Type} {xs : List α} {i : Nat} (x : α) (h : i < xs.length) :
    write xs i x = .ok (xs.set i x) := by
  simp [write, h]

theorem find_entry_found (key : key_index_t) :
    ∀ (l1 : List key_index_t) (e : key_index_t) (l2 : List key_index_t) (i : Nat),
      (∀ k ∈ l1, ¬(k.index = key.index ∧ k.source = key.source)) →
      e.index = key.index → e.source = key.source →
      find_entry (l1 ++ e :: l2) key i = .ok (i + l1.length) := by
  intro l1
  induction l1 with
  | nil => intro e l2 i _ h1 h2; simp [find_entry, h1, h2]
  | cons a l1 ih =>
    intro e l2 i hno h1 h2
    have ha : a.index ≠ key.index ∨ a.source ≠ key.source := by
      have := hno a (List.mem_cons_self _ _)
      by_cases h : a.index = key.index
      · right; intro h3; exact this ⟨h, h3⟩
      · left; exact h
    have := ih e l2 (i + 1) (fun k hk => hno k (List.mem_cons_of_mem _ hk)) h1 h2
    rw [List.cons_append, find_entry, if_pos ha, this, List.length_cons]
    congr 1
    omega

theorem find_entry_none (key : key_index_t) :
    ∀ (l : List key_index_t) (i : Nat),
      (∀ k ∈ l, ¬(k.index = key.index ∧ k.source = key.source)) →
      find_entry l key i = .error .out_of_bounds := by
  intro l
  induction l with
  | nil => intro i _; rfl
  | cons a l ih =>
    intro i hno
    have ha : a.index ≠ key.index ∨ a.source ≠ key.source := by
      have := hno a (List.mem_cons_self _ _)
      by_cases h : a.index = key.index
      · right; intro h3; exact this ⟨h, h3⟩
      · left; exact h
    simp only [find_entry, if_pos ha]
    exact ih (i + 1) (fun k hk => hno k (List.mem_cons_of_mem _ hk))

theorem shift_left_spec :
    ∀ (mid l1 : List key_index_t) (e : key_index_t) (rest : List key_index_t),
      ∃ x, shift_left mid.length (l1 ++ e :: (mid ++ rest)) l1.length
        = .ok (l1 ++ (mid ++ x :: rest), l1.length + mid.length) := by
  intro mid
  induction mid with
  | nil => intro l1 e rest; exact ⟨e, by simp [shift_left]⟩
  | cons a mid ih =>
    intro l1 e rest
    obtain ⟨x, hx⟩ := ih (l1 ++ [a]) a rest
    refine ⟨x, ?_⟩
    have hr : read (l1 ++ e :: (a :: mid ++ rest)) (l1.length + 1) = .ok a := by
      apply read_eq_ok
      rw [List.getElem?_append_right (by omega)]
      simp
    have hw : write (l1 ++ e :: (a :: mid ++ rest)) l1.length a
        = .ok ((l1 ++ [a]) ++ a :: (mid ++ rest)) := by
      rw [write_eq_ok _ (by simp)]
      simp
    simp only [List.length_cons, shift_left, hr, hw, bind, Except.bind]
    have hl : l1.length + 1 = (l1 ++ [a]).length := by simp
    rw [hl, hx]
    simp
    omega

theorem release_loop_found (key : key_index_t) (fuel : Nat)
    (l1 : List key_index_t) (e : key_index_t) (mid rest : List key_index_t)
    (hno : ∀ k ∈ l1, ¬(k.index = key.index ∧ k.source = key.source))
    (h1 : e.index = key.index) (h2 : e.source = key.source) :
    release_loop key (fuel + 2)
        { keys := l1 ++ e :: (mid ++ rest), next_key := l1.length + 1 + mid.length } 0
      = .ok { keys := l1 ++ (mid ++ key_index_t.zero :: rest),
              next_key := l1.length + mid.length } := by
  obtain ⟨x, hx⟩ := shift_left_spec mid l1 e rest
  have hf := find_entry_found key l1 e (mid ++ rest) 0 hno h1 h2
  have hn : l1.length + 1 + mid.length - 1 - l1.length = mid.length := by omega
  have hn2 : l1.length + 1 + mid.length - 1 = l1.length + mid.length := by omega
  have hw : write (l1 ++ (mid ++ x :: rest)) (l1.length + mid.length) key_index_t.zero
      = .ok (l1 ++ (mid ++ key_index_t.zero :: rest)) := by
    rw [write_eq_ok _ (by simp)]
    congr 1
    rw [List.set_append_right _ _ (by omega)]
    simp
  have hlt : 0 < l1.length + 1 + mid.length := by omega
  have hlt2 : l1.length < l1.length + 1 + mid.length := by omega
  have hn3 : l1.length + mid.length - l1.length = mid.length := by omega
  rw [Nat.zero_add] at hf
  rw [release_loop, if_pos hlt]
  simp only [List.drop_zero, hf, bind, Except.bind, if_pos hlt2, hn, hx, hn2, hn3, hw]
  rw [release_loop, if_neg (Nat.lt_irrefl _)]

theorem int8_wrap_neg_neg (p : Int) (hp : 1 ≤ p ∧ p ≤ 127) : int8_wrap (- -p) = p := by
  unfold int8_wrap
  omega

theorem update_key_index_release_split (KEY_NUM : Nat) (p : Int) (s : Nat)
    (hp : 1 ≤ p ∧ p ≤ 127) (l1 : List key_index_t) (e : key_index_t)
    (mid rest : List key_index_t)
    (hno : ∀ k ∈ l1, ¬(k.index = p ∧ k.source = s)) (h1 : e.index = p) (h2 : e.source = s) :
    update_key_index KEY_NUM
        { keys := l1 ++ e :: (mid ++ rest), next_key := l1.length + 1 + mid.length } (-p) s
      = .ok { keys := l1 ++ (mid ++ key_index_t.zero :: rest),
              next_key := l1.length + mid.length } := by
  have hneg : ¬ (-p > 0) := by omega
  have hfuel : l1.length + 1 + mid.length + 1 = (l1.length + mid.length) + 2 := by omega
  unfold update_key_index
  simp only [hneg, and_false, if_false]
  rw [if_pos ⟨by omega, by omega⟩, int8_wrap_neg_neg p hp, hfuel]
  exact release_loop_found _ _ l1 e mid rest hno h1 h2

theorem exists_first_split {α : Type} (P : α → Prop) :
    ∀ l : List α, (∃ x ∈ l, P x) →
      ∃ l1 e l2, l = l1 ++ e :: l2 ∧ P e ∧ ∀ k ∈ l1, ¬ P k := by
  intro l
  induction l with
  | nil => intro h; obtain ⟨x, hx, _⟩ := h; cases hx
  | cons a l ih =>
    intro h
    by_cases ha : P a
    · exact ⟨[], a, l, rfl, ha, fun k hk => by cases hk⟩
    · obtain ⟨x, hx, hPx⟩ := h
      have hx2 : x ∈ l := by
        rcases List.mem_cons.1 hx with h | h
        · exact absurd (h ▸ hPx) ha
        · exact h
      obtain ⟨l1, e, l2, hl, he, hno⟩ := ih ⟨x, hx2, hPx⟩
      refine ⟨a :: l1, e, l2, by simp [hl], he, ?_⟩
      intro k hk
      rcases List.mem_cons.1 hk with h | h
      · exact h ▸ ha
      · exact hno k h

theorem tracker_split (KEY_NUM : Nat) (st : Tracker) (p : Int) (s : Nat) (hwf : st.wf KEY_NUM)
    (hm : ∃ i, i < st.next_key ∧ ∃ k, st.keys[i]? = some k ∧ k.index = p ∧ k.source = s) :
    ∃ l1 e mid rest, st = { keys := l1 ++ e :: (mid ++ rest),
                            next_key := l1.length + 1 + mid.length } ∧
      e.index = p ∧ e.source = s ∧ ∀ k ∈ l1, ¬(k.index = p ∧ k.source = s) := by
  obtain ⟨i, hi, k, hk, hkp, hks⟩ := hm
  have hle : st.next_key ≤ st.keys.length := by
    have := hwf.1; have := hwf.2; omega
  have hmem : ∃ x ∈ st.keys.take st.next_key, x.index = p ∧ x.source = s := by
    refine ⟨k, ?_, hkp, hks⟩
    rw [List.mem_iff_getElem?]
    exact ⟨i, by rw [List.getElem?_take_of_lt hi]; exact hk⟩
  obtain ⟨l1, e, mid, hl, ⟨he1, he2⟩, hno⟩ :=
    exists_first_split (fun x : key_index_t => x.index = p ∧ x.source = s) _ hmem
  refine ⟨l1, e, mid, st.keys.drop st.next_key, ?_, he1, he2, hno⟩
  have hlen : (st.keys.take st.next_key).length = st.next_key := by
    simp [List.length_take]; omega
  have hk2 : st.keys = l1 ++ e :: (mid ++ st.keys.drop st.next_key) := by
    conv_lhs => rw [← List.take_append_drop st.next_key st.keys, hl]
    simp
  have hn : st.next_key = l1.length + 1 + mid.length := by
    rw [← hlen, hl]; simp; omega
  cases st with
  | mk keys next_key =>
    simp only at hk2 hn ⊢
    rw [← hn, ← hk2]

/-- C2: a release `-p` from source `s` that matches a live entry removes the
first such entry (slot `j`), moves every later live entry one slot to the
left, leaves the earlier entries untouched, keeps the order of the survivors
(the live entries are the old ones with slot `j` erased) and decreases
`next_key` by exactly 1. -/
theorem update_key_index_release_removes_first (KEY_NUM : Nat) (st : Tracker) (p : Int) (s : Nat)
    (hwf : st.wf KEY_NUM) (hp : 1 ≤ p ∧ p ≤ 127)
    (hm : ∃ i, i < st.next_key ∧ ∃ k, st.keys[i]? = some k ∧ k.index = p ∧ k.source = s) :
    ∃ (j : Nat) (st' : Tracker),
      update_key_index KEY_NUM st (-p) s = .ok st' ∧
      j < st.next_key ∧
      (∃ k, st.keys[j]? = some k ∧ k.index = p ∧ k.source = s) ∧
      (∀ i, i < j → ∀ k, st.keys[i]? = some k → ¬(k.index = p ∧ k.source = s)) ∧
      st'.next_key + 1 = st.next_key ∧
      (∀ i, i < j → st'.keys[i]? = st.keys[i]?) ∧
      (∀ i, j ≤ i → i < st'.next_key → st'.keys[i]? = st.keys[i + 1]?) ∧
      st'.live = st.live.eraseIdx j ∧
      st'.wf KEY_NUM := by
  obtain ⟨l1, e, mid, rest, rfl, he1, he2, hno⟩ := tracker_split KEY_NUM st p s hwf hm
  refine ⟨l1.length, _, update_key_index_release_split KEY_NUM p s hp l1 e mid rest hno he1 he2,
    ?_, ?_, ?_, ?_, ?_, ?_, ?_, ?_⟩
  · simp only; omega
  · refine ⟨e, ?_, he1, he2⟩
    simp only
    rw [List.getElem?_append_right (Nat.le_refl _)]
    simp
  · intro i hi k hk
    simp only at hk
    rw [List.getElem?_append_left hi] at hk
    exact hno k (List.getElem?_mem hk)
  · simp only; omega
  · intro i hi
    simp only
    rw [List.getElem?_append_left hi, List.getElem?_append_left hi]
  · intro i hji hi
    simp only at hi ⊢
    obtain ⟨t, rfl⟩ : ∃ t, i = l1.length + t := ⟨i - l1.length, by omega⟩
    have ht : t < mid.length := by omega
    have h3 : l1.length + t + 1 - l1.length = t + 1 := by omega
    have hle : l1.length ≤ l1.length + t + 1 := by omega
    rw [List.getElem?_append_right (Nat.le_add_right _ _),
      @List.getElem?_append_right _ l1 _ (l1.length + t + 1) hle,
      Nat.add_sub_cancel_left, h3, List.getElem?_cons_succ,
      List.getElem?_append_left ht, List.getElem?_append_left ht]
  · simp only [Tracker.live]
    have h4 : l1.length + 1 + mid.length = l1.length + (mid.length + 1) := by omega
    have h5 : e :: (mid ++ rest) = (e :: mid) ++ rest := rfl
    have hlen : (e :: mid).length = mid.length + 1 := rfl
    rw [h4, List.take_append, List.take_append, h5,
      List.take_left' hlen, List.take_left,
      List.eraseIdx_append_of_length_le (Nat.le_refl _)]
    simp
  · obtain ⟨h1, h2⟩ := hwf
    simp only at h1 h2
    constructor
    · simp only; rw [← h1]; simp; omega
    · simp only; omega

/-- C2 at `release_example`: releasing position 7 of source 0. -/
theorem update_key_index_release_removes_first_witness :
    release_example.wf 4 ∧ (1 ≤ (7 : Int) ∧ (7 : Int) ≤ 127) ∧
    (∃ i, i < release_example.next_key ∧
      ∃ k, release_example.keys[i]? = some k ∧ k.index = 7 ∧ k.source = 0) ∧
    ∃ (j : Nat) (st' : Tracker),
      update_key_index 4 release_example (-7) 0 = .ok st' ∧
      j < release_example.next_key ∧
      (∃ k, release_example.keys[j]? = some k ∧ k.index = 7 ∧ k.source = 0) ∧
      (∀ i, i < j → ∀ k, release_example.keys[i]? = some k → ¬(k.index = 7 ∧ k.source = 0)) ∧
      st'.next_key + 1 = release_example.next_key ∧
      (∀ i, i < j → st'.keys[i]? = release_example.keys[i]?) ∧
      (∀ i, j ≤ i → i < st'.next_key → st'.keys[i]? = release_example.keys[i + 1]?) ∧
      st'.live = release_example.live.eraseIdx j ∧
      st'.wf 4 :=
  ⟨⟨rfl, by decide⟩, ⟨by decide, by decide⟩,
    ⟨2, by decide, key_index_t.pressed 7 0, rfl, rfl, rfl⟩,
    update_key_index_release_removes_first 4 release_example 7 0 ⟨rfl, by decide⟩
      ⟨by decide, by decide⟩ ⟨2, by decide, key_index_t.pressed 7 0, rfl, rfl, rfl⟩⟩

/-- C3: a press `p > 0` from source `s` on a tracker that is not full stores
at slot `next_key` the entry with index `p`, source `s` and every other field
zero, increases `next_key` by 1 and changes no other slot; on a full tracker
(`next_key = KEY_NUM`) it returns the tracker unchanged. -/
theorem update_key_index_press (KEY_NUM : Nat) (st : Tracker) (p : Int) (s : Nat)
    (hwf : st.wf KEY_NUM) (hp : 0 < p) :
    (st.next_key < KEY_NUM →
      ∃ st' : Tracker,
        update_key_index KEY_NUM st p s = .ok st' ∧
        st'.keys[st.next_key]? =
          some { index := p, source := s, translated := false, has_modifiers := false,
                 is_key := false, modifiers := 0, key := 0 } ∧
        st'.next_key = st.next_key + 1 ∧
        (∀ i, i ≠ st.next_key → st'.keys[i]? = st.keys[i]?) ∧
        st'.wf KEY_NUM) ∧
    (st.next_key = KEY_NUM → update_key_index KEY_NUM st p s = .ok st) := by
  obtain ⟨h1, h2⟩ := hwf
  constructor
  · intro hlt
    refine ⟨{ keys := st.keys.set st.next_key (key_index_t.pressed p s),
              next_key := st.next_key + 1 }, ?_, ?_, rfl, ?_, ?_⟩
    · unfold update_key_index
      simp only [if_pos (And.intro hlt (show p > 0 from hp))]
      rw [write_eq_ok _ (by omega)]
      rfl
    · simp only
      rw [List.getElem?_set_self (by omega)]
      rfl
    · intro i hi
      simp only
      rw [List.getElem?_set_ne (Ne.symm hi)]
    · exact ⟨by simp [h1], by simp only; omega⟩
  · intro hfull
    unfold update_key_index
    have h3 : ¬ (st.next_key < KEY_NUM ∧ p > 0) := by omega
    have h4 : ¬ (st.next_key > 0 ∧ p < 0) := by omega
    simp only [if_neg h3, if_neg h4]

/-- C3 at `release_example` (not full, `KEY_NUM = 4`) for a press of position 9
from source 1. -/
theorem update_key_index_press_witness :
    release_example.wf 4 ∧ (0 : Int) < 9 ∧
    ((release_example.next_key < 4 →
      ∃ st' : Tracker,
        update_key_index 4 release_example 9 1 = .ok st' ∧
        st'.keys[release_example.next_key]? =
          some { index := 9, source := 1, translated := false, has_modifiers := false,
                 is_key := false, modifiers := 0, key := 0 } ∧
        st'.next_key = release_example.next_key + 1 ∧
        (∀ i, i ≠ release_example.next_key → st'.keys[i]? = release_example.keys[i]?) ∧
        st'.wf 4) ∧
    (release_example.next_key = 4 → update_key_index 4 release_example 9 1 = .ok release_example)) :=
  ⟨⟨rfl, by decide⟩, by decide,
    update_key_index_press 4 release_example 9 1 ⟨rfl, by decide⟩ (by decide)⟩

/-- C4 (the code departs from the claim): on a tracker that holds at least one
key and whose free slots are zeroed, a release `-p` from source `s` that
matches no live entry does not return: the unbounded inner scan of
`update_key_index` reads past the end of `keys`. -/
theorem update_key_index_release_unmatched_faults (KEY_NUM : Nat) (st : Tracker) (p : Int)
    (s : Nat) (hp : 1 ≤ p ∧ p ≤ 127) (hpos : 0 < st.next_key)
    (hno : ∀ i, i < st.next_key → ∀ k, st.keys[i]? = some k → ¬(k.index = p ∧ k.source = s))
    (hdead : ∀ i, st.next_key ≤ i → ∀ k, st.keys[i]? = some k → k = key_index_t.zero) :
    update_key_index KEY_NUM st (-p) s = .error .out_of_bounds := by
  have hall : ∀ k ∈ st.keys, ¬(k.index = p ∧ k.source = s) := by
    intro k hk
    obtain ⟨i, hi⟩ := List.mem_iff_getElem?.1 hk
    by_cases hlt : i < st.next_key
    · exact hno i hlt k hi
    · have hz := hdead i (by omega) k hi
      intro h
      rw [hz] at h
      have : (0 : Int) = p := h.1
      omega
  have hneg : ¬ (-p > 0) := by omega
  unfold update_key_index
  simp only [hneg, and_false, if_false]
  rw [if_pos ⟨by omega, by omega⟩, int8_wrap_neg_neg p hp, release_loop, if_pos hpos,
    List.drop_zero, find_entry_none _ _ _ hall]
  rfl

/-- C4 at `overflow_example`: with `KEY_NUM = 2` keys held, the release of a
third key (whose press was dropped) faults. -/
theorem update_key_index_release_unmatched_faults_witness :
    (1 ≤ (3 : Int) ∧ (3 : Int) ≤ 127) ∧ 0 < overflow_example.next_key ∧
    (∀ i, i < overflow_example.next_key → ∀ k, overflow_example.keys[i]? = some k →
      ¬(k.index = 3 ∧ k.source = 0)) ∧
    (∀ i, overflow_example.next_key ≤ i → ∀ k, overflow_example.keys[i]? = some k →
      k = key_index_t.zero) ∧
    update_key_index 2 overflow_example (-3) 0 = .error .out_of_bounds :=
  have hno : ∀ i, i < overflow_example.next_key → ∀ k, overflow_example.keys[i]? = some k →
      ¬(k.index = 3 ∧ k.source = 0) := by
    intro i hi k hk
    have h2 : i < 2 := hi
    interval_cases i
    · cases (Option.some.inj hk); decide
    · cases (Option.some.inj hk); decide
  have hdead : ∀ i, overflow_example.next_key ≤ i → ∀ k, overflow_example.keys[i]? = some k →
      k = key_index_t.zero := by
    intro i hi k hk
    have h2 : 2 ≤ i := hi
    have : overflow_example.keys[i]? = none := List.getElem?_eq_none (by simpa using h2)
    rw [this] at hk
    cases hk
  ⟨⟨by decide, by decide⟩, by decide, hno, hdead,
    update_key_index_release_unmatched_faults 2 overflow_example 3 0 ⟨by decide, by decide⟩
      (by decide) hno hdead⟩

theorem of_live_nil (KEY_NUM : Nat) : Tracker.of_live KEY_NUM [] = Tracker.empty KEY_NUM := by
  simp [Tracker.of_live, Tracker.empty]

theorem update_key_index_press_of_live (KEY_NUM : Nat) (l : List key_index_t) (p : Int) (s : Nat)
    (hp : 0 < p) (hl : l.length < KEY_NUM) :
    update_key_index KEY_NUM (Tracker.of_live KEY_NUM l) p s
      = .ok (Tracker.of_live KEY_NUM (l ++ [key_index_t.pressed p s])) := by
  obtain ⟨n, hn⟩ : ∃ n, KEY_NUM - l.length = n + 1 := ⟨KEY_NUM - l.length - 1, by omega⟩
  have hn2 : KEY_NUM - (l.length + 1) = n := by omega
  unfold update_key_index Tracker.of_live
  simp only [if_pos (And.intro hl (show p > 0 from hp))]
  rw [write_eq_ok _ (by simp; omega), hn]
  simp only [bind, Except.bind, List.length_append, List.length_singleton, hn2]
  rw [List.set_append_right _ _ (Nat.le_refl _)]
  simp [List.replicate_succ, key_index_t.pressed]

theorem update_key_index_release_of_live (KEY_NUM : Nat) (p : Int) (s : Nat)
    (hp : 1 ≤ p ∧ p ≤ 127) (l1 : List key_index_t) (e : key_index_t) (l2 : List key_index_t)
    (hlen : (l1 ++ e :: l2).length ≤ KEY_NUM)
    (hno : ∀ k ∈ l1, ¬(k.index = p ∧ k.source = s)) (h1 : e.index = p) (h2 : e.source = s) :
    update_key_index KEY_NUM (Tracker.of_live KEY_NUM (l1 ++ e :: l2)) (-p) s
      = .ok (Tracker.of_live KEY_NUM (l1 ++ l2)) := by
  have h := update_key_index_release_split KEY_NUM p s hp l1 e l2
    (List.replicate (KEY_NUM - (l1 ++ e :: l2).length) key_index_t.zero) hno h1 h2
  simp only [List.length_append, List.length_cons] at hlen
  have hrep : KEY_NUM - (l1 ++ l2).length = (KEY_NUM - (l1 ++ e :: l2).length) + 1 := by
    simp only [List.length_append, List.length_cons]; omega
  unfold Tracker.of_live
  rw [hrep, List.replicate_succ]
  simp only [List.length_append, List.length_cons, List.append_assoc, List.cons_append] at h ⊢
  have hn : l1.length + (l2.length + 1) = l1.length + 1 + l2.length := by omega
  rw [hn] at h ⊢
  exact h

theorem run_updates_append (KEY_NUM : Nat) :
    ∀ (xs ys : List (Int × Nat)) (st : Tracker),
      run_updates KEY_NUM st (xs ++ ys)
        = (run_updates KEY_NUM st xs >>= fun st' => run_updates KEY_NUM st' ys) := by
  intro xs
  induction xs with
  | nil => intro ys st; rfl
  | cons x xs ih =>
    intro ys st
    obtain ⟨d, s⟩ := x
    simp only [List.cons_append, run_updates, bind, Except.bind]
    cases update_key_index KEY_NUM st d s with
    | error e => rfl
    | ok st1 => exact ih ys st1

theorem run_updates_presses (KEY_NUM : Nat) :
    ∀ (ps : List (Int × Nat)) (l : List key_index_t),
      (∀ x ∈ ps, 0 < x.1) → l.length + ps.length ≤ KEY_NUM →
      run_updates KEY_NUM (Tracker.of_live KEY_NUM l) ps
        = .ok (Tracker.of_live KEY_NUM (l ++ ps.map pressed_pair)) := by
  intro ps
  induction ps with
  | nil => intro l _ _; simp [run_updates]
  | cons x ps ih =>
    intro l hpos hlen
    obtain ⟨p, s⟩ := x
    simp only [List.length_cons] at hlen
    have hp : 0 < p := hpos (p, s) (List.mem_cons_self _ _)
    simp only [run_updates, update_key_index_press_of_live KEY_NUM l p s hp (by omega), bind,
      Except.bind]
    rw [ih (l ++ [key_index_t.pressed p s]) (fun y hy => hpos y (List.mem_cons_of_mem _ hy))
      (by simp; omega)]
    simp [pressed_pair]

theorem run_updates_releases (KEY_NUM : Nat) :
    ∀ (rs ps : List (Int × Nat)),
      ps.Nodup → rs.Perm ps → ps.length ≤ KEY_NUM → (∀ x ∈ ps, 1 ≤ x.1 ∧ x.1 ≤ 127) →
      run_updates KEY_NUM (Tracker.of_live KEY_NUM (ps.map pressed_pair)) (rs.map release_of)
        = .ok (Tracker.of_live KEY_NUM []) := by
  intro rs
  induction rs with
  | nil =>
    intro ps _ hperm _ _
    have : ps = [] := List.Perm.eq_nil (List.Perm.symm hperm)
    subst this
    rfl
  | cons r rs ih =>
    intro ps hnd hperm hlen hrange
    have hmem : r ∈ ps := (List.Perm.mem_iff hperm).1 (List.mem_cons_self _ _)
    obtain ⟨a, b, rfl⟩ := List.append_of_mem hmem
    have hnd2 : (r :: (a ++ b)).Nodup := List.nodup_middle.1 hnd
    have hra : r ∉ a := fun h => (List.nodup_cons.1 hnd2).1 (List.mem_append_left _ h)
    have hperm2 : rs.Perm (a ++ b) :=
      List.Perm.cons_inv (List.Perm.trans hperm List.perm_middle)
    obtain ⟨p, s⟩ := r
    have hp := hrange (p, s) hmem
    have hno : ∀ k ∈ a.map pressed_pair, ¬(k.index = p ∧ k.source = s) := by
      intro k hk hks
      obtain ⟨y, hy, rfl⟩ := List.mem_map.1 hk
      apply hra
      have : y = (p, s) := Prod.ext hks.1 hks.2
      rw [← this]
      exact hy
    have hstep := update_key_index_release_of_live KEY_NUM p s hp (a.map pressed_pair)
      (pressed_pair (p, s)) (b.map pressed_pair) (by simpa using hlen) hno rfl rfl
    have hlen2 : (a ++ b).length ≤ KEY_NUM := by
      simp only [List.length_append, List.length_cons] at hlen ⊢; omega
    have hih := ih (a ++ b) (List.nodup_cons.1 hnd2).2 hperm2 hlen2
      (fun y hy => hrange y (by
        rcases List.mem_append.1 hy with h | h
        · exact List.mem_append_left _ h
        · exact List.mem_append_right _ (List.mem_cons_of_mem _ h)))
    simp only [List.map_append, List.map_cons] at hstep hih ⊢
    simp only [release_of, run_updates, hstep, bind, Except.bind]
    exact hih

/-- C5: from the empty tracker, pressing `N ≤ KEY_NUM` pairwise distinct
(position, source) pairs with positions in `1..127` in list order `ps` and
then releasing them in any permuted order `rs` yields the empty tracker
(`next_key = 0`, every slot zeroed). -/
theorem press_all_release_all_empty (KEY_NUM : Nat) (ps rs : List (Int × Nat))
    (hnd : ps.Nodup) (hperm : rs.Perm ps) (hlen : ps.length ≤ KEY_NUM)
    (hrange : ∀ x ∈ ps, 1 ≤ x.1 ∧ x.1 ≤ 127) :
    run_updates KEY_NUM (Tracker.empty KEY_NUM) (ps ++ rs.map release_of)
      = .ok (Tracker.empty KEY_NUM) := by
  rw [run_updates_append, ← of_live_nil,
    run_updates_presses KEY_NUM ps [] (fun x hx => by have := hrange x hx; omega)
      (by simpa using hlen)]
  simp only [bind, Except.bind, List.nil_append]
  exact run_updates_releases KEY_NUM rs ps hnd hperm hlen hrange

/-- C5 with `KEY_NUM = 3`: three presses, released in a different order. -/
theorem press_all_release_all_empty_witness :
    [((4 : Int), 0), (9, 1), (4, 1)].Nodup ∧
    [((4 : Int), 1), ((4 : Int), 0), ((9 : Int), 1)].Perm [((4 : Int), 0), (9, 1), (4, 1)] ∧
    [((4 : Int), 0), (9, 1), (4, 1)].length ≤ 3 ∧
    (∀ x ∈ [((4 : Int), 0), (9, 1), (4, 1)], 1 ≤ x.1 ∧ x.1 ≤ 127) ∧
    run_updates 3 (Tracker.empty 3)
        ([((4 : Int), 0), (9, 1), (4, 1)] ++ [((4 : Int), 1), ((4 : Int), 0), ((9 : Int), 1)].map release_of)
      = .ok (Tracker.empty 3) :=
  ⟨by decide, by decide, by decide, by decide,
    press_all_release_all_empty 3 [((4 : Int), 0), (9, 1), (4, 1)]
      [((4 : Int), 1), ((4 : Int), 0), ((9 : Int), 1)] (by decide) (by decide) (by decide) (by decide)⟩

theorem release_loop_sublist (key : key_index_t) (fuel : Nat) (st st' : Tracker)
    (hle : st.next_key ≤ st.keys.length) (hpos : 0 < st.next_key)
    (hok : release_loop key (fuel + 2) st 0 = .ok st') :
    st'.live.Sublist st.live ∧ st'.keys.length = st.keys.length ∧ st'.next_key ≤ st.next_key := by
  by_cases hex : ∃ x ∈ st.keys, x.index = key.index ∧ x.source = key.source
  · obtain ⟨l1, e, l2, hl, ⟨he1, he2⟩, hno⟩ :=
      exists_first_split (fun x : key_index_t => x.index = key.index ∧ x.source = key.source)
        _ hex
    obtain ⟨keys, next_key⟩ := st
    simp only at hl hle hpos
    subst hl
    simp only [List.length_append, List.length_cons] at hle
    by_cases hlt : l1.length < next_key
    · have hmid : (l2.take (next_key - 1 - l1.length)).length = next_key - 1 - l1.length := by
        rw [List.length_take]; omega
      have hkeys : l1 ++ e :: l2 = l1 ++ e :: (l2.take (next_key - 1 - l1.length)
          ++ l2.drop (next_key - 1 - l1.length)) := by
        rw [List.take_append_drop]
      have hn : next_key = l1.length + 1 + (l2.take (next_key - 1 - l1.length)).length := by
        rw [hmid]; omega
      have hfound := release_loop_found key fuel l1 e (l2.take (next_key - 1 - l1.length))
        (l2.drop (next_key - 1 - l1.length)) hno he1 he2
      rw [← hkeys, ← hn, hok] at hfound
      have hst' := Except.ok.inj hfound
      subst hst'
      refine ⟨?_, ?_, ?_⟩
      · simp only [Tracker.live]
        have h5 : next_key = l1.length + ((l2.take (next_key - 1 - l1.length)).length + 1) := by
          omega
        have h6 : e :: l2 = e :: (l2.take (next_key - 1 - l1.length)
            ++ l2.drop (next_key - 1 - l1.length)) := by
          rw [List.take_append_drop]
        have h7 : ∀ (a : key_index_t) (m r : List key_index_t), a :: (m ++ r) = (a :: m) ++ r :=
          fun _ _ _ => rfl
        rw [List.take_append, List.take_left]
        conv_rhs => rw [h5, List.take_append, h6, h7, List.take_left' (by simp)]
        exact List.Sublist.append_left (List.sublist_cons_self _ _) _
      · simp only [List.length_append, List.length_cons, List.length_take, List.length_drop]
        omega
      · simp only; omega
    · have hf := find_entry_found key l1 e l2 0 hno he1 he2
      rw [Nat.zero_add] at hf
      rw [release_loop, if_pos hpos] at hok
      simp only [List.drop_zero, hf, bind, Except.bind, if_neg hlt] at hok
      rw [release_loop, if_neg hlt] at hok
      have hst' := Except.ok.inj hok
      subst hst'
      exact ⟨List.Sublist.refl _, rfl, Nat.le_refl _⟩
  · have hall : ∀ k ∈ st.keys, ¬(k.index = key.index ∧ k.source = key.source) :=
      fun k hk hm => hex ⟨k, hk, hm⟩
    rw [release_loop, if_pos hpos, List.drop_zero, find_entry_none _ _ _ hall] at hok
    cases hok

theorem release_loop_fuel_suffices (key : key_index_t) (fuel : Nat) (st : Tracker)
    (hle : st.next_key ≤ st.keys.length) (hpos : 0 < st.next_key) :
    release_loop key (fuel + 2) st 0 ≠ .error .out_of_fuel := by
  by_cases hex : ∃ x ∈ st.keys, x.index = key.index ∧ x.source = key.source
  · obtain ⟨l1, e, l2, hl, ⟨he1, he2⟩, hno⟩ :=
      exists_first_split (fun x : key_index_t => x.index = key.index ∧ x.source = key.source)
        _ hex
    obtain ⟨keys, next_key⟩ := st
    simp only at hl hle hpos
    subst hl
    simp only [List.length_append, List.length_cons] at hle
    by_cases hlt : l1.length < next_key
    · have hmid : (l2.take (next_key - 1 - l1.length)).length = next_key - 1 - l1.length := by
        rw [List.length_take]; omega
      have hkeys : l1 ++ e :: l2 = l1 ++ e :: (l2.take (next_key - 1 - l1.length)
          ++ l2.drop (next_key - 1 - l1.length)) := by
        rw [List.take_append_drop]
      have hn : next_key = l1.length + 1 + (l2.take (next_key - 1 - l1.length)).length := by
        rw [hmid]; omega
      have hfound := release_loop_found key fuel l1 e (l2.take (next_key - 1 - l1.length))
        (l2.drop (next_key - 1 - l1.length)) hno he1 he2
      rw [← hkeys, ← hn] at hfound
      rw [hfound]
      simp
    · have hf := find_entry_found key l1 e l2 0 hno he1 he2
      rw [Nat.zero_add] at hf
      rw [release_loop, if_pos hpos]
      simp only [List.drop_zero, hf, bind, Except.bind, if_neg hlt]
      rw [release_loop, if_neg hlt]
      simp
  · have hall : ∀ k ∈ st.keys, ¬(k.index = key.index ∧ k.source = key.source) :=
      fun k hk hm => hex ⟨k, hk, hm⟩
    rw [release_loop, if_pos hpos, List.drop_zero, find_entry_none _ _ _ hall]
    simp [bind, Except.bind]

/-- The bound on the outer loop built into `update_key_index` is never the
reason for a failure: on a tracker whose `next_key` is within the array the
call either returns or reads outside the array. -/
theorem update_key_index_fuel_suffices (KEY_NUM : Nat) (st : Tracker) (delta : Int)
    (source : Nat) (hle : st.next_key ≤ st.keys.length) :
    update_key_index KEY_NUM st delta source ≠ .error .out_of_fuel := by
  unfold update_key_index
  simp only
  split
  · unfold write
    split <;> simp [bind, Except.bind]
  · split
    · rename_i _ hrel
      obtain ⟨fuel, hfuel⟩ : ∃ fuel, st.next_key + 1 = fuel + 2 := ⟨st.next_key - 1, by omega⟩
      rw [hfuel]
      exact release_loop_fuel_suffices _ fuel st hle hrel.1
    · simp

/-- C6 as stated fails: with position 1 of source 0 already live, a second
press of the same pair is appended, and two live entries share the pair. -/
theorem no_duplicates_broken_by_repeated_press :
    single_example.wf 2 ∧ single_example.no_duplicates ∧
    ∃ st' : Tracker, update_key_index 2 single_example 1 0 = .ok st' ∧ ¬ st'.no_duplicates := by
  refine ⟨⟨rfl, by decide⟩, ?_, ⟨double_example, by rfl, ?_⟩⟩
  · unfold Tracker.no_duplicates Tracker.live_pairs Tracker.live
    decide
  · unfold Tracker.no_duplicates Tracker.live_pairs Tracker.live
    decide

/-- C6 (amended): the predicate `no_duplicates` holds for the empty tracker and
is preserved by every call `update_key_index(delta, source)` that returns,
for every source, except a press that is accepted (`delta > 0`,
`next_key < KEY_NUM`) while its (delta, source) pair is already live. -/
theorem no_duplicates_preserved (KEY_NUM : Nat) :
    (Tracker.empty KEY_NUM).no_duplicates ∧
    ∀ (st st' : Tracker) (delta : Int) (source : Nat),
      st.wf KEY_NUM → st.no_duplicates →
      update_key_index KEY_NUM st delta source = .ok st' →
      (0 < delta → st.next_key < KEY_NUM → (delta, source) ∉ st.live_pairs) →
      st'.no_duplicates := by
  constructor
  · simp [Tracker.no_duplicates, Tracker.live_pairs, Tracker.live, Tracker.empty]
  · intro st st' delta source hwf hnd hok hfresh
    obtain ⟨h1, h2⟩ := hwf
    unfold update_key_index at hok
    simp only at hok
    by_cases hpress : st.next_key < KEY_NUM ∧ delta > 0
    · rw [if_pos hpress, write_eq_ok _ (by omega)] at hok
      have hst' := Except.ok.inj hok
      subst hst'
      have hlive : (st.keys.set st.next_key
          { key_index_t.zero with index := delta, source := source }).take (st.next_key + 1)
          = st.keys.take st.next_key
            ++ [{ key_index_t.zero with index := delta, source := source }] := by
        rw [List.take_succ, List.getElem?_set_self (by omega), List.set_take,
          List.set_eq_of_length_le (by rw [List.length_take]; omega)]
        rfl
      unfold Tracker.no_duplicates Tracker.live_pairs Tracker.live at hnd ⊢
      simp only [hlive, List.map_append, List.map_cons, List.map_nil]
      have hnot := hfresh hpress.2 hpress.1
      unfold Tracker.live_pairs Tracker.live at hnot
      rw [List.nodup_append]
      refine ⟨hnd, List.nodup_singleton _, ?_⟩
      intro x hx hx2
      rw [List.mem_singleton] at hx2
      exact hnot (hx2 ▸ hx)
    · rw [if_neg hpress] at hok
      by_cases hrel : st.next_key > 0 ∧ delta < 0
      · rw [if_pos hrel] at hok
        have hsub := (release_loop_sublist _ (st.next_key - 1) st st' (by omega) hrel.1
          (by rw [show st.next_key - 1 + 2 = st.next_key + 1 by omega]; exact hok)).1
        exact List.Nodup.sublist (List.Sublist.map _ hsub) hnd
      · rw [if_neg hrel] at hok
        have hst' := Except.ok.inj hok
        subst hst'
        exact hnd

/-- C6 (amended) at `single_example`: the press of a pair that is not live
keeps the predicate. -/
theorem no_duplicates_preserved_witness :
    single_example.wf 2 ∧ single_example.no_duplicates ∧
    update_key_index 2 single_example 2 0 = .ok pair_example ∧
    ((0 : Int) < 2 → single_example.next_key < 2 → ((2 : Int), 0) ∉ single_example.live_pairs) ∧
    pair_example.no_duplicates :=
  have hnd : single_example.no_duplicates := by
    unfold Tracker.no_duplicates Tracker.live_pairs Tracker.live
    decide
  have hfresh : (0 : Int) < 2 → single_example.next_key < 2 →
      ((2 : Int), 0) ∉ single_example.live_pairs := by
    intro _ _
    unfold Tracker.live_pairs Tracker.live
    decide
  ⟨⟨rfl, by decide⟩, hnd, by rfl, hfresh,
    (no_duplicates_preserved 2).2 single_example pair_example 2 0 ⟨rfl, by decide⟩ hnd
      (by rfl) hfresh⟩

/-! ## The per-cell debounce step -/

theorem ticks_countdown_pos (cfg : Debounce) (kp : Bool) (hD : 0 < cfg.SCAN_DELAY) (i : Nat)
    (hi : i < cfg.ticks kp) : 0 < cfg.threshold kp - i * cfg.SCAN_DELAY := by
  unfold Debounce.ticks at hi
  have hq := Int.ediv_add_emod (cfg.threshold kp + cfg.SCAN_DELAY - 1) cfg.SCAN_DELAY
  have he0 := Int.emod_nonneg (cfg.threshold kp + cfg.SCAN_DELAY - 1) (ne_of_gt hD)
  generalize (cfg.threshold kp + cfg.SCAN_DELAY - 1) / cfg.SCAN_DELAY = q at hi hq
  generalize (cfg.threshold kp + cfg.SCAN_DELAY - 1) % cfg.SCAN_DELAY = e at hq he0
  have hiq : (i : Int) + 1 ≤ q := by omega
  have hmul : 0 ≤ cfg.SCAN_DELAY * (q - i - 1) := mul_nonneg (le_of_lt hD) (by omega)
  nlinarith

theorem ticks_countdown_done (cfg : Debounce) (kp : Bool) (hD : 0 < cfg.SCAN_DELAY) :
    cfg.threshold kp - cfg.ticks kp * cfg.SCAN_DELAY ≤ 0 := by
  unfold Debounce.ticks
  have hq := Int.ediv_add_emod (cfg.threshold kp + cfg.SCAN_DELAY - 1) cfg.SCAN_DELAY
  have he1 := Int.emod_lt_of_pos (cfg.threshold kp + cfg.SCAN_DELAY - 1) hD
  have he0 := Int.emod_nonneg (cfg.threshold kp + cfg.SCAN_DELAY - 1) (ne_of_gt hD)
  generalize (cfg.threshold kp + cfg.SCAN_DELAY - 1) / cfg.SCAN_DELAY = q at hq
  generalize (cfg.threshold kp + cfg.SCAN_DELAY - 1) % cfg.SCAN_DELAY = e at hq he0 he1
  by_cases hq0 : 0 ≤ q
  · have ht : ((q.toNat : Nat) : Int) = q := Int.toNat_of_nonneg hq0
    rw [ht]
    nlinarith
  · have ht : q.toNat = 0 := by omega
    rw [ht]
    have hmul : cfg.SCAN_DELAY * q ≤ cfg.SCAN_DELAY * (-1) :=
      mul_le_mul_of_nonneg_left (by omega) (le_of_lt hD)
    push_cast
    nlinarith

theorem cell_run_append (cfg : Debounce) (m : Int) :
    ∀ (xs ys : List Bool) (c : Cell),
      cell_run cfg m c (xs ++ ys)
        = ((cell_run cfg m (cell_run cfg m c xs).1 ys).1,
           (cell_run cfg m c xs).2 ++ (cell_run cfg m (cell_run cfg m c xs).1 ys).2) := by
  intro xs
  induction xs with
  | nil => intro ys c; simp [cell_run]
  | cons x xs ih =>
    intro ys c
    have hih := ih ys (cell_step cfg m c x).1
    simp only [List.cons_append, cell_run]
    rw [show xs.append ys = xs ++ ys from rfl, hih]
    simp

theorem cell_run_countdown (cfg : Debounce) (m : Int) (kp : Bool) :
    ∀ (n : Nat) (c : Cell), c.key_pressed = kp →
      (∀ i : Nat, i < n → 0 < c.debounce - i * cfg.SCAN_DELAY) →
      cell_run cfg m c (List.replicate n (!kp))
        = ({ key_pressed := kp, debounce := c.debounce - n * cfg.SCAN_DELAY }, []) := by
  intro n
  induction n with
  | zero =>
    intro c hc _
    obtain ⟨k, d⟩ := c
    simp only at hc
    subst hc
    simp [cell_run]
  | succ n ih =>
    intro c hc hpos
    have h0 : 0 < c.debounce := by simpa using hpos 0 (Nat.succ_pos n)
    have hne : ¬ (c.key_pressed = !kp) := by rw [hc]; cases kp <;> decide
    have hstep : cell_step cfg m c (!kp)
        = ({ key_pressed := kp, debounce := c.debounce - cfg.SCAN_DELAY }, none) := by
      unfold cell_step
      rw [if_neg hne, if_neg (by omega), ← hc]
    have hih := ih { key_pressed := kp, debounce := c.debounce - cfg.SCAN_DELAY } rfl (by
      intro i hi
      have := hpos (i + 1) (by omega)
      push_cast at this
      simp only
      linarith)
    simp only [List.replicate_succ, cell_run, hstep, hih, Option.toList, List.nil_append]
    congr 2
    push_cast
    ring

theorem cell_run_steady (cfg : Debounce) (m : Int) (b : Bool) :
    ∀ (n : Nat) (c : Cell), c.key_pressed = b → c.debounce = cfg.threshold b →
      cell_run cfg m c (List.replicate n b)
        = ({ key_pressed := b, debounce := cfg.threshold b }, []) := by
  intro n
  induction n with
  | zero =>
    intro c hc hd
    obtain ⟨k, d⟩ := c
    simp only at hc hd
    subst hc hd
    simp [cell_run]
  | succ n ih =>
    intro c hc _
    have hstep : cell_step cfg m c b
        = ({ key_pressed := b, debounce := cfg.threshold b }, none) := by
      unfold cell_step Debounce.threshold
      rw [if_pos hc]
      cases b <;> simp [hc]
    have hih := ih { key_pressed := b, debounce := cfg.threshold b } rfl rfl
    simp only [List.replicate_succ, cell_run, hstep, hih, Option.toList, List.nil_append]

theorem cell_step_flip (cfg : Debounce) (m : Int) (c : Cell) (hd : c.debounce ≤ 0) :
    cell_step cfg m c (!c.key_pressed)
      = ({ key_pressed := !c.key_pressed, debounce := cfg.threshold (!c.key_pressed) },
         some (if c.key_pressed then -m else m)) := by
  obtain ⟨kp, d⟩ := c
  simp only at hd
  unfold cell_step Debounce.threshold
  cases kp <;> simp [hd]

/-- C7 as stated fails: with a press threshold of 2 scan ticks, holding the
raw sample pressed for 2 ticks from the boot state of cell (0, 0) neither
flips `key_pressed` nor emits an event (the counter has only just reached
zero). -/
theorem debounce_run_of_threshold_length_does_not_flip :
    debounce_example.ticks false = 2 ∧
    cell_run debounce_example 5 (boot_cell debounce_example 0 0) (List.replicate 2 true)
      = ({ key_pressed := false, debounce := 0 }, []) := by
  constructor
  · decide
  · decide

/-- C7 (amended): with `SCAN_DELAY > 0`, for a cell whose counter holds the
full threshold of its state (the boot state of cell (0, 0), and the state of
every cell after a sample that agrees with `key_pressed` or flips it), where
`ticks` is the threshold counted in scan ticks, rounded up: a run of at most
`ticks` samples opposite to `key_pressed` never flips `key_pressed` and emits
nothing; a run of more than `ticks` such samples flips `key_pressed` exactly
once (at sample `ticks + 1`) and emits exactly one event.  A step changes
`key_pressed` exactly when it emits an event. -/
theorem debounce_run_flips_after_threshold (cfg : Debounce) (m : Int)
    (hD : 0 < cfg.SCAN_DELAY) :
    (boot_cell cfg 0 0).armed cfg ∧
    (∀ (c : Cell) (s : Bool), (s = c.key_pressed ∨ (cell_step cfg m c s).2 ≠ none) →
      (cell_step cfg m c s).1.armed cfg) ∧
    (∀ (c : Cell) (s : Bool),
      (cell_step cfg m c s).1.key_pressed ≠ c.key_pressed ↔ (cell_step cfg m c s).2 ≠ none) ∧
    (∀ (c : Cell) (n : Nat), c.armed cfg → n ≤ cfg.ticks c.key_pressed →
      cell_run cfg m c (List.replicate n (!c.key_pressed))
        = ({ key_pressed := c.key_pressed, debounce := c.debounce - n * cfg.SCAN_DELAY }, [])) ∧
    (∀ (c : Cell) (n : Nat), c.armed cfg → cfg.ticks c.key_pressed < n →
      cell_run cfg m c (List.replicate n (!c.key_pressed))
        = ({ key_pressed := !c.key_pressed, debounce := cfg.threshold (!c.key_pressed) },
           [if c.key_pressed then -m else m])) := by
  have hcount : ∀ (c : Cell) (n : Nat), c.armed cfg → n ≤ cfg.ticks c.key_pressed →
      cell_run cfg m c (List.replicate n (!c.key_pressed))
        = ({ key_pressed := c.key_pressed, debounce := c.debounce - n * cfg.SCAN_DELAY }, []) := by
    intro c n harm hn
    apply cell_run_countdown cfg m c.key_pressed n c rfl
    intro i hi
    have := ticks_countdown_pos cfg c.key_pressed hD i (by omega)
    unfold Cell.armed at harm
    rw [harm]
    exact this
  refine ⟨?_, ?_, ?_, hcount, ?_⟩
  · simp [Cell.armed, boot_cell, Debounce.threshold]
  · intro c s h
    obtain ⟨kp, d⟩ := c
    unfold Cell.armed cell_step Debounce.threshold
    unfold cell_step at h
    cases kp <;> cases s <;> simp at h ⊢ <;> split <;> simp_all
  · intro c s
    obtain ⟨kp, d⟩ := c
    unfold cell_step
    cases kp <;> cases s <;> simp <;> split <;> simp_all
  · intro c n harm hn
    obtain ⟨r, rfl⟩ : ∃ r, n = cfg.ticks c.key_pressed + (1 + r) :=
      ⟨n - cfg.ticks c.key_pressed - 1, by omega⟩
    have h1 := hcount c (cfg.ticks c.key_pressed) harm (Nat.le_refl _)
    have hdone := ticks_countdown_done cfg c.key_pressed hD
    unfold Cell.armed at harm
    rw [← harm] at hdone
    have hflip := cell_step_flip cfg m
      { key_pressed := c.key_pressed,
        debounce := c.debounce - (cfg.ticks c.key_pressed : Nat) * cfg.SCAN_DELAY } hdone
    simp only at hflip
    have hsteady := cell_run_steady cfg m (!c.key_pressed) r
      { key_pressed := !c.key_pressed, debounce := cfg.threshold (!c.key_pressed) } rfl rfl
    rw [List.replicate_add, cell_run_append, h1, List.replicate_add, List.replicate_one]
    simp only [List.singleton_append, cell_run, hflip, Option.toList, List.nil_append,
      List.append_nil]
    rw [show ([] : List Bool).append (List.replicate r (!c.key_pressed))
      = List.replicate r (!c.key_pressed) from rfl, hsteady]

/-- C7 (amended) at `debounce_example`, from the boot state of cell (0, 0):
three pressed samples in a row flip the cell once. -/
theorem debounce_run_flips_after_threshold_witness :
    (0 : Int) < debounce_example.SCAN_DELAY ∧
    (boot_cell debounce_example 0 0).armed debounce_example ∧
    debounce_example.ticks (boot_cell debounce_example 0 0).key_pressed < 3 ∧
    cell_run debounce_example 5 (boot_cell debounce_example 0 0)
        (List.replicate 3 (!(boot_cell debounce_example 0 0).key_pressed))
      = ({ key_pressed := !(boot_cell debounce_example 0 0).key_pressed,
           debounce := debounce_example.threshold (!(boot_cell debounce_example 0 0).key_pressed) },
         [if (boot_cell debounce_example 0 0).key_pressed then -5 else 5]) :=
  ⟨by decide, (debounce_run_flips_after_threshold debounce_example 5 (by decide)).1, by decide,
    (debounce_run_flips_after_threshold debounce_example 5 (by decide)).2.2.2.2
      (boot_cell debounce_example 0 0) 3
      (debounce_run_flips_after_threshold debounce_example 5 (by decide)).1 (by decide)⟩

/-! ## The layer translator -/

theorem int8_wrap_index (q : Nat) (hq : q ≤ 126) : int8_wrap (((q : Int) + 1) - 1) = (q : Int) := by
  unfold int8_wrap
  omega

theorem transparent_search_found (cfg : Keymap) (q j c : Nat)
    (hc : cfg.lookup j q = .ok c) (hne : c ≠ cfg.KC_TRANSPARENT) :
    ∀ (d fuel : Nat), j + d < 256 → d < fuel →
      (∀ t, j < t → t ≤ j + d → cfg.lookup t q = .ok cfg.KC_TRANSPARENT) →
      transparent_search cfg q fuel (j + d) = .ok j := by
  intro d
  induction d with
  | zero =>
    intro fuel _ hf _
    obtain ⟨f, rfl⟩ : ∃ f, fuel = f + 1 := ⟨fuel - 1, by omega⟩
    simp only [Nat.add_zero, transparent_search, Nat.zero_le, if_true, hc, bind, Except.bind,
      if_neg hne]
  | succ d ih =>
    intro fuel hlt hf htr
    obtain ⟨f, rfl⟩ : ∃ f, fuel = f + 1 := ⟨fuel - 1, by omega⟩
    have hstep : (j + (d + 1) + 255) % 256 = j + d := by omega
    simp only [transparent_search, Nat.zero_le, if_true, htr (j + (d + 1)) (by omega) (Nat.le_refl _),
      bind, Except.bind, hstep]
    exact ih f (by omega) (by omega) (fun t h1 h2 => htr t h1 (by omega))

theorem transparent_search_bottomless (cfg : Keymap) (q : Nat) (hlen : cfg.KEYMAP.length ≤ 255) :
    ∀ (L fuel : Nat), L + 1 < fuel →
      (∀ t, t ≤ L → cfg.lookup t q = .ok cfg.KC_TRANSPARENT) →
      transparent_search cfg q fuel L = .error .out_of_bounds := by
  intro L
  induction L with
  | zero =>
    intro fuel hf htr
    obtain ⟨f, rfl⟩ : ∃ f, fuel = f + 2 := ⟨fuel - 2, by omega⟩
    have h255 : cfg.lookup 255 q = .error .out_of_bounds := by
      unfold Keymap.lookup read
      rw [if_neg (by omega), List.getElem?_eq_none (by omega)]
      rfl
    simp only [transparent_search, Nat.zero_le, if_true, htr 0 (Nat.le_refl _), bind, Except.bind,
      Nat.zero_add, Nat.mod_self, h255]
  | succ L ih =>
    intro fuel hf htr
    obtain ⟨f, rfl⟩ : ∃ f, fuel = f + 1 := ⟨fuel - 1, by omega⟩
    have hL : L + 1 < 256 := by
      have h := htr (L + 1) (Nat.le_refl _)
      unfold Keymap.lookup read at h
      rw [if_neg (by omega)] at h
      by_contra hcon
      rw [List.getElem?_eq_none (by omega)] at h
      cases h
    have hstep : (L + 1 + 255) % 256 = L := by omega
    simp only [transparent_search, Nat.zero_le, if_true, htr (L + 1) (Nat.le_refl _), bind,
      Except.bind, hstep]
    exact ih f (by omega) (fun t ht => htr t (by omega))

theorem translate_loop_step (cfg : Keymap) (n i layer layer' : Nat) (keys : List key_index_t)
    (k k' : key_index_t) (hk : keys[i]? = some k)
    (hstep : translate_entry cfg layer k = .ok (layer', k')) :
    translate_loop cfg (n + 1) i layer keys = translate_loop cfg n (i + 1) layer' (keys.set i k') := by
  have hi : i < keys.length := by
    by_contra hcon
    rw [List.getElem?_eq_none (by omega)] at hk
    cases hk
  simp only [translate_loop, read_eq_ok hk, hstep, write_eq_ok _ hi, bind, Except.bind]

/-- C9: for an untranslated entry at position `q` and a current layer `L`
whose mapping of `q` is `KC_TRANSPARENT`, if `j < L` is the greatest layer
below `L` with a non-transparent code `c = KEYMAP[j][q]`, the loop body of
`translate_key_index` marks the entry translated and classifies it with `c`
(the `IS_MOD` and `IS_KEY` blocks), leaves the current layer at `L`, and the
pass continues with the next slot.  (`KC_TRANSPARENT` is not a layer-shift
code.) -/
theorem translate_transparent_resolves_below (cfg : Keymap) (k : key_index_t) (q L j c : Nat)
    (hk : k.translated = false) (hq : k.index = (q : Int) + 1) (hq2 : q ≤ 126)
    (hL : L < 256) (hj : j < L)
    (htr : ∀ t, j < t → t ≤ L → cfg.lookup t (q : Int) = .ok cfg.KC_TRANSPARENT)
    (hc : cfg.lookup j (q : Int) = .ok c) (hne : c ≠ cfg.KC_TRANSPARENT)
    (hlayer : cfg.IS_LAYER cfg.KC_TRANSPARENT = false) :
    translate_entry cfg L k = .ok (L, classify cfg c { k with translated := true }) ∧
    (classify cfg c { k with translated := true }).translated = true ∧
    ∀ (n i : Nat) (keys : List key_index_t), keys[i]? = some k →
      translate_loop cfg (n + 1) i L keys
        = translate_loop cfg n (i + 1) L
            (keys.set i (classify cfg c { k with translated := true })) := by
  have hentry : translate_entry cfg L k
      = .ok (L, classify cfg c { k with translated := true }) := by
    obtain ⟨d, rfl⟩ : ∃ d, L = j + d := ⟨L - j, by omega⟩
    have hsearch := transparent_search_found cfg q j c hc hne d 256 hL (by omega) htr
    have hL0 := htr (j + d) (by omega) (Nat.le_refl _)
    unfold translate_entry
    simp only [hk, Bool.false_eq_true, if_false, hq, int8_wrap_index q hq2, hL0, bind,
      Except.bind, hlayer, if_true, hsearch, Nat.not_lt_zero, hc]
  refine ⟨hentry, ?_, ?_⟩
  · unfold classify
    simp only
    split <;> split <;> rfl
  · intro n i keys hki
    exact translate_loop_step cfg n i L L keys k _ hki hentry

/-- C9 at `fallthrough_example`: with layer 2 active, position 0 resolves to
its layer-0 code. -/
theorem translate_transparent_resolves_below_witness :
    (key_index_t.pressed 1 0).translated = false ∧
    (key_index_t.pressed 1 0).index = ((0 : Nat) : Int) + 1 ∧ 0 ≤ 126 ∧ 2 < 256 ∧ 0 < 2 ∧
    (∀ t, 0 < t → t ≤ 2 →
      fallthrough_example.lookup t ((0 : Nat) : Int) = .ok fallthrough_example.KC_TRANSPARENT) ∧
    fallthrough_example.lookup 0 ((0 : Nat) : Int) = .ok 519 ∧
    519 ≠ fallthrough_example.KC_TRANSPARENT ∧
    fallthrough_example.IS_LAYER fallthrough_example.KC_TRANSPARENT = false ∧
    translate_entry fallthrough_example 2 (key_index_t.pressed 1 0)
      = .ok (2, { index := 1, source := 0, translated := true, has_modifiers := true,
                  is_key := true, modifiers := 2, key := 7 }) :=
  have htr : ∀ t, 0 < t → t ≤ 2 →
      fallthrough_example.lookup t ((0 : Nat) : Int) = .ok fallthrough_example.KC_TRANSPARENT := by
    intro t h1 h2
    interval_cases t <;> rfl
  ⟨rfl, rfl, by decide, by decide, by decide, htr, rfl, by decide, rfl,
    (translate_transparent_resolves_below fallthrough_example (key_index_t.pressed 1 0) 0 2 0 519
      rfl rfl (by decide) (by decide) (by decide) htr rfl (by decide) rfl).1⟩

/-- C10 (the code departs from the claim): for an untranslated entry at
position `q` whose mapping is `KC_TRANSPARENT` on the current layer `L` and on
every layer below it, with a keymap of fewer than 256 layers, the loop body of
`translate_key_index` does not complete: `temp_layer` is a `uint8_t`, so after
layer 0 the search wraps to layer 255 and reads outside `KEYMAP`. -/
theorem translate_transparent_bottomless_faults (cfg : Keymap) (k : key_index_t) (q L : Nat)
    (hk : k.translated = false) (hq : k.index = (q : Int) + 1) (hq2 : q ≤ 126)
    (htr : ∀ t, t ≤ L → cfg.lookup t (q : Int) = .ok cfg.KC_TRANSPARENT)
    (hlen : cfg.KEYMAP.length ≤ 255)
    (hlayer : cfg.IS_LAYER cfg.KC_TRANSPARENT = false) :
    translate_entry cfg L k = .error .out_of_bounds ∧
    ∀ (n i : Nat) (keys : List key_index_t), keys[i]? = some k →
      translate_loop cfg (n + 1) i L keys = .error .out_of_bounds := by
  have hL : L < 255 := by
    have h := htr L (Nat.le_refl _)
    unfold Keymap.lookup read at h
    rw [if_neg (by omega)] at h
    by_contra hcon
    rw [List.getElem?_eq_none (by omega)] at h
    cases h
  have hsearch := transparent_search_bottomless cfg q hlen L 256 (by omega) htr
  have hentry : translate_entry cfg L k = .error .out_of_bounds := by
    unfold translate_entry
    simp only [hk, Bool.false_eq_true, if_false, hq, int8_wrap_index q hq2, htr L (Nat.le_refl _),
      bind, Except.bind, hlayer, if_true, hsearch]
  refine ⟨hentry, ?_⟩
  intro n i keys hki
  simp only [translate_loop, read_eq_ok hki, hentry, bind, Except.bind]

/-- C10 at `bottomless_example`: a pass over a tracker holding position 0,
transparent on every layer, faults. -/
theorem translate_transparent_bottomless_faults_witness :
    (key_index_t.pressed 1 0).translated = false ∧
    (key_index_t.pressed 1 0).index = ((0 : Nat) : Int) + 1 ∧ 0 ≤ 126 ∧
    (∀ t, t ≤ 0 →
      bottomless_example.lookup t ((0 : Nat) : Int) = .ok bottomless_example.KC_TRANSPARENT) ∧
    bottomless_example.KEYMAP.length ≤ 255 ∧
    bottomless_example.IS_LAYER bottomless_example.KC_TRANSPARENT = false ∧
    translate_entry bottomless_example 0 (key_index_t.pressed 1 0) = .error .out_of_bounds ∧
    translate_key_index bottomless_example single_example = .error .out_of_bounds :=
  have htr : ∀ t, t ≤ 0 →
      bottomless_example.lookup t ((0 : Nat) : Int) = .ok bottomless_example.KC_TRANSPARENT := by
    intro t h
    interval_cases t
    rfl
  ⟨rfl, rfl, by decide, htr, by decide, rfl,
    (translate_transparent_bottomless_faults bottomless_example (key_index_t.pressed 1 0) 0 0
      rfl rfl (by decide) htr (by decide) rfl).1, by rfl⟩

theorem set_same {α : Type} (l : List α) (i : Nat) (x : α) (h : l[i]? = some x) :
    l.set i x = l := by
  apply List.ext_getElem?
  intro j
  rw [List.getElem?_set]
  split
  · rename_i hij
    subst hij
    split
    · exact h.symm
    · rename_i hlt
      rw [List.getElem?_eq_none (by omega)]
  · rfl

theorem translate_entry_skip (cfg : Keymap) (layer : Nat) (k : key_index_t)
    (hk : k.translated = true) : translate_entry cfg layer k = .ok (layer, k) := by
  unfold translate_entry
  rw [if_pos hk]

theorem translate_entry_layer (cfg : Keymap) (layer : Nat) (k : key_index_t) (q c : Nat)
    (hk : k.translated = false) (hq : k.index = (q : Int) + 1) (hq2 : q ≤ 126)
    (hc : cfg.lookup layer (q : Int) = .ok c) (hl : cfg.IS_LAYER c = true) :
    translate_entry cfg layer k = .ok (cfg.LAYER c % 256, k) := by
  unfold translate_entry
  simp only [hk, Bool.false_eq_true, if_false, hq, int8_wrap_index q hq2, hc, bind, Except.bind,
    hl, if_true]

theorem translate_loop_prefix (cfg : Keymap) (layer : Nat) :
    ∀ (l l' : List key_index_t),
      List.Forall₂ (fun k k' => translate_entry cfg layer k = .ok (layer, k')) l l' →
      ∀ (pre rest : List key_index_t) (n : Nat),
        translate_loop cfg (l.length + n) pre.length layer (pre ++ (l ++ rest))
          = translate_loop cfg n (pre.length + l.length) layer (pre ++ (l' ++ rest)) := by
  intro l l' h
  induction h with
  | nil => intro pre rest n; simp
  | @cons a a' l l' ha _ ih =>
    intro pre rest n
    have hat : (pre ++ (a :: l ++ rest))[pre.length]? = some a := by
      rw [List.getElem?_append_right (Nat.le_refl _)]
      simp
    have hfuel : (a :: l).length + n = (l.length + n) + 1 := by
      simp only [List.length_cons]; omega
    have hset : (pre ++ (a :: l ++ rest)).set pre.length a' = (pre ++ [a']) ++ (l ++ rest) := by
      rw [List.set_append_right _ _ (Nat.le_refl _)]
      simp
    rw [hfuel, translate_loop_step cfg _ _ layer layer _ a a' hat ha, hset]
    have hih := ih (pre ++ [a']) rest n
    simp only [List.length_append, List.length_singleton] at hih
    rw [hih]
    simp only [List.append_assoc, List.singleton_append, List.cons_append, List.length_cons]
    congr 1
    omega

/-- C8 as stated fails: in `layers_example` positions 0 and 1 are both
layer-shift codes on the base layer (to layers 1 and 2).  With both held,
position 1 is looked up on layer 1 (the layer set by position 0), where it is
the regular key 27, so it does not shift the layer, and the key at position 2
that follows both is translated on layer 1 (code 5), not on layer 2
(code 6). -/
theorem later_layer_key_does_not_win :
    layers_example.lookup (layers_example._BASE_LAYER % 256) 0 = .ok 3841 ∧
    layers_example.IS_LAYER 3841 = true ∧ layers_example.LAYER 3841 = 1 ∧
    layers_example.lookup (layers_example._BASE_LAYER % 256) 1 = .ok 3842 ∧
    layers_example.IS_LAYER 3842 = true ∧ layers_example.LAYER 3842 = 2 ∧
    layers_example.lookup 1 2 = .ok 5 ∧ layers_example.lookup 2 2 = .ok 6 ∧
    translate_key_index layers_example three_keys_example
      = .ok { keys := [key_index_t.pressed 1 0,
                       { key_index_t.pressed 2 0 with translated := true, is_key := true,
                                                      key := 27 },
                       { key_index_t.pressed 3 0 with translated := true, is_key := true,
                                                      key := 5 }],
              next_key := 3 } := by
  refine ⟨rfl, rfl, rfl, rfl, rfl, rfl, rfl, rfl, ?_⟩
  rfl

/-- C8 (amended): a pass starts on `_BASE_LAYER` and applies layer-shift keys
in tracker order, each looked up on the layer current when it is reached.  For
a tracker holding two untranslated layer-shift keys `k1` (a layer-shift code
`c1` on the base layer) and, later in the tracker, `k2` (a layer-shift code
`c2` on the target layer of `c1`), the other entries ahead of `k2` leaving the
current layer as it is (`pre` becomes `pre'` on the base layer, `mid` becomes
`mid'` on the target layer of `c1`), the pass leaves `k1` and `k2` unchanged
and processes the entries that follow both with current layer `LAYER(c2)`. -/
theorem translate_two_layer_keys (cfg : Keymap) (pre pre' mid mid' post dead : List key_index_t)
    (k1 k2 : key_index_t) (q1 q2 c1 c2 : Nat)
    (hpre : List.Forall₂ (fun k k' =>
      translate_entry cfg (cfg._BASE_LAYER % 256) k = .ok (cfg._BASE_LAYER % 256, k')) pre pre')
    (hmid : List.Forall₂ (fun k k' =>
      translate_entry cfg (cfg.LAYER c1 % 256) k = .ok (cfg.LAYER c1 % 256, k')) mid mid')
    (hk1 : k1.translated = false) (hq1 : k1.index = (q1 : Int) + 1) (hq1b : q1 ≤ 126)
    (hk2 : k2.translated = false) (hq2 : k2.index = (q2 : Int) + 1) (hq2b : q2 ≤ 126)
    (hc1 : cfg.lookup (cfg._BASE_LAYER % 256) (q1 : Int) = .ok c1) (hl1 : cfg.IS_LAYER c1 = true)
    (hc2 : cfg.lookup (cfg.LAYER c1 % 256) (q2 : Int) = .ok c2) (hl2 : cfg.IS_LAYER c2 = true) :
    translate_key_index cfg
        { keys := pre ++ k1 :: (mid ++ k2 :: (post ++ dead)),
          next_key := pre.length + 1 + mid.length + 1 + post.length }
      = (translate_loop cfg post.length (pre.length + 1 + mid.length + 1) (cfg.LAYER c2 % 256)
          (pre' ++ k1 :: (mid' ++ k2 :: (post ++ dead))) >>= fun keys =>
            .ok { keys := keys, next_key := pre.length + 1 + mid.length + 1 + post.length }) := by
  have hpl : pre'.length = pre.length := (List.Forall₂.length_eq hpre).symm
  have hml : mid'.length = mid.length := (List.Forall₂.length_eq hmid).symm
  have hA := translate_loop_prefix cfg _ pre pre' hpre [] (k1 :: (mid ++ k2 :: (post ++ dead)))
    (mid.length + 1 + post.length + 1)
  simp only [List.nil_append, List.length_nil, Nat.zero_add] at hA
  have hk1at : (pre' ++ k1 :: (mid ++ k2 :: (post ++ dead)))[pre.length]? = some k1 := by
    rw [← hpl, List.getElem?_append_right (Nat.le_refl _)]
    simp
  have hB := translate_loop_step cfg (mid.length + 1 + post.length) pre.length
    (cfg._BASE_LAYER % 256) (cfg.LAYER c1 % 256) _ k1 k1 hk1at
    (translate_entry_layer cfg _ k1 q1 c1 hk1 hq1 hq1b hc1 hl1)
  rw [set_same _ _ _ hk1at] at hB
  have hC := translate_loop_prefix cfg _ mid mid' hmid (pre' ++ [k1]) (k2 :: (post ++ dead))
    (post.length + 1)
  simp only [List.length_append, List.length_singleton, List.append_assoc, List.singleton_append,
    hpl] at hC
  have hk2at : (pre' ++ k1 :: (mid' ++ k2 :: (post ++ dead)))[pre.length + 1 + mid.length]?
      = some k2 := by
    rw [← hpl, ← hml, List.getElem?_append_right (by omega)]
    have h1 : pre'.length + 1 + mid'.length - pre'.length = mid'.length + 1 := by omega
    rw [h1, List.getElem?_cons_succ, List.getElem?_append_right (Nat.le_refl _)]
    simp
  have hD := translate_loop_step cfg post.length (pre.length + 1 + mid.length)
    (cfg.LAYER c1 % 256) (cfg.LAYER c2 % 256) _ k2 k2 hk2at
    (translate_entry_layer cfg _ k2 q2 c2 hk2 hq2 hq2b hc2 hl2)
  rw [set_same _ _ _ hk2at] at hD
  have hfuel1 : pre.length + 1 + mid.length + 1 + post.length
      = pre.length + (mid.length + 1 + post.length + 1) := by omega
  have hfuel3 : mid.length + 1 + post.length = mid.length + (post.length + 1) := by omega
  have hnext : pre.length + (mid.length + (post.length + 1) + 1)
      = pre.length + 1 + mid.length + 1 + post.length := by omega
  unfold translate_key_index
  simp only
  conv_lhs => rw [hfuel1, hA, hB, hfuel3, hC, hD, hnext]

/-- C8 (amended) at `stacked_layers_example`, where position 1 is a
layer-shift code on layer 1 too: the key at position 2 is translated on layer
2 (code 6). -/
theorem translate_two_layer_keys_witness :
    (key_index_t.pressed 1 0).translated = false ∧
    (key_index_t.pressed 1 0).index = ((0 : Nat) : Int) + 1 ∧
    (key_index_t.pressed 2 0).translated = false ∧
    (key_index_t.pressed 2 0).index = ((1 : Nat) : Int) + 1 ∧
    stacked_layers_example.lookup (stacked_layers_example._BASE_LAYER % 256) ((0 : Nat) : Int)
      = .ok 3841 ∧
    stacked_layers_example.IS_LAYER 3841 = true ∧
    stacked_layers_example.lookup (stacked_layers_example.LAYER 3841 % 256) ((1 : Nat) : Int)
      = .ok 3842 ∧
    stacked_layers_example.IS_LAYER 3842 = true ∧
    translate_key_index stacked_layers_example
        { keys := [] ++ key_index_t.pressed 1 0
                    :: ([] ++ key_index_t.pressed 2 0 :: ([key_index_t.pressed 3 0] ++ [])),
          next_key := ([] : List key_index_t).length + 1 + ([] : List key_index_t).length + 1
                        + [key_index_t.pressed 3 0].length }
      = (translate_loop stacked_layers_example [key_index_t.pressed 3 0].length
          (([] : List key_index_t).length + 1 + ([] : List key_index_t).length + 1)
          (stacked_layers_example.LAYER 3842 % 256)
          ([] ++ key_index_t.pressed 1 0
              :: ([] ++ key_index_t.pressed 2 0 :: ([key_index_t.pressed 3 0] ++ []))) >>=
          fun keys =>
            .ok { keys := keys,
                  next_key := ([] : List key_index_t).length + 1 + ([] : List key_index_t).length
                                + 1 + [key_index_t.pressed 3 0].length }) ∧
    translate_key_index stacked_layers_example three_keys_example
      = .ok { keys := [key_index_t.pressed 1 0, key_index_t.pressed 2 0,
                       { key_index_t.pressed 3 0 with translated := true, is_key := true,
                                                      key := 6 }],
              next_key := 3 } :=
  ⟨rfl, rfl, rfl, rfl, rfl, rfl, rfl, rfl,
    translate_two_layer_keys stacked_layers_example [] [] [] [] [key_index_t.pressed 3 0] []
      (key_index_t.pressed 1 0) (key_index_t.pressed 2 0) 0 1 3841 3842
      List.Forall₂.nil List.Forall₂.nil rfl rfl (by decide) rfl rfl (by decide)
      rfl rfl rfl rfl,
    by rfl⟩

/-! ## The sync message between the two halves -/

theorem int8_of_byte_of_int8 (d : Int) (hd : -128 ≤ d ∧ d ≤ 127) :
    int8_of_byte (byte_of_int8 d) = d := by
  unfold int8_of_byte byte_of_int8 int8_wrap
  have h : ((d % 256).toNat : Int) = d % 256 := Int.toNat_of_nonneg (Int.emod_nonneg d (by decide))
  rw [h]
  omega

theorem int8_wrap_of_int8 (d : Int) (hd : -128 ≤ d ∧ d ≤ 127) : int8_wrap d = d := by
  unfold int8_wrap
  omega

theorem map_int8_of_byte_of_int8 :
    ∀ ds : List Int, (∀ d ∈ ds, -128 ≤ d ∧ d ≤ 127) →
      (ds.map byte_of_int8).map int8_of_byte = ds := by
  intro ds
  induction ds with
  | nil => intro _; rfl
  | cons d ds ih =>
    intro h
    simp only [List.map_cons]
    rw [int8_of_byte_of_int8 d (h d (List.mem_cons_self _ _)),
      ih (fun x hx => h x (List.mem_cons_of_mem _ hx))]

theorem set_append_replicate_zero {α : Type} (xs : List α) (n : Nat) (z x : α) :
    (xs ++ List.replicate (n + 1) z).set xs.length x = xs ++ x :: List.replicate n z := by
  rw [List.set_append_right _ _ (Nat.le_refl _)]
  simp [List.replicate_succ]

theorem buffer_push_all_spec (N : Nat) (cells : Grid) :
    ∀ (ds pre : List Int) (updated : Bool), pre.length + ds.length ≤ N →
      (∀ d ∈ ds, -128 ≤ d ∧ d ≤ 127) →
      buffer_push_all N
          { cells := cells, buffer_updated := updated, buffer_len := pre.length,
            buffer := pre ++ List.replicate (N - pre.length) 0 } ds
        = .ok { cells := cells, buffer_updated := updated || !ds.isEmpty,
                buffer_len := (pre ++ ds).length,
                buffer := (pre ++ ds) ++ List.replicate (N - (pre ++ ds).length) 0 } := by
  intro ds
  induction ds with
  | nil => intro pre updated _ _; simp [buffer_push_all]
  | cons d ds ih =>
    intro pre updated hlen hrange
    simp only [List.length_cons] at hlen
    obtain ⟨n, hn⟩ : ∃ n, N - pre.length = n + 1 := ⟨N - pre.length - 1, by omega⟩
    have hn2 : N - (pre ++ [d]).length = n := by simp; omega
    have hpush : buffer_push N
        { cells := cells, buffer_updated := updated, buffer_len := pre.length,
          buffer := pre ++ List.replicate (N - pre.length) 0 } d
        = .ok { cells := cells, buffer_updated := true, buffer_len := (pre ++ [d]).length,
                buffer := (pre ++ [d]) ++ List.replicate (N - (pre ++ [d]).length) 0 } := by
      unfold buffer_push
      simp only
      rw [if_pos (by omega), write_eq_ok _ (by simp; omega), hn, set_append_replicate_zero,
        int8_wrap_of_int8 d (hrange d (List.mem_cons_self _ _)), hn2]
      simp [bind, Except.bind]
    rw [buffer_push_all, hpush]
    simp only [bind, Except.bind]
    rw [ih (pre ++ [d]) true (by simp; omega) (fun x hx => hrange x (List.mem_cons_of_mem _ hx))]
    simp

theorem for_loop_updates (KEY_NUM SRC : Nat) (data : List Nat) :
    ∀ (n i : Nat) (st : Tracker), i + n ≤ data.length →
      for_loop (fun i st => do
          let b ← read data i
          update_key_index KEY_NUM st (int8_of_byte b) SRC) n i st
        = run_updates KEY_NUM st
            ((((data.drop i).take n).map int8_of_byte).map (fun d => (d, SRC))) := by
  intro n
  induction n with
  | zero => intro i st _; simp [for_loop, run_updates]
  | succ n ih =>
    intro i st h
    have hi : i < data.length := by omega
    have hd : data.drop i = data[i] :: data.drop (i + 1) := by simp
    have ih2 := fun st => ih (i + 1) st (by omega)
    simp only [bind, Except.bind] at ih2
    rw [hd, List.take_succ_cons]
    simp only [for_loop, List.map_cons, run_updates, read_eq_ok (List.getElem?_eq_getElem hi),
      bind, Except.bind, ih2]

/-- C11: for every list `ds` of at most `SLAVE_KEY_NUM` deltas in the `int8_t`
range (so in particular `+p` and `-p` with `1 ≤ p ≤ 127`): buffering them in
order in a fresh buffer stores all of them; the message is their bytes; read
back as `int8_t` the bytes are `ds` again; and `process_slave_key_index_task`
on the message is the sequence of calls `update_key_index(d, SOURCE_SLAVE)`
for `d` in `ds`, in the same order, followed by `translate_key_index`. -/
theorem sync_message_round_trip (fw : Firmware) (s : Sink) (st : Tracker) (ds : List Int)
    (hlen : ds.length ≤ fw.SLAVE_KEY_NUM) (hrange : ∀ d ∈ ds, -128 ≤ d ∧ d ≤ 127) :
    ∃ s1 : SinkScan,
      buffer_push_all fw.SLAVE_KEY_NUM (SinkScan.start fw.SLAVE_KEY_NUM s) ds = .ok s1 ∧
      s1.message = ds.map byte_of_int8 ∧
      s1.message.length = ds.length ∧
      s1.message.map int8_of_byte = ds ∧
      process_slave_key_index_task fw st s1.message s1.message.length
        = (run_updates fw.KEY_NUM st (ds.map (fun d => (d, fw.SOURCE_SLAVE))) >>=
            fun st' => translate_key_index fw.keymap st') := by
  have hpush := buffer_push_all_spec fw.SLAVE_KEY_NUM s.cells ds [] s.buffer_updated
    (by simpa using hlen) hrange
  simp only [List.nil_append, List.length_nil, Nat.sub_zero] at hpush
  have hmsg : (SinkScan.mk s.cells (s.buffer_updated || !ds.isEmpty) ds.length
      (ds ++ List.replicate (fw.SLAVE_KEY_NUM - ds.length) 0)).message
      = ds.map byte_of_int8 := by
    simp [SinkScan.message]
  refine ⟨_, hpush, hmsg, ?_, ?_, ?_⟩
  · rw [hmsg]; simp
  · rw [hmsg]; exact map_int8_of_byte_of_int8 ds hrange
  · rw [hmsg]
    unfold process_slave_key_index_task
    rw [for_loop_updates fw.KEY_NUM fw.SOURCE_SLAVE _ _ 0 st (by simp)]
    have htake : (ds.map byte_of_int8).take ds.length = ds.map byte_of_int8 :=
      List.take_of_length_le (by simp)
    simp only [List.drop_zero, List.length_map, htake, map_int8_of_byte_of_int8 ds hrange]

/-- C11 at `firmware_example` (`SLAVE_KEY_NUM = 2`): a press and a release of
position 3 in one message. -/
theorem sync_message_round_trip_witness :
    [(3 : Int), -3].length ≤ firmware_example.SLAVE_KEY_NUM ∧
    (∀ d ∈ [(3 : Int), -3], -128 ≤ d ∧ d ≤ 127) ∧
    ∃ s1 : SinkScan,
      buffer_push_all firmware_example.SLAVE_KEY_NUM
        (SinkScan.start firmware_example.SLAVE_KEY_NUM
          { cells := boot_grid firmware_example.debounce, buffer_updated := false })
        [(3 : Int), -3] = .ok s1 ∧
      s1.message = [(3 : Int), -3].map byte_of_int8 ∧
      s1.message.length = [(3 : Int), -3].length ∧
      s1.message.map int8_of_byte = [(3 : Int), -3] ∧
      process_slave_key_index_task firmware_example (Tracker.empty 4) s1.message
          s1.message.length
        = (run_updates firmware_example.KEY_NUM (Tracker.empty 4)
            ([(3 : Int), -3].map (fun d => (d, firmware_example.SOURCE_SLAVE))) >>=
            fun st' => translate_key_index firmware_example.keymap st') :=
  ⟨by decide, by decide,
    sync_message_round_trip firmware_example
      { cells := boot_grid firmware_example.debounce, buffer_updated := false }
      (Tracker.empty 4) [(3 : Int), -3] (by decide) (by decide)⟩

theorem classify_pair (cfg : Keymap) (code : Nat) (k : key_index_t) :
    (classify cfg code k).index = k.index ∧ (classify cfg code k).source = k.source := by
  unfold classify
  simp only
  split <;> split <;> exact ⟨rfl, rfl⟩

theorem translate_entry_pair (cfg : Keymap) (layer layer' : Nat) (k k' : key_index_t)
    (h : translate_entry cfg layer k = .ok (layer', k')) :
    k'.index = k.index ∧ k'.source = k.source := by
  unfold translate_entry at h
  split at h
  · cases h; exact ⟨rfl, rfl⟩
  · simp only [bind, Except.bind] at h
    split at h
    · cases h
    · split at h
      · cases h; exact ⟨rfl, rfl⟩
      · split at h
        · split at h
          · cases h
          · split at h
            · cases h; exact ⟨rfl, rfl⟩
            · split at h
              · cases h
              · cases h
                exact classify_pair cfg _ _
        · cases h
          exact classify_pair cfg _ _

theorem translate_loop_frame (cfg : Keymap) :
    ∀ (n i layer : Nat) (keys keys1 : List key_index_t),
      translate_loop cfg n i layer keys = .ok keys1 →
      keys1.length = keys.length ∧
      (∀ j, j < i → keys1[j]? = keys[j]?) ∧
      (∀ j, i + n ≤ j → keys1[j]? = keys[j]?) ∧
      keys1.map (fun k => (k.index, k.source)) = keys.map (fun k => (k.index, k.source)) := by
  intro n
  induction n with
  | zero =>
    intro i layer keys keys1 h
    rw [translate_loop] at h
    cases h
    exact ⟨rfl, fun _ _ => rfl, fun _ _ => rfl, rfl⟩
  | succ n ih =>
    intro i layer keys keys1 h
    rw [translate_loop] at h
    simp only [bind, Except.bind] at h
    cases hr : read keys i with
    | error e => rw [hr] at h; cases h
    | ok k =>
      rw [hr] at h
      simp only at h
      cases he : translate_entry cfg layer k with
      | error e => rw [he] at h; cases h
      | ok r =>
        obtain ⟨layer', k'⟩ := r
        rw [he] at h
        simp only at h
        have hki : keys[i]? = some k := by
          unfold read at hr
          split at hr
          · rename_i x hx
            cases hr
            exact hx
          · cases hr
        have hi : i < keys.length := by
          by_contra hcon
          rw [List.getElem?_eq_none (by omega)] at hki
          cases hki
        rw [write_eq_ok _ hi] at h
        simp only at h
        obtain ⟨h1, h2, h3, h4⟩ := ih (i + 1) layer' (keys.set i k') keys1 h
        have hpair := translate_entry_pair cfg layer layer' k k' he
        refine ⟨by rw [h1, List.length_set], ?_, ?_, ?_⟩
        · intro j hj
          rw [h2 j (by omega), List.getElem?_set_ne (by omega)]
        · intro j hj
          rw [h3 j (by omega), List.getElem?_set_ne (by omega)]
        · rw [h4]
          apply List.ext_getElem?
          intro j
          rw [List.getElem?_map, List.getElem?_map, List.getElem?_set]
          by_cases hij : i = j
          · subst hij
            rw [if_pos rfl, if_pos hi, hki]
            simp [hpair.1, hpair.2]
          · rw [if_neg hij]

theorem translate_key_index_preserves (cfg : Keymap) (st st1 : Tracker)
    (h : translate_key_index cfg st = .ok st1) :
    st1.next_key = st.next_key ∧ st1.keys.length = st.keys.length ∧
    st1.live_pairs = st.live_pairs ∧
    (∀ j, st.next_key ≤ j → st1.keys[j]? = st.keys[j]?) ∧
    st1.keys.map (fun k => (k.index, k.source)) = st.keys.map (fun k => (k.index, k.source)) := by
  unfold translate_key_index at h
  simp only [bind, Except.bind] at h
  cases hl : translate_loop cfg st.next_key 0 (cfg._BASE_LAYER % 256) st.keys with
  | error e => rw [hl] at h; cases h
  | ok keys1 =>
    rw [hl] at h
    cases h
    obtain ⟨h1, _, h3, h4⟩ := translate_loop_frame cfg _ _ _ _ _ hl
    refine ⟨rfl, h1, ?_, fun j hj => h3 j (by omega), h4⟩
    unfold Tracker.live_pairs Tracker.live
    simp only
    rw [List.map_take, List.map_take, h4]

theorem update_key_index_press_split (KEY_NUM : Nat) (p : Int) (s : Nat) (hp : 0 < p)
    (l : List key_index_t) (e0 : key_index_t) (rest : List key_index_t)
    (hl : l.length < KEY_NUM) :
    update_key_index KEY_NUM { keys := l ++ e0 :: rest, next_key := l.length } p s
      = .ok { keys := l ++ key_index_t.pressed p s :: rest, next_key := l.length + 1 } := by
  unfold update_key_index
  simp only [if_pos (And.intro hl (show p > 0 from hp))]
  rw [write_eq_ok _ (by simp), List.set_append_right _ _ (Nat.le_refl _)]
  simp [bind, Except.bind, key_index_t.pressed]

/-- C12 as stated fails.  With position 3 of the remote half already live
ahead of another key, the message `[+3, -3]` appends a second entry and the
release removes the first one, so the order of the live pairs changes; on a
full tracker the press is dropped and the release removes the entry that was
live before the message. -/
theorem press_release_message_changes_tracker :
    (∃ st' : Tracker,
      run_updates 4 remote_held_example [(3, 1), (-3, 1)] = .ok st' ∧
      remote_held_example.live_pairs = [(3, 1), (5, 0)] ∧
      st'.live_pairs = [(5, 0), (3, 1)]) ∧
    (∃ st' : Tracker,
      run_updates 2 remote_full_example [(3, 1), (-3, 1)] = .ok st' ∧
      remote_full_example.next_key = 2 ∧ st'.next_key = 1 ∧ st'.live_pairs = [(5, 0)]) := by
  constructor
  · exact ⟨_, by rfl, by rfl, by rfl⟩
  · exact ⟨_, by rfl, by rfl, by rfl, by rfl⟩

/-- C12 (amended): for a tracker that is not full (`next_key < KEY_NUM`) and
holds no live entry with index `p` and source `SOURCE_SLAVE`, the two calls
`update_key_index(+p, SOURCE_SLAVE)`, `update_key_index(-p, SOURCE_SLAVE)`
return and leave the live entries and `next_key` as they were; and whenever
`process_slave_key_index_task` returns on the message with the bytes of
`[+p, -p]`, the live (index, source) pairs and `next_key` are as before the
message. -/
theorem press_release_message_neutral (fw : Firmware) (st : Tracker) (p : Int)
    (hwf : st.wf fw.KEY_NUM) (hp : 1 ≤ p ∧ p ≤ 127) (hroom : st.next_key < fw.KEY_NUM)
    (hfresh : ∀ k ∈ st.live, ¬(k.index = p ∧ k.source = fw.SOURCE_SLAVE)) :
    (∃ st' : Tracker,
      run_updates fw.KEY_NUM st [(p, fw.SOURCE_SLAVE), (-p, fw.SOURCE_SLAVE)] = .ok st' ∧
      st'.live = st.live ∧ st'.live_pairs = st.live_pairs ∧ st'.next_key = st.next_key) ∧
    (∀ st'' : Tracker,
      process_slave_key_index_task fw st [byte_of_int8 p, byte_of_int8 (-p)] 2 = .ok st'' →
      st''.live_pairs = st.live_pairs ∧ st''.next_key = st.next_key) := by
  obtain ⟨hlen, _⟩ := hwf
  have hsplit : st.keys = st.live ++ st.keys.drop st.next_key := by
    unfold Tracker.live
    rw [List.take_append_drop]
  have hlive : st.live.length = st.next_key := by
    unfold Tracker.live
    rw [List.length_take]
    omega
  obtain ⟨e0, rest, hdrop⟩ : ∃ e0 rest, st.keys.drop st.next_key = e0 :: rest := by
    cases hd : st.keys.drop st.next_key with
    | nil =>
      have := congrArg List.length hd
      rw [List.length_drop] at this
      simp at this
      omega
    | cons a b => exact ⟨a, b, rfl⟩
  have hst : st = { keys := st.live ++ e0 :: rest, next_key := st.live.length } := by
    cases st with
    | mk keys next_key =>
      simp only at hsplit hlive hdrop ⊢
      rw [hlive, ← hdrop, ← hsplit]
  have hpress := update_key_index_press_split fw.KEY_NUM p fw.SOURCE_SLAVE (by omega) st.live e0
    rest (by omega)
  have hrelease := update_key_index_release_split fw.KEY_NUM p fw.SOURCE_SLAVE hp st.live
    (key_index_t.pressed p fw.SOURCE_SLAVE) [] rest hfresh rfl rfl
  simp only [List.nil_append, List.length_nil, Nat.add_zero] at hrelease
  have hrun : run_updates fw.KEY_NUM st [(p, fw.SOURCE_SLAVE), (-p, fw.SOURCE_SLAVE)]
      = .ok { keys := st.live ++ key_index_t.zero :: rest, next_key := st.live.length } := by
    conv_lhs => rw [hst]
    simp only [run_updates, hpress, hrelease, bind, Except.bind]
  have hlive' : (Tracker.mk (st.live ++ key_index_t.zero :: rest) st.live.length).live
      = st.live := by
    simp [Tracker.live]
  have hpairs' : (Tracker.mk (st.live ++ key_index_t.zero :: rest) st.live.length).live_pairs
      = st.live_pairs := by
    unfold Tracker.live_pairs
    rw [hlive']
  constructor
  · exact ⟨_, hrun, hlive', hpairs', hlive⟩
  · intro st'' hproc
    have hbytes : ([byte_of_int8 p, byte_of_int8 (-p)].map int8_of_byte).map
        (fun d => (d, fw.SOURCE_SLAVE)) = [(p, fw.SOURCE_SLAVE), (-p, fw.SOURCE_SLAVE)] := by
      simp only [List.map_cons, List.map_nil]
      rw [int8_of_byte_of_int8 p (by omega), int8_of_byte_of_int8 (-p) (by omega)]
    unfold process_slave_key_index_task at hproc
    rw [for_loop_updates fw.KEY_NUM fw.SOURCE_SLAVE _ 2 0 st (by simp)] at hproc
    simp only [List.drop_zero] at hproc
    rw [show ([byte_of_int8 p, byte_of_int8 (-p)].take 2) = [byte_of_int8 p, byte_of_int8 (-p)]
      from rfl, hbytes, hrun] at hproc
    simp only [bind, Except.bind] at hproc
    obtain ⟨h1, _, h3, _⟩ := translate_key_index_preserves _ _ _ hproc
    simp only at h1
    exact ⟨by rw [h3, hpairs'], by rw [h1, hlive]⟩

/-- C12 (amended) at `remote_held_example` for position 7, which the remote
half does not hold yet. -/
theorem press_release_message_neutral_witness :
    remote_held_example.wf firmware_example.KEY_NUM ∧ (1 ≤ (7 : Int) ∧ (7 : Int) ≤ 127) ∧
    remote_held_example.next_key < firmware_example.KEY_NUM ∧
    (∀ k ∈ remote_held_example.live,
      ¬(k.index = 7 ∧ k.source = firmware_example.SOURCE_SLAVE)) ∧
    (∃ st' : Tracker,
      run_updates firmware_example.KEY_NUM remote_held_example
        [(7, firmware_example.SOURCE_SLAVE), (-7, firmware_example.SOURCE_SLAVE)] = .ok st' ∧
      st'.live = remote_held_example.live ∧ st'.live_pairs = remote_held_example.live_pairs ∧
      st'.next_key = remote_held_example.next_key) :=
  have hfresh : ∀ k ∈ remote_held_example.live,
      ¬(k.index = 7 ∧ k.source = firmware_example.SOURCE_SLAVE) := by
    unfold Tracker.live
    decide
  ⟨⟨rfl, by decide⟩, ⟨by decide, by decide⟩, by decide, hfresh,
    (press_release_message_neutral firmware_example remote_held_example 7 ⟨rfl, by decide⟩
      ⟨by decide, by decide⟩ (by decide) hfresh).1⟩

/-! ## The matrix scan -/

theorem for_loop_eq_run_list {σ : Type} (body : Nat → σ → Except Fault σ) :
    ∀ (n i : Nat) (s : σ), for_loop body n i s = run_list body (List.range' i n) s := by
  intro n
  induction n with
  | zero => intro i s; rfl
  | succ n ih =>
    intro i s
    rw [List.range'_succ]
    simp only [for_loop, run_list, ih]

theorem run_list_append {α σ : Type} (body : α → σ → Except Fault σ) :
    ∀ (xs ys : List α) (s : σ),
      run_list body (xs ++ ys) s = (run_list body xs s >>= fun s1 => run_list body ys s1) := by
  intro xs
  induction xs with
  | nil => intro ys s; rfl
  | cons x xs ih =>
    intro ys s
    simp only [List.cons_append, run_list, bind, Except.bind]
    cases body x s with
    | error e => rfl
    | ok s1 => exact ih ys s1

theorem run_list_map {α β σ : Type} (body : β → σ → Except Fault σ) (f : α → β) :
    ∀ (xs : List α) (s : σ),
      run_list body (xs.map f) s = run_list (fun a s => body (f a) s) xs s := by
  intro xs
  induction xs with
  | nil => intro s; rfl
  | cons x xs ih =>
    intro s
    simp only [List.map_cons, run_list, bind, Except.bind]
    cases body (f x) s with
    | error e => rfl
    | ok s1 => exact ih s1

theorem run_list_flatMap {α β σ : Type} (body : β → σ → Except Fault σ) (f : α → List β) :
    ∀ (xs : List α) (s : σ),
      run_list body (xs.flatMap f) s = run_list (fun a s => run_list body (f a) s) xs s := by
  intro xs
  induction xs with
  | nil => intro s; rfl
  | cons x xs ih =>
    intro s
    rw [List.flatMap_cons, run_list_append]
    simp only [run_list, bind, Except.bind]
    cases run_list body (f x) s with
    | error e => rfl
    | ok s1 => exact ih s1

theorem scan_loops_eq_run_list {σ : Type} (fw : Firmware)
    (cell : Nat → Nat → σ → Except Fault σ) (s : σ) :
    for_loop (fun col s => for_loop (fun row s => cell col row s) fw.MATRIX_ROW_NUM 0 s)
        fw.MATRIX_COL_NUM 0 s
      = run_list (fun rc s => cell rc.2 rc.1 s) (scan_order fw) s := by
  unfold scan_order
  rw [for_loop_eq_run_list, run_list_flatMap]
  congr 1
  funext col s
  rw [for_loop_eq_run_list, run_list_map]

theorem mem_scan_order (fw : Firmware) (row col : Nat) :
    (row, col) ∈ scan_order fw ↔ row < fw.MATRIX_ROW_NUM ∧ col < fw.MATRIX_COL_NUM := by
  unfold scan_order
  simp only [List.mem_flatMap, List.mem_range'_1, List.mem_map, Prod.mk.injEq]
  constructor
  · rintro ⟨c, ⟨_, hc⟩, r, ⟨_, hr⟩, rfl, rfl⟩
    omega
  · rintro ⟨hr, hc⟩
    exact ⟨col, ⟨Nat.zero_le _, by omega⟩, row, ⟨Nat.zero_le _, by omega⟩, rfl, rfl⟩

theorem nodup_scan_order (fw : Firmware) : (scan_order fw).Nodup := by
  unfold scan_order
  rw [List.nodup_flatMap]
  constructor
  · intro col _
    apply List.Nodup.map _ (List.nodup_range' 0 _)
    intro a b h
    exact (Prod.mk.injEq _ _ _ _ ▸ h).1
  · apply List.Pairwise.imp _ (List.nodup_range' 0 fw.MATRIX_COL_NUM)
    intro a b hab
    simp only [Function.onFun]
    intro x hx1 hx2
    obtain ⟨r1, _, rfl⟩ := List.mem_map.1 hx1
    obtain ⟨r2, _, h2⟩ := List.mem_map.1 hx2
    exact hab (Prod.mk.injEq _ _ _ _ ▸ h2).2.symm

theorem step_set_ne (fw : Firmware) (g : Grid) (raw : Nat → Nat → Bool) (rc0 rc : Nat × Nat)
    (x : Cell) (h : rc ≠ rc0) : fw.step (g.set rc0.1 rc0.2 x) raw rc = fw.step g raw rc := by
  unfold Firmware.step Grid.set
  have : ¬ (rc.1 = rc0.1 ∧ rc.2 = rc0.2) := fun hh => h (Prod.ext hh.1 hh.2)
  simp only [if_neg this]

theorem slave_run_list (fw : Firmware) (raw : Nat → Nat → Bool) :
    ∀ (cs : List (Nat × Nat)), cs.Nodup → ∀ (g : Grid) (u : Bool) (pre : List Int),
      pre.length ≤ fw.SLAVE_KEY_NUM →
      run_list (fun rc s => slave_cell fw raw rc.2 rc.1 s) cs
          (SinkScan.mk g u pre.length
            (pre ++ List.replicate (fw.SLAVE_KEY_NUM - pre.length) 0))
        = .ok (SinkScan.mk
            (fun r c => if (r, c) ∈ cs then (fw.step g raw (r, c)).1 else g r c)
            (u || decide (pre.length <
              ((pre ++ (cs.filterMap (fun rc => (fw.step g raw rc).2)).map int8_wrap).take
                fw.SLAVE_KEY_NUM).length))
            ((pre ++ (cs.filterMap (fun rc => (fw.step g raw rc).2)).map int8_wrap).take
                fw.SLAVE_KEY_NUM).length
            (((pre ++ (cs.filterMap (fun rc => (fw.step g raw rc).2)).map int8_wrap).take
                fw.SLAVE_KEY_NUM) ++ List.replicate (fw.SLAVE_KEY_NUM -
              ((pre ++ (cs.filterMap (fun rc => (fw.step g raw rc).2)).map int8_wrap).take
                fw.SLAVE_KEY_NUM).length) 0)) := by
  intro cs
  induction cs with
  | nil =>
    intro _ g u pre hpre
    simp [run_list, List.take_of_length_le hpre]
  | cons rc0 rest ih =>
    intro hnd g u pre hpre
    obtain ⟨hnot, hnd'⟩ := List.nodup_cons.1 hnd
    have hev : rest.filterMap (fun rc => (fw.step (g.set rc0.1 rc0.2 (fw.step g raw rc0).1)
        raw rc).2) = rest.filterMap (fun rc => (fw.step g raw rc).2) := by
      apply List.filterMap_congr
      intro rc hrc
      rw [step_set_ne fw g raw rc0 rc _ (fun h => hnot (h ▸ hrc))]
    have hgrid : (fun r c => if (r, c) ∈ rest then
          (fw.step (g.set rc0.1 rc0.2 (fw.step g raw rc0).1) raw (r, c)).1
          else (g.set rc0.1 rc0.2 (fw.step g raw rc0).1) r c)
        = (fun r c => if (r, c) ∈ rc0 :: rest then (fw.step g raw (r, c)).1 else g r c) := by
      funext r c
      by_cases hrc : (r, c) = rc0
      · subst hrc
        rw [if_neg hnot, if_pos (List.mem_cons_self _ _)]
        simp [Grid.set]
      · by_cases hmem : (r, c) ∈ rest
        · rw [if_pos hmem, if_pos (List.mem_cons_of_mem _ hmem), step_set_ne fw g raw rc0 _ _ hrc]
        · have hnm : (r, c) ∉ rc0 :: rest := by
            intro h
            rcases List.mem_cons.1 h with h | h
            · exact hrc h
            · exact hmem h
          rw [if_neg hmem, if_neg hnm]
          have : ¬ (r = rc0.1 ∧ c = rc0.2) := fun hh => hrc (Prod.ext hh.1 hh.2)
          simp only [Grid.set, if_neg this]
    rw [run_list]
    cases hstep : (fw.step g raw rc0).2 with
    | none =>
      have hcell : slave_cell fw raw rc0.2 rc0.1 (SinkScan.mk g u pre.length
          (pre ++ List.replicate (fw.SLAVE_KEY_NUM - pre.length) 0))
          = .ok (SinkScan.mk (g.set rc0.1 rc0.2 (fw.step g raw rc0).1) u pre.length
              (pre ++ List.replicate (fw.SLAVE_KEY_NUM - pre.length) 0)) := by
        unfold slave_cell
        unfold Firmware.step at hstep
        simp only [hstep]
        rfl
      simp only [hcell, bind, Except.bind]
      rw [ih hnd' _ u pre hpre, hev, hgrid]
      simp only [List.filterMap_cons, hstep]
    | some d =>
      have hcell : slave_cell fw raw rc0.2 rc0.1 (SinkScan.mk g u pre.length
          (pre ++ List.replicate (fw.SLAVE_KEY_NUM - pre.length) 0))
          = buffer_push fw.SLAVE_KEY_NUM
              (SinkScan.mk (g.set rc0.1 rc0.2 (fw.step g raw rc0).1) u pre.length
                (pre ++ List.replicate (fw.SLAVE_KEY_NUM - pre.length) 0)) d := by
        unfold slave_cell
        unfold Firmware.step at hstep
        simp only [hstep]
        rfl
      simp only [List.filterMap_cons, hstep, List.map_cons]
      by_cases hroom : pre.length < fw.SLAVE_KEY_NUM
      · obtain ⟨n, hn⟩ : ∃ n, fw.SLAVE_KEY_NUM - pre.length = n + 1 :=
          ⟨fw.SLAVE_KEY_NUM - pre.length - 1, by omega⟩
        have hn2 : fw.SLAVE_KEY_NUM - (pre ++ [int8_wrap d]).length = n := by simp; omega
        have hpush : buffer_push fw.SLAVE_KEY_NUM
            (SinkScan.mk (g.set rc0.1 rc0.2 (fw.step g raw rc0).1) u pre.length
              (pre ++ List.replicate (fw.SLAVE_KEY_NUM - pre.length) 0)) d
            = .ok (SinkScan.mk (g.set rc0.1 rc0.2 (fw.step g raw rc0).1) true
                (pre ++ [int8_wrap d]).length
                ((pre ++ [int8_wrap d]) ++ List.replicate
                  (fw.SLAVE_KEY_NUM - (pre ++ [int8_wrap d]).length) 0)) := by
          unfold buffer_push
          simp only
          rw [if_pos hroom, write_eq_ok _ (by simp; omega), hn, set_append_replicate_zero, hn2]
          simp [bind, Except.bind]
        simp only [hcell, hpush, bind, Except.bind]
        rw [ih hnd' _ true (pre ++ [int8_wrap d]) (by simp; omega), hev, hgrid]
        simp only [List.append_assoc, List.singleton_append, Bool.true_or]
        have hlt : pre.length < ((pre ++ int8_wrap d ::
            (rest.filterMap (fun rc => (fw.step g raw rc).2)).map int8_wrap).take
              fw.SLAVE_KEY_NUM).length := by
          rw [List.length_take]
          simp only [List.length_append, List.length_cons]
          omega
        simp only [hlt, decide_True, Bool.or_true]
      · have hfull : pre.length = fw.SLAVE_KEY_NUM := by omega
        have hpush : buffer_push fw.SLAVE_KEY_NUM
            (SinkScan.mk (g.set rc0.1 rc0.2 (fw.step g raw rc0).1) u pre.length
              (pre ++ List.replicate (fw.SLAVE_KEY_NUM - pre.length) 0)) d
            = .ok (SinkScan.mk (g.set rc0.1 rc0.2 (fw.step g raw rc0).1) u pre.length
              (pre ++ List.replicate (fw.SLAVE_KEY_NUM - pre.length) 0)) := by
          unfold buffer_push
          simp only
          rw [if_neg hroom]
        simp only [hcell, hpush, bind, Except.bind]
        rw [ih hnd' _ u pre hpre, hev, hgrid]
        have htake : ∀ r : List Int, (pre ++ r).take fw.SLAVE_KEY_NUM = pre := by
          intro r
          rw [List.take_append_of_le_length (by omega), List.take_of_length_le (by omega)]
        simp only [htake]

theorem cell_step_event_range (cfg : Debounce) (m : Int) (c : Cell) (pressed : Bool) (d : Int)
    (hm : 1 ≤ m ∧ m ≤ 127) (h : (cell_step cfg m c pressed).2 = some d) :
    -128 ≤ d ∧ d ≤ 127 := by
  unfold cell_step at h
  split at h
  · split at h <;> cases h
  · split at h
    · split at h
      · cases h; omega
      · cases h; omega
    · cases h

theorem tick_transitions_range (fw : Firmware) (g : Grid) (raw : Nat → Nat → Bool)
    (hmx : ∀ row col, row < fw.MATRIX_ROW_NUM → col < fw.MATRIX_COL_NUM →
      1 ≤ fw.MATRIX row col ∧ fw.MATRIX row col ≤ 127) :
    ∀ d ∈ tick_transitions fw g raw, -128 ≤ d ∧ d ≤ 127 := by
  intro d hd
  unfold tick_transitions at hd
  obtain ⟨rc, hrc, hev⟩ := List.mem_filterMap.1 hd
  obtain ⟨r, c⟩ := rc
  have hb := (mem_scan_order fw r c).1 hrc
  exact cell_step_event_range _ _ _ _ d (hmx r c hb.1 hb.2) hev

theorem map_int8_wrap_of_range :
    ∀ ds : List Int, (∀ d ∈ ds, -128 ≤ d ∧ d ≤ 127) → ds.map int8_wrap = ds := by
  intro ds
  induction ds with
  | nil => intro _; rfl
  | cons d ds ih =>
    intro h
    rw [List.map_cons, int8_wrap_of_int8 d (h d (List.mem_cons_self _ _)),
      ih (fun x hx => h x (List.mem_cons_of_mem _ hx))]

/-- C13 as stated fails: with `SLAVE_KEY_NUM = 2` and four cells that flip in
the same scan tick, the tick has the transitions `[1, 3, 2, 4]` but the
message carries only the first two; the presses of positions 2 and 4 are
dropped although their cells have changed state.  The state of the example is
the one reached from boot by an idle tick and a tick with all four keys
held. -/
theorem sink_message_drops_transitions :
    firmware_example.SLAVE_KEY_NUM = 2 ∧
    tick_transitions firmware_example sink_ready_example.cells (fun _ _ => true) = [1, 3, 2, 4] ∧
    (∃ s' : Sink,
      scan_matrix_task_slave firmware_example sink_ready_example (fun _ _ => true)
        = .ok (s', some [1, 3]) ∧
      (s'.cells 0 1).key_pressed = true ∧ (s'.cells 1 1).key_pressed = true) ∧
    (∃ s1 s2 : Sink,
      scan_matrix_task_slave firmware_example
        { cells := boot_grid firmware_example.debounce, buffer_updated := false }
        (fun _ _ => false) = .ok (s1, none) ∧
      scan_matrix_task_slave firmware_example s1 (fun _ _ => true) = .ok (s2, none) ∧
      s2.buffer_updated = sink_ready_example.buffer_updated ∧
      ∀ row col, row < 2 → col < 2 → s2.cells row col = sink_ready_example.cells row col) := by
  refine ⟨rfl, by rfl, ⟨_, by rfl, by rfl, by rfl⟩, ⟨_, _, by rfl, by rfl, by rfl, ?_⟩⟩
  intro row col hr hc
  interval_cases row <;> interval_cases col <;> rfl

/-- C13 (amended): on the sink (`buffer_updated` is false when a scan starts,
and the positions of `MATRIX` are within `1..127`), one scan tick steps every
cell of the matrix and sends at most one message: none when the first
`SLAVE_KEY_NUM` transitions of the tick are none at all (in particular when no
cell changes state), and otherwise one message whose deltas are the first
`SLAVE_KEY_NUM` transitions of the tick, in scan order; transitions beyond the
`SLAVE_KEY_NUM`-th are not sent.  `buffer_updated` is false again after the
tick. -/
theorem sink_tick_message (fw : Firmware) (s : Sink) (raw : Nat → Nat → Bool)
    (hflag : s.buffer_updated = false)
    (hmx : ∀ row col, row < fw.MATRIX_ROW_NUM → col < fw.MATRIX_COL_NUM →
      1 ≤ fw.MATRIX row col ∧ fw.MATRIX row col ≤ 127) :
    ∃ (s' : Sink) (msg : Option (List Nat)),
      scan_matrix_task_slave fw s raw = .ok (s', msg) ∧
      s'.cells = s.cells.stepped fw raw ∧ s'.buffer_updated = false ∧
      ((tick_transitions fw s.cells raw).take fw.SLAVE_KEY_NUM = [] → msg = none) ∧
      ((tick_transitions fw s.cells raw).take fw.SLAVE_KEY_NUM ≠ [] →
        ∃ bytes : List Nat, msg = some bytes ∧
          bytes.map int8_of_byte = (tick_transitions fw s.cells raw).take fw.SLAVE_KEY_NUM ∧
          bytes.length ≤ fw.SLAVE_KEY_NUM) := by
  have hrange := tick_transitions_range fw s.cells raw hmx
  have hwrap := map_int8_wrap_of_range _ hrange
  have hrun := slave_run_list fw raw (scan_order fw) (nodup_scan_order fw) s.cells
    s.buffer_updated [] (Nat.zero_le _)
  simp only [List.nil_append, List.length_nil, Nat.sub_zero] at hrun
  have hts : (scan_order fw).filterMap (fun rc => (fw.step s.cells raw rc).2)
      = tick_transitions fw s.cells raw := rfl
  rw [hts, hwrap, hflag] at hrun
  have hgrid : (fun r c => if (r, c) ∈ scan_order fw then (fw.step s.cells raw (r, c)).1
      else s.cells r c) = s.cells.stepped fw raw := by
    funext r c
    unfold Grid.stepped
    by_cases h : (r, c) ∈ scan_order fw
    · rw [if_pos h, if_pos ((mem_scan_order fw r c).1 h)]
    · rw [if_neg h, if_neg (fun hh => h ((mem_scan_order fw r c).2 hh))]
  rw [hgrid] at hrun
  have hstart : SinkScan.start fw.SLAVE_KEY_NUM s
      = SinkScan.mk s.cells false 0 (List.replicate fw.SLAVE_KEY_NUM 0) := by
    unfold SinkScan.start
    rw [hflag]
  unfold scan_matrix_task_slave
  rw [scan_loops_eq_run_list fw (fun col row s => slave_cell fw raw col row s), hstart, hrun]
  simp only [bind, Except.bind, Bool.false_or]
  by_cases hnil : (tick_transitions fw s.cells raw).take fw.SLAVE_KEY_NUM = []
  · refine ⟨Sink.mk (s.cells.stepped fw raw) false, none, ?_, rfl, rfl, fun _ => rfl,
      fun h => absurd hnil h⟩
    simp [hnil]
  · have hpos : 0 < ((tick_transitions fw s.cells raw).take fw.SLAVE_KEY_NUM).length :=
      List.length_pos.2 hnil
    refine ⟨Sink.mk (s.cells.stepped fw raw) false,
      some (((tick_transitions fw s.cells raw).take fw.SLAVE_KEY_NUM).map byte_of_int8),
      ?_, rfl, rfl, fun h => absurd h hnil, fun _ => ⟨_, rfl, ?_, ?_⟩⟩
    · have hdec : decide (0 < ((tick_transitions fw s.cells raw).take
          fw.SLAVE_KEY_NUM).length) = true := decide_eq_true hpos
      simp only [hdec, if_true, SinkScan.message, List.take_left]
    · exact map_int8_of_byte_of_int8 _ (fun d hd => hrange d (List.mem_of_mem_take hd))
    · rw [List.length_map, List.length_take]
      exact Nat.min_le_left _ _

/-- C13 (amended) at `firmware_example`, from boot with position 3 (cell
(1, 0)) held: the message is the press of position 3. -/
theorem sink_tick_message_witness :
    (∀ row col, row < firmware_example.MATRIX_ROW_NUM → col < firmware_example.MATRIX_COL_NUM →
      1 ≤ firmware_example.MATRIX row col ∧ firmware_example.MATRIX row col ≤ 127) ∧
    (tick_transitions firmware_example (boot_grid firmware_example.debounce)
        (fun row col => row == 1 && col == 0)).take firmware_example.SLAVE_KEY_NUM = [3] ∧
    ∃ (s' : Sink) (msg : Option (List Nat)),
      scan_matrix_task_slave firmware_example
          { cells := boot_grid firmware_example.debounce, buffer_updated := false }
          (fun row col => row == 1 && col == 0) = .ok (s', msg) ∧
      s'.cells = (boot_grid firmware_example.debounce).stepped firmware_example
          (fun row col => row == 1 && col == 0) ∧
      s'.buffer_updated = false ∧
      ((tick_transitions firmware_example (boot_grid firmware_example.debounce)
          (fun row col => row == 1 && col == 0)).take firmware_example.SLAVE_KEY_NUM = [] →
        msg = none) ∧
      ((tick_transitions firmware_example (boot_grid firmware_example.debounce)
          (fun row col => row == 1 && col == 0)).take firmware_example.SLAVE_KEY_NUM ≠ [] →
        ∃ bytes : List Nat, msg = some bytes ∧
          bytes.map int8_of_byte = (tick_transitions firmware_example
            (boot_grid firmware_example.debounce)
            (fun row col => row == 1 && col == 0)).take firmware_example.SLAVE_KEY_NUM ∧
          bytes.length ≤ firmware_example.SLAVE_KEY_NUM) :=
  have hmx : ∀ row col, row < firmware_example.MATRIX_ROW_NUM →
      col < firmware_example.MATRIX_COL_NUM →
      1 ≤ firmware_example.MATRIX row col ∧ firmware_example.MATRIX row col ≤ 127 := by
    intro row col hr hc
    have h1 : row < 2 := hr
    have h2 : col < 2 := hc
    interval_cases row <;> interval_cases col <;> decide
  ⟨hmx, by rfl,
    sink_tick_message firmware_example
      { cells := boot_grid firmware_example.debounce, buffer_updated := false }
      (fun row col => row == 1 && col == 0) rfl hmx⟩

theorem any_congr_mem {α : Type} (f g : α → Bool) :
    ∀ l : List α, (∀ x ∈ l, f x = g x) → l.any f = l.any g := by
  intro l
  induction l with
  | nil => intro _; rfl
  | cons a l ih =>
    intro h
    simp only [List.any_cons, h a (List.mem_cons_self _ _),
      ih (fun x hx => h x (List.mem_cons_of_mem _ hx))]

theorem master_run_list (fw : Firmware) (raw : Nat → Nat → Bool) :
    ∀ (cs : List (Nat × Nat)), cs.Nodup → ∀ (g : Grid) (tr : Tracker) (hp hr : Bool),
      run_list (fun rc s => master_cell fw raw rc.2 rc.1 s) cs (SourceScan.mk g tr hp hr)
        = (run_updates fw.KEY_NUM tr
            ((cs.filterMap (fun rc => (fw.step g raw rc).2)).map
              (fun d => (int8_wrap d, fw.SOURCE))) >>= fun tr' =>
            .ok (SourceScan.mk
              (fun r c => if (r, c) ∈ cs then (fw.step g raw (r, c)).1 else g r c) tr'
              (hp || cs.any (fun rc => (fw.step g raw rc).2.isSome && raw rc.1 rc.2))
              (hr || cs.any (fun rc => (fw.step g raw rc).2.isSome && !raw rc.1 rc.2)))) := by
  intro cs
  induction cs with
  | nil =>
    intro _ g tr hp hr
    simp [run_list, run_updates, bind, Except.bind]
  | cons rc0 rest ih =>
    intro hnd g tr hp hr
    obtain ⟨hnot, hnd'⟩ := List.nodup_cons.1 hnd
    have hstepeq : ∀ rc ∈ rest, fw.step (g.set rc0.1 rc0.2 (fw.step g raw rc0).1) raw rc
        = fw.step g raw rc :=
      fun rc hrc => step_set_ne fw g raw rc0 rc _ (fun h => hnot (h ▸ hrc))
    have hev : rest.filterMap (fun rc => (fw.step (g.set rc0.1 rc0.2 (fw.step g raw rc0).1)
        raw rc).2) = rest.filterMap (fun rc => (fw.step g raw rc).2) := by
      apply List.filterMap_congr
      intro rc hrc
      rw [hstepeq rc hrc]
    have hany1 : rest.any (fun rc => (fw.step (g.set rc0.1 rc0.2 (fw.step g raw rc0).1)
        raw rc).2.isSome && raw rc.1 rc.2)
        = rest.any (fun rc => (fw.step g raw rc).2.isSome && raw rc.1 rc.2) := by
      apply any_congr_mem
      intro rc hrc
      rw [hstepeq rc hrc]
    have hany2 : rest.any (fun rc => (fw.step (g.set rc0.1 rc0.2 (fw.step g raw rc0).1)
        raw rc).2.isSome && !raw rc.1 rc.2)
        = rest.any (fun rc => (fw.step g raw rc).2.isSome && !raw rc.1 rc.2) := by
      apply any_congr_mem
      intro rc hrc
      rw [hstepeq rc hrc]
    have hgrid : (fun r c => if (r, c) ∈ rest then
          (fw.step (g.set rc0.1 rc0.2 (fw.step g raw rc0).1) raw (r, c)).1
          else (g.set rc0.1 rc0.2 (fw.step g raw rc0).1) r c)
        = (fun r c => if (r, c) ∈ rc0 :: rest then (fw.step g raw (r, c)).1 else g r c) := by
      funext r c
      by_cases hrc : (r, c) = rc0
      · subst hrc
        rw [if_neg hnot, if_pos (List.mem_cons_self _ _)]
        simp [Grid.set]
      · by_cases hmem : (r, c) ∈ rest
        · rw [if_pos hmem, if_pos (List.mem_cons_of_mem _ hmem), step_set_ne fw g raw rc0 _ _ hrc]
        · have hnm : (r, c) ∉ rc0 :: rest := by
            intro h
            rcases List.mem_cons.1 h with h | h
            · exact hrc h
            · exact hmem h
          rw [if_neg hmem, if_neg hnm]
          have : ¬ (r = rc0.1 ∧ c = rc0.2) := fun hh => hrc (Prod.ext hh.1 hh.2)
          simp only [Grid.set, if_neg this]
    rw [run_list]
    cases hstep : (fw.step g raw rc0).2 with
    | none =>
      have hcell : master_cell fw raw rc0.2 rc0.1 (SourceScan.mk g tr hp hr)
          = .ok (SourceScan.mk (g.set rc0.1 rc0.2 (fw.step g raw rc0).1) tr hp hr) := by
        unfold master_cell
        unfold Firmware.step at hstep
        simp only [hstep]
        rfl
      simp only [hcell, bind, Except.bind]
      rw [ih hnd' _ tr hp hr, hev, hany1, hany2, hgrid]
      simp only [List.filterMap_cons, hstep, List.any_cons, Option.isSome_none, Bool.false_and,
        Bool.false_or, bind, Except.bind]
    | some d =>
      simp only [List.filterMap_cons, hstep, List.map_cons, run_updates, List.any_cons,
        Option.isSome_some, Bool.true_and]
      cases hupd : update_key_index fw.KEY_NUM tr (int8_wrap d) fw.SOURCE with
      | error e =>
        have hcell : master_cell fw raw rc0.2 rc0.1 (SourceScan.mk g tr hp hr) = .error e := by
          unfold master_cell
          unfold Firmware.step at hstep
          simp only [hstep, hupd]
          rfl
        simp only [hcell, bind, Except.bind]
      | ok tr1 =>
        cases hraw : raw rc0.1 rc0.2 with
        | true =>
          have hcell : master_cell fw raw rc0.2 rc0.1 (SourceScan.mk g tr hp hr)
              = .ok (SourceScan.mk (g.set rc0.1 rc0.2 (fw.step g raw rc0).1) tr1 true hr) := by
            unfold master_cell
            have hstep' := hstep
            unfold Firmware.step at hstep'
            simp only [hstep', hupd, bind, Except.bind]
            rw [if_pos hraw]
            rfl
          simp only [hcell, bind, Except.bind]
          rw [ih hnd' _ tr1 true hr, hev, hany1, hany2, hgrid]
          simp [bind, Except.bind]
        | false =>
          have hcell : master_cell fw raw rc0.2 rc0.1 (SourceScan.mk g tr hp hr)
              = .ok (SourceScan.mk (g.set rc0.1 rc0.2 (fw.step g raw rc0).1) tr1 hp true) := by
            unfold master_cell
            have hstep' := hstep
            unfold Firmware.step at hstep'
            simp only [hstep', hupd, bind, Except.bind]
            rw [if_neg (by rw [hraw]; decide)]
            rfl
          simp only [hcell, bind, Except.bind]
          rw [ih hnd' _ tr1 hp true, hev, hany1, hany2, hgrid]
          simp [bind, Except.bind]

theorem stepped_eq (fw : Firmware) (g : Grid) (raw : Nat → Nat → Bool) :
    (fun r c => if (r, c) ∈ scan_order fw then (fw.step g raw (r, c)).1 else g r c)
      = g.stepped fw raw := by
  funext r c
  unfold Grid.stepped
  by_cases h : (r, c) ∈ scan_order fw
  · rw [if_pos h, if_pos ((mem_scan_order fw r c).1 h)]
  · rw [if_neg h, if_neg (fun hh => h ((mem_scan_order fw r c).2 hh))]

theorem master_scan_closed (fw : Firmware) (raw : Nat → Nat → Bool) (g : Grid) (tr : Tracker) :
    master_scan fw raw (SourceScan.mk g tr false false)
      = (run_updates fw.KEY_NUM tr
          ((tick_transitions fw g raw).map (fun d => (int8_wrap d, fw.SOURCE))) >>= fun tr' =>
          .ok (SourceScan.mk (g.stepped fw raw) tr' (tick_has_press fw g raw)
            (tick_has_release fw g raw))) := by
  unfold master_scan
  rw [scan_loops_eq_run_list fw (fun col row s => master_cell fw raw col row s),
    master_run_list fw raw _ (nodup_scan_order fw), stepped_eq]
  simp only [Bool.false_or]
  rfl

/-! ## Translation followed by the report -/

theorem translate_key_index_single (cfg : Keymap) (k k' : key_index_t) (layer' : Nat)
    (dead : List key_index_t)
    (h : translate_entry cfg (cfg._BASE_LAYER % 256) k = .ok (layer', k')) :
    translate_key_index cfg { keys := k :: dead, next_key := 1 }
      = .ok { keys := k' :: dead, next_key := 1 } := by
  unfold translate_key_index
  simp only
  rw [translate_loop_step cfg 0 0 _ layer' (k :: dead) k k' (by simp) h]
  simp [translate_loop, bind, Except.bind]

theorem translate_entry_plain (cfg : Keymap) (layer : Nat) (p : Int) (s q code : Nat)
    (hp : p = (q : Int) + 1) (hq : q ≤ 126)
    (hcode : cfg.lookup layer (q : Int) = .ok code) (hlayer : cfg.IS_LAYER code = false)
    (htr : code ≠ cfg.KC_TRANSPARENT) :
    translate_entry cfg layer (key_index_t.pressed p s)
      = .ok (layer, classify cfg code (key_index_t.pressed p s)) := by
  unfold translate_entry
  have h1 : (key_index_t.pressed p s).translated = false := rfl
  have h2 : (key_index_t.pressed p s).index = (q : Int) + 1 := hp
  simp only [h1, Bool.false_eq_true, if_false, h2, int8_wrap_index q hq, hcode, bind,
    Except.bind, hlayer, if_neg htr]

/-- C15: for a tracker whose only live entry is a key as `update_key_index`
stored it (untranslated), at a position `q` whose code on the base layer is a
modifier-only code (`IS_MOD` holds, `MOD_CODE(code)` is not a regular key; the
code is neither a layer-shift code nor `KC_TRANSPARENT`, and `MOD_BIT(code)`
fits the `uint8_t` field), one pass of `translate_key_index` marks the entry
translated with `has_modifiers` set and `modifiers = MOD_BIT(code)`, and
`generate_hid_report_task` then yields a report whose byte 0 is
`MOD_BIT(code)` and whose other bytes are zero. -/
theorem modifier_only_report (cfg : Keymap) (LEN q s code : Nat) (dead : List key_index_t)
    (hq : q ≤ 126) (hLEN : 1 ≤ LEN)
    (hcode : cfg.lookup (cfg._BASE_LAYER % 256) (q : Int) = .ok code)
    (hlayer : cfg.IS_LAYER code = false) (htr : code ≠ cfg.KC_TRANSPARENT)
    (hmod : cfg.IS_MOD code = true) (hbit : cfg.MOD_BIT code < 256)
    (hmc : cfg.MOD_CODE code < 4294967296) (hkey : cfg.IS_KEY (cfg.MOD_CODE code) = false) :
    translate_key_index cfg { keys := key_index_t.pressed ((q : Int) + 1) s :: dead, next_key := 1 }
      = .ok { keys := { index := (q : Int) + 1, source := s, translated := true,
                        has_modifiers := true, is_key := false,
                        modifiers := cfg.MOD_BIT code, key := 0 } :: dead,
              next_key := 1 } ∧
    generate_hid_report_task LEN
        { keys := { index := (q : Int) + 1, source := s, translated := true,
                    has_modifiers := true, is_key := false,
                    modifiers := cfg.MOD_BIT code, key := 0 } :: dead,
          next_key := 1 }
      = .ok ({ keys := { index := (q : Int) + 1, source := s, translated := true,
                         has_modifiers := true, is_key := false,
                         modifiers := cfg.MOD_BIT code, key := 0 } :: dead,
               next_key := 1 },
             cfg.MOD_BIT code :: List.replicate (LEN - 1) 0) := by
  constructor
  · have hentry := translate_entry_plain cfg (cfg._BASE_LAYER % 256) ((q : Int) + 1) s q code rfl
      hq hcode hlayer htr
    have hclass : classify cfg code (key_index_t.pressed ((q : Int) + 1) s)
        = { index := (q : Int) + 1, source := s, translated := true, has_modifiers := true,
            is_key := false, modifiers := cfg.MOD_BIT code, key := 0 } := by
      unfold classify
      simp only [hmod, if_true, Nat.mod_eq_of_lt hmc, hkey, Bool.false_eq_true, if_false,
        Nat.mod_eq_of_lt hbit]
      rfl
    rw [hclass] at hentry
    exact translate_key_index_single cfg _ _ _ dead hentry
  · obtain ⟨L, rfl⟩ : ∃ L, LEN = L + 1 := ⟨LEN - 1, by omega⟩
    unfold generate_hid_report_task
    simp [report_loop, read, write, bind, Except.bind, List.replicate_succ]

/-- C15 at `modifier_example`, with an 8-byte report. -/
theorem modifier_only_report_witness :
    0 ≤ 126 ∧ 1 ≤ 8 ∧
    modifier_example.lookup (modifier_example._BASE_LAYER % 256) ((0 : Nat) : Int) = .ok 512 ∧
    modifier_example.IS_LAYER 512 = false ∧ 512 ≠ modifier_example.KC_TRANSPARENT ∧
    modifier_example.IS_MOD 512 = true ∧ modifier_example.MOD_BIT 512 < 256 ∧
    modifier_example.MOD_CODE 512 < 4294967296 ∧
    modifier_example.IS_KEY (modifier_example.MOD_CODE 512) = false ∧
    translate_key_index modifier_example
        { keys := key_index_t.pressed (((0 : Nat) : Int) + 1) 0 :: [key_index_t.zero],
          next_key := 1 }
      = .ok { keys := { index := ((0 : Nat) : Int) + 1, source := 0, translated := true,
                        has_modifiers := true, is_key := false,
                        modifiers := modifier_example.MOD_BIT 512, key := 0 }
                      :: [key_index_t.zero],
              next_key := 1 } ∧
    generate_hid_report_task 8
        { keys := { index := ((0 : Nat) : Int) + 1, source := 0, translated := true,
                    has_modifiers := true, is_key := false,
                    modifiers := modifier_example.MOD_BIT 512, key := 0 } :: [key_index_t.zero],
          next_key := 1 }
      = .ok ({ keys := { index := ((0 : Nat) : Int) + 1, source := 0, translated := true,
                         has_modifiers := true, is_key := false,
                         modifiers := modifier_example.MOD_BIT 512, key := 0 }
                       :: [key_index_t.zero],
               next_key := 1 },
             modifier_example.MOD_BIT 512 :: List.replicate (8 - 1) 0) :=
  ⟨by decide, by decide, rfl, rfl, by decide, rfl, by decide, by decide, rfl,
    modifier_only_report modifier_example 8 0 0 512 [key_index_t.zero] (by decide) (by decide)
      rfl rfl (by decide) rfl (by decide) (by decide) rfl⟩

/-! ## The debounce step, case by case, and the boot state -/

/-- C16: the per-cell step of `scan_matrix_task`, for every cell state and raw
sample `s`.  If `s` equals `key_pressed`, `debounce` is reloaded with the
threshold of the state and nothing is emitted.  If `s` differs and `debounce`
has reached zero (`debounce <= 0`), `key_pressed` becomes `s`, `debounce` is
reloaded with the threshold of the new state and exactly one delta is emitted:
`+MATRIX[row][col]` if now pressed, `-MATRIX[row][col]` if now released.  If
`s` differs and `debounce` is above zero, `debounce` decreases by
`SCAN_DELAY`, `key_pressed` is unchanged and nothing is emitted. -/
theorem cell_step_cases (cfg : Debounce) (m : Int) (c : Cell) (s : Bool) :
    (s = c.key_pressed →
      cell_step cfg m c s
        = ({ key_pressed := c.key_pressed, debounce := cfg.threshold c.key_pressed }, none)) ∧
    (s ≠ c.key_pressed → c.debounce ≤ 0 →
      cell_step cfg m c s
        = ({ key_pressed := s, debounce := cfg.threshold s }, some (if s then m else -m))) ∧
    (s ≠ c.key_pressed → 0 < c.debounce →
      cell_step cfg m c s
        = ({ key_pressed := c.key_pressed, debounce := c.debounce - cfg.SCAN_DELAY }, none)) := by
  obtain ⟨kp, d⟩ := c
  refine ⟨?_, ?_, ?_⟩
  · intro h
    simp only at h
    subst h
    unfold cell_step Debounce.threshold
    cases s <;> simp
  · intro h hd
    simp only at h hd
    unfold cell_step Debounce.threshold
    cases s <;> cases kp <;> simp_all
  · intro h hd
    simp only at h hd
    have hd' : ¬ d ≤ 0 := by omega
    unfold cell_step
    cases s <;> cases kp <;> simp_all

/-- C16 at `debounce_example`: a released cell whose counter is at zero and a
pressed sample. -/
theorem cell_step_cases_witness :
    true ≠ (Cell.mk false 0).key_pressed ∧ (Cell.mk false 0).debounce ≤ 0 ∧
    cell_step debounce_example 5 (Cell.mk false 0) true
      = ({ key_pressed := true, debounce := debounce_example.threshold true },
         some (if true then 5 else -5)) :=
  ⟨by decide, by decide,
    (cell_step_cases debounce_example 5 (Cell.mk false 0) true).2.1 (by decide) (by decide)⟩

theorem cell_run_invariant (cfg : Debounce) (m : Int) (I : Cell → Prop)
    (hstep : ∀ c s, I c → I (cell_step cfg m c s).1) :
    ∀ (samples : List Bool) (c : Cell), I c → I (cell_run cfg m c samples).1 := by
  intro samples
  induction samples with
  | nil => intro c hc; exact hc
  | cons s rest ih =>
    intro c hc
    simp only [cell_run]
    exact ih _ (hstep c s hc)

theorem cell_step_debounce_cases (cfg : Debounce) (m : Int) (c : Cell) (s : Bool) :
    (cell_step cfg m c s).1.debounce = cfg.KEY_PRESS_DEBOUNCE ∨
    (cell_step cfg m c s).1.debounce = cfg.KEY_RELEASE_DEBOUNCE ∨
    (0 < c.debounce ∧ (cell_step cfg m c s).1.debounce = c.debounce - cfg.SCAN_DELAY) := by
  obtain ⟨kp, d⟩ := c
  unfold cell_step
  by_cases hd : d ≤ 0
  · cases s <;> cases kp <;> simp [hd]
  · have hd' : 0 < d := by omega
    cases s <;> cases kp <;> simp [hd, hd']

theorem cell_step_emits_only (cfg : Debounce) (m : Int) (c : Cell) (s : Bool)
    (h : (cell_step cfg m c s).2 ≠ none) : c.debounce ≤ 0 ∧ s ≠ c.key_pressed := by
  obtain ⟨kp, d⟩ := c
  unfold cell_step at h
  by_cases hd : d ≤ 0
  · cases s <;> cases kp <;> simp_all
  · exfalso
    cases s <;> cases kp <;> simp [hd] at h

/-- C17 as stated fails: with thresholds of 1 and `SCAN_DELAY = 2` (all
non-negative, `SCAN_DELAY` positive), one pressed sample takes the counter of
cell (0, 0) from its boot value 1 to -1, and the next pressed sample emits the
press while the counter is -1, not zero. -/
theorem debounce_goes_below_zero :
    0 ≤ uneven_debounce_example.KEY_PRESS_DEBOUNCE ∧
    0 ≤ uneven_debounce_example.KEY_RELEASE_DEBOUNCE ∧
    0 < uneven_debounce_example.SCAN_DELAY ∧
    (cell_run uneven_debounce_example 5 (boot_cell uneven_debounce_example 0 0) [true]).1
      = { key_pressed := false, debounce := -1 } ∧
    (cell_step uneven_debounce_example 5 { key_pressed := false, debounce := -1 } true).2
      = some 5 := by
  refine ⟨by decide, by decide, by decide, by decide, by decide⟩

/-- C17 (amended): for non-negative thresholds and a positive `SCAN_DELAY`,
for every cell and every sequence of raw samples from boot: the debounce value
is above `-SCAN_DELAY`, and a cell emits a transition only if its debounce
value is at most zero and the raw sample differs from `key_pressed`; when both
thresholds are multiples of `SCAN_DELAY`, the debounce value is never below
zero and a cell emits a transition only if its debounce value is zero. -/
theorem debounce_bounds (cfg : Debounce) (m : Int) (row col : Nat) (samples : List Bool)
    (hP : 0 ≤ cfg.KEY_PRESS_DEBOUNCE) (hR : 0 ≤ cfg.KEY_RELEASE_DEBOUNCE)
    (hD : 0 < cfg.SCAN_DELAY) :
    -cfg.SCAN_DELAY < (cell_run cfg m (boot_cell cfg row col) samples).1.debounce ∧
    (∀ s : Bool, (cell_step cfg m (cell_run cfg m (boot_cell cfg row col) samples).1 s).2 ≠ none →
      (cell_run cfg m (boot_cell cfg row col) samples).1.debounce ≤ 0 ∧
      s ≠ (cell_run cfg m (boot_cell cfg row col) samples).1.key_pressed) ∧
    (cfg.SCAN_DELAY ∣ cfg.KEY_PRESS_DEBOUNCE → cfg.SCAN_DELAY ∣ cfg.KEY_RELEASE_DEBOUNCE →
      0 ≤ (cell_run cfg m (boot_cell cfg row col) samples).1.debounce ∧
      ∀ s : Bool,
        (cell_step cfg m (cell_run cfg m (boot_cell cfg row col) samples).1 s).2 ≠ none →
        (cell_run cfg m (boot_cell cfg row col) samples).1.debounce = 0 ∧
        s ≠ (cell_run cfg m (boot_cell cfg row col) samples).1.key_pressed) := by
  have hboot : (boot_cell cfg row col).debounce = cfg.KEY_PRESS_DEBOUNCE ∨
      (boot_cell cfg row col).debounce = 0 := by
    unfold boot_cell
    simp only
    split
    · left; rfl
    · right; rfl
  have h1 : -cfg.SCAN_DELAY < (cell_run cfg m (boot_cell cfg row col) samples).1.debounce := by
    apply cell_run_invariant cfg m (fun c => -cfg.SCAN_DELAY < c.debounce)
    · intro c s hc
      rcases cell_step_debounce_cases cfg m c s with h | h | ⟨h0, h⟩ <;> rw [h] <;> omega
    · rcases hboot with h | h <;> rw [h] <;> omega
  refine ⟨h1, fun s hs => cell_step_emits_only cfg m _ s hs, ?_⟩
  intro hdP hdR
  have h2 : 0 ≤ (cell_run cfg m (boot_cell cfg row col) samples).1.debounce ∧
      cfg.SCAN_DELAY ∣ (cell_run cfg m (boot_cell cfg row col) samples).1.debounce := by
    apply cell_run_invariant cfg m (fun c => 0 ≤ c.debounce ∧ cfg.SCAN_DELAY ∣ c.debounce)
    · intro c s hc
      rcases cell_step_debounce_cases cfg m c s with h | h | ⟨h0, h⟩
      · rw [h]; exact ⟨hP, hdP⟩
      · rw [h]; exact ⟨hR, hdR⟩
      · rw [h]
        obtain ⟨k, hk⟩ := hc.2
        have hk1 : 1 ≤ k := by
          by_contra hcon
          have hk0 : k ≤ 0 := by omega
          have : cfg.SCAN_DELAY * k ≤ 0 := mul_nonpos_of_nonneg_of_nonpos (le_of_lt hD) hk0
          omega
        refine ⟨?_, ⟨k - 1, ?_⟩⟩
        · have : cfg.SCAN_DELAY * 1 ≤ cfg.SCAN_DELAY * k :=
            mul_le_mul_of_nonneg_left hk1 (le_of_lt hD)
          omega
        · rw [hk]; ring
    · rcases hboot with h | h
      · rw [h]; exact ⟨hP, hdP⟩
      · rw [h]; exact ⟨le_refl _, dvd_zero _⟩
  refine ⟨h2.1, fun s hs => ?_⟩
  have h3 := cell_step_emits_only cfg m _ s hs
  exact ⟨le_antisymm h3.1 h2.1, h3.2⟩

/-- C17 (amended) at `debounce_example`, for cell (1, 0) after two pressed
samples. -/
theorem debounce_bounds_witness :
    0 ≤ debounce_example.KEY_PRESS_DEBOUNCE ∧ 0 ≤ debounce_example.KEY_RELEASE_DEBOUNCE ∧
    0 < debounce_example.SCAN_DELAY ∧
    -debounce_example.SCAN_DELAY
      < (cell_run debounce_example 5 (boot_cell debounce_example 1 0) [true, true]).1.debounce :=
  ⟨by decide, by decide, by decide,
    (debounce_bounds debounce_example 5 1 0 [true, true] (by decide) (by decide) (by decide)).1⟩

/-- C18 (the code departs from the claim): at boot every cell has
`key_pressed = false`, but only cell (0, 0) has `debounce = KEY_PRESS_DEBOUNCE`;
the initialiser `{KEY_PRESS_DEBOUNCE}` leaves the counter of every other cell
at 0, which differs from `KEY_PRESS_DEBOUNCE` unless that constant is 0, and
the first pressed sample of such a cell flips it at once. -/
theorem boot_debounce_only_first_cell (cfg : Debounce) (m : Int) (row col : Nat)
    (hcell : ¬(row = 0 ∧ col = 0)) :
    (boot_grid cfg 0 0).debounce = cfg.KEY_PRESS_DEBOUNCE ∧
    (boot_grid cfg row col).key_pressed = false ∧
    (boot_grid cfg row col).debounce = 0 ∧
    (cfg.KEY_PRESS_DEBOUNCE ≠ 0 → (boot_grid cfg row col).debounce ≠ cfg.KEY_PRESS_DEBOUNCE) ∧
    cell_step cfg m (boot_grid cfg row col) true
      = ({ key_pressed := true, debounce := cfg.KEY_RELEASE_DEBOUNCE }, some m) := by
  have hd : (boot_grid cfg row col).debounce = 0 := by
    unfold boot_grid boot_cell
    simp only [if_neg hcell]
  have hc : boot_grid cfg row col = { key_pressed := false, debounce := 0 } := by
    unfold boot_grid boot_cell
    simp only [if_neg hcell]
  refine ⟨?_, rfl, hd, ?_, ?_⟩
  · unfold boot_grid boot_cell
    simp
  · intro h
    rw [hd]
    exact fun h0 => h h0.symm
  · rw [hc]
    unfold cell_step
    simp

/-- C18 at `debounce_example` (`KEY_PRESS_DEBOUNCE = 2`), cell (0, 1). -/
theorem boot_debounce_only_first_cell_witness :
    ¬((0 : Nat) = 0 ∧ (1 : Nat) = 0) ∧
    (boot_grid debounce_example 0 1).debounce = 0 ∧
    debounce_example.KEY_PRESS_DEBOUNCE = 2 ∧
    cell_step debounce_example 5 (boot_grid debounce_example 0 1) true
      = ({ key_pressed := true, debounce := debounce_example.KEY_RELEASE_DEBOUNCE }, some 5) :=
  ⟨by decide,
    (boot_debounce_only_first_cell debounce_example 5 0 1 (by decide)).2.2.1, rfl,
    (boot_debounce_only_first_cell debounce_example 5 0 1 (by decide)).2.2.2.2⟩

/-! ## A second translation pass -/

theorem classify_keeps_translated (cfg : Keymap) (code : Nat) (k : key_index_t)
    (hk : k.translated = true) : (classify cfg code k).translated = true := by
  unfold classify
  simp only
  split <;> split <;> first | rfl | exact hk

theorem classify_translated_or_eq (cfg : Keymap) (code : Nat) (k : key_index_t) :
    (classify cfg code k).translated = true ∨ classify cfg code k = k := by
  unfold classify
  simp only
  split <;> split <;> first | (left; rfl) | (right; rfl)

theorem translate_entry_idempotent (cfg : Keymap) (layer layer' : Nat) (k k' : key_index_t)
    (h : translate_entry cfg layer k = .ok (layer', k')) :
    translate_entry cfg layer k' = .ok (layer', k') := by
  have h0 := h
  unfold translate_entry at h
  split at h
  · cases h; exact h0
  · simp only [bind, Except.bind] at h
    split at h
    · cases h
    · split at h
      · cases h; exact h0
      · split at h
        · split at h
          · cases h
          · split at h
            · cases h
              exact translate_entry_skip cfg _ _ rfl
            · split at h
              · cases h
              · cases h
                exact translate_entry_skip cfg _ _ (classify_keeps_translated cfg _ _ rfl)
        · cases h
          rename_i code _ _ _
          rcases classify_translated_or_eq cfg code k with ht | he
          · exact translate_entry_skip cfg _ _ ht
          · rw [he] at h0 ⊢
            exact h0

theorem translate_loop_idempotent (cfg : Keymap) :
    ∀ (n i layer : Nat) (keys keys1 : List key_index_t),
      translate_loop cfg n i layer keys = .ok keys1 →
      translate_loop cfg n i layer keys1 = .ok keys1 := by
  intro n
  induction n with
  | zero =>
    intro i layer keys keys1 _
    rfl
  | succ n ih =>
    intro i layer keys keys1 h
    have h0 := h
    rw [translate_loop] at h
    simp only [bind, Except.bind] at h
    cases hr : read keys i with
    | error e => rw [hr] at h; cases h
    | ok k =>
      rw [hr] at h
      simp only at h
      cases he : translate_entry cfg layer k with
      | error e => rw [he] at h; cases h
      | ok r =>
        obtain ⟨layer', k'⟩ := r
        rw [he] at h
        simp only at h
        have hki : keys[i]? = some k := by
          unfold read at hr
          split at hr
          · rename_i x hx
            cases hr
            exact hx
          · cases hr
        have hi : i < keys.length := by
          by_contra hcon
          rw [List.getElem?_eq_none (by omega)] at hki
          cases hki
        rw [write_eq_ok _ hi] at h
        simp only at h
        obtain ⟨_, hbelow, _, _⟩ := translate_loop_frame cfg n (i + 1) layer' _ keys1 h
        have hk1 : keys1[i]? = some k' := by
          rw [hbelow i (by omega), List.getElem?_set_self hi]
        rw [translate_loop_step cfg n i layer layer' keys1 k' k' hk1
          (translate_entry_idempotent cfg layer layer' k k' he), set_same _ _ _ hk1]
        exact ih (i + 1) layer' _ keys1 h

/-- C19: when a pass of `translate_key_index` completes, a second pass run
immediately after it completes as well and leaves the tracker (every field of
every entry, and `next_key`) exactly as the first pass left it, so the report
built after the second pass is the report built after the first; and a pass
never changes `next_key`, the length of `keys`, or the index, the source or
the order of any entry. -/
theorem translate_key_index_idempotent (cfg : Keymap) (st st1 : Tracker)
    (h : translate_key_index cfg st = .ok st1) :
    translate_key_index cfg st1 = .ok st1 ∧
    (∀ LEN : Nat,
      (translate_key_index cfg st1 >>= fun st2 => generate_hid_report_task LEN st2)
        = generate_hid_report_task LEN st1) ∧
    st1.next_key = st.next_key ∧ st1.keys.length = st.keys.length ∧
    st1.keys.map (fun k => (k.index, k.source)) = st.keys.map (fun k => (k.index, k.source)) := by
  have hpres := translate_key_index_preserves cfg st st1 h
  have hsecond : translate_key_index cfg st1 = .ok st1 := by
    unfold translate_key_index at h ⊢
    simp only [bind, Except.bind] at h ⊢
    cases hl : translate_loop cfg st.next_key 0 (cfg._BASE_LAYER % 256) st.keys with
    | error e => rw [hl] at h; cases h
    | ok keys1 =>
      rw [hl] at h
      cases h
      simp only
      rw [translate_loop_idempotent cfg _ _ _ _ _ hl]
  refine ⟨hsecond, ?_, hpres.1, hpres.2.1, hpres.2.2.2.2⟩
  intro LEN
  rw [hsecond]
  rfl

/-- C19 at `layers_example` and `three_keys_example`: the pass of the example
of C8, run twice. -/
theorem translate_key_index_idempotent_witness :
    translate_key_index layers_example three_keys_example
      = .ok { keys := [key_index_t.pressed 1 0,
                       { key_index_t.pressed 2 0 with translated := true, is_key := true,
                                                      key := 27 },
                       { key_index_t.pressed 3 0 with translated := true, is_key := true,
                                                      key := 5 }],
              next_key := 3 } ∧
    translate_key_index layers_example
        { keys := [key_index_t.pressed 1 0,
                   { key_index_t.pressed 2 0 with translated := true, is_key := true,
                                                  key := 27 },
                   { key_index_t.pressed 3 0 with translated := true, is_key := true,
                                                  key := 5 }],
          next_key := 3 }
      = .ok { keys := [key_index_t.pressed 1 0,
                       { key_index_t.pressed 2 0 with translated := true, is_key := true,
                                                      key := 27 },
                       { key_index_t.pressed 3 0 with translated := true, is_key := true,
                                                      key := 5 }],
              next_key := 3 } :=
  ⟨by rfl, (translate_key_index_idempotent layers_example three_keys_example _ (by rfl)).1⟩

/-! ## One key of a 2 x 2 matrix, from the scan to the report -/

theorem scan_order_two (fw : Firmware) (hrow : fw.MATRIX_ROW_NUM = 2)
    (hcol : fw.MATRIX_COL_NUM = 2) : scan_order fw = [(0, 0), (1, 0), (0, 1), (1, 1)] := by
  unfold scan_order
  rw [hrow, hcol]
  rfl

theorem cell_step_released_idle (cfg : Debounce) (m : Int) (c : Cell)
    (h : c.key_pressed = false) :
    cell_step cfg m c false = ({ key_pressed := false, debounce := cfg.KEY_PRESS_DEBOUNCE }, none) := by
  obtain ⟨kp, d⟩ := c
  simp only at h
  subst h
  simp [cell_step]

theorem one_key_scan (fw : Firmware) (raw : Nat → Nat → Bool) (g : Grid) (c : Cell)
    (tr : Tracker) (hrow : fw.MATRIX_ROW_NUM = 2) (hcol : fw.MATRIX_COL_NUM = 2)
    (hg : g.only_first c)
    (hraw : raw 1 0 = false ∧ raw 0 1 = false ∧ raw 1 1 = false) :
    master_scan fw raw (SourceScan.mk g tr false false)
      = (run_updates fw.KEY_NUM tr
          ((cell_step fw.debounce (fw.MATRIX 0 0) c (raw 0 0)).2.toList.map
            (fun d => (int8_wrap d, fw.SOURCE))) >>= fun tr' =>
          .ok (SourceScan.mk (g.stepped fw raw) tr'
            ((cell_step fw.debounce (fw.MATRIX 0 0) c (raw 0 0)).2.isSome && raw 0 0)
            ((cell_step fw.debounce (fw.MATRIX 0 0) c (raw 0 0)).2.isSome && !raw 0 0))) ∧
    (g.stepped fw raw).only_first (cell_step fw.debounce (fw.MATRIX 0 0) c (raw 0 0)).1 := by
  obtain ⟨h00, h10, h01, h11⟩ := hg
  obtain ⟨r10, r01, r11⟩ := hraw
  have s00 : fw.step g raw (0, 0) = cell_step fw.debounce (fw.MATRIX 0 0) c (raw 0 0) := by
    unfold Firmware.step
    simp only [h00]
  have s10 : fw.step g raw (1, 0)
      = ({ key_pressed := false, debounce := fw.debounce.KEY_PRESS_DEBOUNCE }, none) := by
    unfold Firmware.step
    simp only [r10]
    exact cell_step_released_idle _ _ _ h10
  have s01 : fw.step g raw (0, 1)
      = ({ key_pressed := false, debounce := fw.debounce.KEY_PRESS_DEBOUNCE }, none) := by
    unfold Firmware.step
    simp only [r01]
    exact cell_step_released_idle _ _ _ h01
  have s11 : fw.step g raw (1, 1)
      = ({ key_pressed := false, debounce := fw.debounce.KEY_PRESS_DEBOUNCE }, none) := by
    unfold Firmware.step
    simp only [r11]
    exact cell_step_released_idle _ _ _ h11
  constructor
  · rw [master_scan_closed]
    have ht : tick_transitions fw g raw
        = (cell_step fw.debounce (fw.MATRIX 0 0) c (raw 0 0)).2.toList := by
      unfold tick_transitions
      rw [scan_order_two fw hrow hcol]
      simp only [List.filterMap, s00, s10, s01, s11]
      cases (cell_step fw.debounce (fw.MATRIX 0 0) c (raw 0 0)).2 <;> rfl
    have hp : tick_has_press fw g raw
        = ((cell_step fw.debounce (fw.MATRIX 0 0) c (raw 0 0)).2.isSome && raw 0 0) := by
      unfold tick_has_press
      rw [scan_order_two fw hrow hcol]
      simp only [List.any_cons, List.any_nil, s00, s10, s01, s11, Option.isSome, Bool.false_and,
        Bool.or_false]
    have hr : tick_has_release fw g raw
        = ((cell_step fw.debounce (fw.MATRIX 0 0) c (raw 0 0)).2.isSome && !raw 0 0) := by
      unfold tick_has_release
      rw [scan_order_two fw hrow hcol]
      simp only [List.any_cons, List.any_nil, s00, s10, s01, s11, Option.isSome, Bool.false_and,
        Bool.or_false]
    rw [ht, hp, hr]
  · have hd : ∀ a b : Nat, a < 2 → b < 2 → (g.stepped fw raw) a b = (fw.step g raw (a, b)).1 := by
      intro a b ha hb
      unfold Grid.stepped
      rw [if_pos ⟨by omega, by omega⟩]
    refine ⟨?_, ?_, ?_, ?_⟩
    · rw [hd 0 0 (by omega) (by omega), s00]
    · rw [hd 1 0 (by omega) (by omega), s10]
    · rw [hd 0 1 (by omega) (by omega), s01]
    · rw [hd 1 1 (by omega) (by omega), s11]

theorem source_tick_quiet (fw : Firmware) (raw : Nat → Nat → Bool) (g : Grid) (c : Cell)
    (tr : Tracker) (hrow : fw.MATRIX_ROW_NUM = 2) (hcol : fw.MATRIX_COL_NUM = 2)
    (hg : g.only_first c)
    (hraw : raw 1 0 = false ∧ raw 0 1 = false ∧ raw 1 1 = false)
    (hnone : (cell_step fw.debounce (fw.MATRIX 0 0) c (raw 0 0)).2 = none) :
    source_tick fw (Source.mk g tr) raw = .ok (Source.mk (g.stepped fw raw) tr, none) := by
  have hs := (one_key_scan fw raw g c tr hrow hcol hg hraw).1
  rw [hnone] at hs
  unfold source_tick scan_matrix_task_master
  simp only [bind, Except.bind]
  rw [hs]
  simp [run_updates, bind, Except.bind]

theorem source_tick_press (fw : Firmware) (raw : Nat → Nat → Bool) (g : Grid) (c : Cell)
    (q code : Nat) (hrow : fw.MATRIX_ROW_NUM = 2) (hcol : fw.MATRIX_COL_NUM = 2)
    (hg : g.only_first c)
    (hraw : raw 1 0 = false ∧ raw 0 1 = false ∧ raw 1 1 = false)
    (hq : q ≤ 126)
    (hcode : fw.keymap.lookup (fw.keymap._BASE_LAYER % 256) (q : Int) = .ok code)
    (hlayer : fw.keymap.IS_LAYER code = false) (htr : code ≠ fw.keymap.KC_TRANSPARENT)
    (hmod : fw.keymap.IS_MOD code = false) (hkey : fw.keymap.IS_KEY code = true)
    (hlen : fw.INPUT_REPORT_KEYS_MAX_LEN = 8) (hnum : 1 ≤ fw.KEY_NUM)
    (hsome : (cell_step fw.debounce (fw.MATRIX 0 0) c (raw 0 0)).2 = some ((q : Int) + 1))
    (h00 : raw 0 0 = true) :
    source_tick fw (Source.mk g (Tracker.empty fw.KEY_NUM)) raw
      = .ok (Source.mk (g.stepped fw raw)
          (Tracker.of_live fw.KEY_NUM
            [classify fw.keymap code (key_index_t.pressed ((q : Int) + 1) fw.SOURCE)]),
          some [0, 0, code % 256, 0, 0, 0, 0, 0]) := by
  have hs := (one_key_scan fw raw g c (Tracker.empty fw.KEY_NUM) hrow hcol hg hraw).1
  rw [hsome, h00] at hs
  have hup : update_key_index fw.KEY_NUM (Tracker.empty fw.KEY_NUM) ((q : Int) + 1) fw.SOURCE
      = .ok (Tracker.of_live fw.KEY_NUM [key_index_t.pressed ((q : Int) + 1) fw.SOURCE]) := by
    rw [← of_live_nil]
    exact update_key_index_press_of_live fw.KEY_NUM [] _ _ (by omega) (by simpa using hnum)
  have hw : int8_wrap ((q : Int) + 1) = (q : Int) + 1 := int8_wrap_of_int8 _ (by omega)
  have hentry := translate_entry_plain fw.keymap (fw.keymap._BASE_LAYER % 256) ((q : Int) + 1)
    fw.SOURCE q code rfl hq hcode hlayer htr
  have htrans := translate_key_index_single fw.keymap _ _ _
    (List.replicate (fw.KEY_NUM - 1) key_index_t.zero) hentry
  have hclass : classify fw.keymap code (key_index_t.pressed ((q : Int) + 1) fw.SOURCE)
      = { index := (q : Int) + 1, source := fw.SOURCE, translated := true,
          has_modifiers := false, is_key := true, modifiers := 0, key := code % 256 } := by
    unfold classify
    simp only [hmod, Bool.false_eq_true, if_false, hkey, if_true]
    rfl
  have hof : ∀ k : key_index_t, Tracker.of_live fw.KEY_NUM [k]
      = { keys := k :: List.replicate (fw.KEY_NUM - 1) key_index_t.zero, next_key := 1 } := by
    intro k
    rfl
  unfold source_tick scan_matrix_task_master
  simp only [bind, Except.bind]
  rw [hs]
  simp only [Option.toList, List.map, run_updates, hw, hup, bind, Except.bind, Option.isSome,
    Bool.and_self, if_true, hof, htrans]
  rw [hclass, hlen]
  simp [generate_hid_report_task, report_loop, read, write, bind, Except.bind,
    List.replicate_succ]

theorem source_tick_release (fw : Firmware) (raw : Nat → Nat → Bool) (g : Grid) (c : Cell)
    (q : Nat) (e : key_index_t) (hrow : fw.MATRIX_ROW_NUM = 2) (hcol : fw.MATRIX_COL_NUM = 2)
    (hg : g.only_first c)
    (hraw : raw 1 0 = false ∧ raw 0 1 = false ∧ raw 1 1 = false)
    (hq : q ≤ 126) (he1 : e.index = (q : Int) + 1) (he2 : e.source = fw.SOURCE)
    (hlen : fw.INPUT_REPORT_KEYS_MAX_LEN = 8) (hnum : 1 ≤ fw.KEY_NUM)
    (hsome : (cell_step fw.debounce (fw.MATRIX 0 0) c (raw 0 0)).2 = some (-((q : Int) + 1)))
    (h00 : raw 0 0 = false) :
    source_tick fw (Source.mk g (Tracker.of_live fw.KEY_NUM [e])) raw
      = .ok (Source.mk (g.stepped fw raw) (Tracker.empty fw.KEY_NUM),
          some [0, 0, 0, 0, 0, 0, 0, 0]) := by
  have hs := (one_key_scan fw raw g c (Tracker.of_live fw.KEY_NUM [e]) hrow hcol hg hraw).1
  rw [hsome, h00] at hs
  have hup : update_key_index fw.KEY_NUM (Tracker.of_live fw.KEY_NUM [e]) (-((q : Int) + 1))
      fw.SOURCE = .ok (Tracker.empty fw.KEY_NUM) := by
    rw [← of_live_nil]
    exact update_key_index_release_of_live fw.KEY_NUM ((q : Int) + 1) fw.SOURCE
      (by omega) [] e [] (by simpa using hnum) (by simp) he1 he2
  have hw : int8_wrap (-((q : Int) + 1)) = -((q : Int) + 1) := int8_wrap_of_int8 _ (by omega)
  unfold source_tick scan_matrix_task_master
  simp only [bind, Except.bind]
  rw [hs]
  simp only [Option.toList, List.map, run_updates, hw, hup, bind, Except.bind, Option.isSome,
    Bool.and_false, Bool.false_eq_true, if_false, Bool.not_false, Bool.and_self, if_true]
  rw [hlen]
  simp [generate_hid_report_task, Tracker.empty, report_loop, List.replicate_succ, bind,
    Except.bind]

theorem source_run_cons_none (fw : Firmware) (s s1 : Source) (raw : Nat → Nat → Bool)
    (rest : List (Nat → Nat → Bool)) (h : source_tick fw s raw = .ok (s1, none)) :
    source_run fw s (raw :: rest) = source_run fw s1 rest := by
  rw [source_run]
  simp only [h, bind, Except.bind]
  cases source_run fw s1 rest with
  | error e => rfl
  | ok v => rfl

theorem source_run_cons_some (fw : Firmware) (s s1 : Source) (raw : Nat → Nat → Bool)
    (rest : List (Nat → Nat → Bool)) (report : List Nat)
    (h : source_tick fw s raw = .ok (s1, some report)) :
    source_run fw s (raw :: rest)
      = (source_run fw s1 rest >>= fun v => .ok (v.1, report :: v.2)) := by
  rw [source_run]
  simp only [h, bind, Except.bind]
  cases source_run fw s1 rest with
  | error e => rfl
  | ok v => rfl

theorem cell_step_phases (cfg : Debounce) (m : Int)
    (hP : cfg.KEY_PRESS_DEBOUNCE = cfg.SCAN_DELAY)
    (hR : cfg.KEY_RELEASE_DEBOUNCE = cfg.SCAN_DELAY) (hD : 0 < cfg.SCAN_DELAY) :
    cell_step cfg m { key_pressed := false, debounce := cfg.KEY_PRESS_DEBOUNCE } true
      = ({ key_pressed := false, debounce := 0 }, none) ∧
    cell_step cfg m { key_pressed := false, debounce := 0 } true
      = ({ key_pressed := true, debounce := cfg.KEY_RELEASE_DEBOUNCE }, some m) ∧
    cell_step cfg m { key_pressed := true, debounce := cfg.KEY_RELEASE_DEBOUNCE } true
      = ({ key_pressed := true, debounce := cfg.KEY_RELEASE_DEBOUNCE }, none) ∧
    cell_step cfg m { key_pressed := true, debounce := cfg.KEY_RELEASE_DEBOUNCE } false
      = ({ key_pressed := true, debounce := 0 }, none) ∧
    cell_step cfg m { key_pressed := true, debounce := 0 } false
      = ({ key_pressed := false, debounce := cfg.KEY_PRESS_DEBOUNCE }, some (-m)) ∧
    cell_step cfg m { key_pressed := false, debounce := cfg.KEY_PRESS_DEBOUNCE } false
      = ({ key_pressed := false, debounce := cfg.KEY_PRESS_DEBOUNCE }, none) := by
  obtain ⟨P, R, D⟩ := cfg
  simp only at hP hR hD
  have hn : ¬ D ≤ 0 := not_le.2 hD
  simp [cell_step, hP, hR, hn]

theorem quiet_tick_run (fw : Firmware) (raw : Nat → Nat → Bool) (g : Grid) (c c' : Cell)
    (tr : Tracker) (rest : List (Nat → Nat → Bool))
    (hrow : fw.MATRIX_ROW_NUM = 2) (hcol : fw.MATRIX_COL_NUM = 2) (hg : g.only_first c)
    (hraw : raw 1 0 = false ∧ raw 0 1 = false ∧ raw 1 1 = false)
    (hstep : cell_step fw.debounce (fw.MATRIX 0 0) c (raw 0 0) = (c', none)) :
    (g.stepped fw raw).only_first c' ∧
    source_run fw (Source.mk g tr) (raw :: rest)
      = source_run fw (Source.mk (g.stepped fw raw) tr) rest := by
  have h1 := (one_key_scan fw raw g c tr hrow hcol hg hraw).2
  rw [hstep] at h1
  refine ⟨h1, source_run_cons_none fw _ _ raw rest ?_⟩
  exact source_tick_quiet fw raw g c tr hrow hcol hg hraw (by rw [hstep])

theorem steady_run (fw : Firmware) (raw : Nat → Nat → Bool) (c : Cell) (tr : Tracker)
    (rest : List (Nat → Nat → Bool))
    (hrow : fw.MATRIX_ROW_NUM = 2) (hcol : fw.MATRIX_COL_NUM = 2)
    (hraw : raw 1 0 = false ∧ raw 0 1 = false ∧ raw 1 1 = false)
    (hstep : cell_step fw.debounce (fw.MATRIX 0 0) c (raw 0 0) = (c, none)) :
    ∀ (n : Nat) (g : Grid), g.only_first c →
      ∃ g', g'.only_first c ∧
        source_run fw (Source.mk g tr) (List.replicate n raw ++ rest)
          = source_run fw (Source.mk g' tr) rest := by
  intro n
  induction n with
  | zero =>
    intro g hg
    exact ⟨g, hg, rfl⟩
  | succ n ih =>
    intro g hg
    obtain ⟨h1, h2⟩ := quiet_tick_run fw raw g c c tr (List.replicate n raw ++ rest) hrow hcol hg
      hraw hstep
    obtain ⟨g', hg', h3⟩ := ih _ h1
    refine ⟨g', hg', ?_⟩
    rw [List.replicate_succ, List.cons_append, h2, h3]

theorem held_phase (fw : Firmware) (q code h : Nat) (rest : List (Nat → Nat → Bool))
    (hrow : fw.MATRIX_ROW_NUM = 2) (hcol : fw.MATRIX_COL_NUM = 2)
    (hP : fw.debounce.KEY_PRESS_DEBOUNCE = fw.debounce.SCAN_DELAY)
    (hR : fw.debounce.KEY_RELEASE_DEBOUNCE = fw.debounce.SCAN_DELAY)
    (hD : 0 < fw.debounce.SCAN_DELAY)
    (hm : fw.MATRIX 0 0 = (q : Int) + 1) (hq : q ≤ 126)
    (hcode : fw.keymap.lookup (fw.keymap._BASE_LAYER % 256) (q : Int) = .ok code)
    (hlayer : fw.keymap.IS_LAYER code = false) (htr : code ≠ fw.keymap.KC_TRANSPARENT)
    (hmod : fw.keymap.IS_MOD code = false) (hkey : fw.keymap.IS_KEY code = true)
    (hlen : fw.INPUT_REPORT_KEYS_MAX_LEN = 8) (hnum : 1 ≤ fw.KEY_NUM) :
    ∃ g : Grid,
      g.only_first { key_pressed := true, debounce := fw.debounce.KEY_RELEASE_DEBOUNCE } ∧
      source_run fw (Source.boot fw) (List.replicate (h + 2) first_key_held ++ rest)
        = (source_run fw (Source.mk g (Tracker.of_live fw.KEY_NUM
              [classify fw.keymap code (key_index_t.pressed ((q : Int) + 1) fw.SOURCE)])) rest
            >>= fun v => .ok (v.1, [0, 0, code % 256, 0, 0, 0, 0, 0] :: v.2)) := by
  obtain ⟨p1, p2, p3, _, _, _⟩ := cell_step_phases fw.debounce (fw.MATRIX 0 0) hP hR hD
  have hraw : first_key_held 1 0 = false ∧ first_key_held 0 1 = false ∧
      first_key_held 1 1 = false := ⟨by decide, by decide, by decide⟩
  have h00 : first_key_held 0 0 = true := by decide
  have hboot : (boot_grid fw.debounce).only_first
      { key_pressed := false, debounce := fw.debounce.KEY_PRESS_DEBOUNCE } := by
    unfold Grid.only_first boot_grid boot_cell
    simp
  obtain ⟨g1, t1⟩ := quiet_tick_run fw first_key_held _ _ _ (Tracker.empty fw.KEY_NUM)
    (first_key_held :: (List.replicate h first_key_held ++ rest)) hrow hcol hboot hraw
    (by rw [h00]; exact p1)
  have hpress := source_tick_press fw first_key_held _ _ q code hrow hcol g1 hraw hq hcode hlayer
    htr hmod hkey hlen hnum (by rw [h00, p2, hm]) h00
  have g2 := (one_key_scan fw first_key_held _ _ (Tracker.empty fw.KEY_NUM) hrow hcol g1 hraw).2
  rw [h00, p2] at g2
  obtain ⟨g, hg, t3⟩ := steady_run fw first_key_held _
    (Tracker.of_live fw.KEY_NUM
      [classify fw.keymap code (key_index_t.pressed ((q : Int) + 1) fw.SOURCE)])
    rest hrow hcol hraw (by rw [h00]; exact p3) h _ g2
  refine ⟨g, hg, ?_⟩
  have hb : Source.boot fw = Source.mk (boot_grid fw.debounce) (Tracker.empty fw.KEY_NUM) := rfl
  rw [hb, List.replicate_succ, List.replicate_succ, List.cons_append, List.cons_append, t1,
    source_run_cons_some fw _ _ _ _ _ hpress, t3]

theorem idle_phase (fw : Firmware) (q r : Nat) (e : key_index_t)
    (rest : List (Nat → Nat → Bool))
    (hrow : fw.MATRIX_ROW_NUM = 2) (hcol : fw.MATRIX_COL_NUM = 2)
    (hP : fw.debounce.KEY_PRESS_DEBOUNCE = fw.debounce.SCAN_DELAY)
    (hR : fw.debounce.KEY_RELEASE_DEBOUNCE = fw.debounce.SCAN_DELAY)
    (hD : 0 < fw.debounce.SCAN_DELAY)
    (hm : fw.MATRIX 0 0 = (q : Int) + 1) (hq : q ≤ 126)
    (he1 : e.index = (q : Int) + 1) (he2 : e.source = fw.SOURCE)
    (hlen : fw.INPUT_REPORT_KEYS_MAX_LEN = 8) (hnum : 1 ≤ fw.KEY_NUM) (g : Grid)
    (hg : g.only_first { key_pressed := true, debounce := fw.debounce.KEY_RELEASE_DEBOUNCE }) :
    ∃ g' : Grid,
      g'.only_first { key_pressed := false, debounce := fw.debounce.KEY_PRESS_DEBOUNCE } ∧
      source_run fw (Source.mk g (Tracker.of_live fw.KEY_NUM [e]))
          (List.replicate (r + 2) no_key_held ++ rest)
        = (source_run fw (Source.mk g' (Tracker.empty fw.KEY_NUM)) rest
            >>= fun v => .ok (v.1, [0, 0, 0, 0, 0, 0, 0, 0] :: v.2)) := by
  obtain ⟨_, _, _, p4, p5, p6⟩ := cell_step_phases fw.debounce (fw.MATRIX 0 0) hP hR hD
  have hraw : no_key_held 1 0 = false ∧ no_key_held 0 1 = false ∧ no_key_held 1 1 = false :=
    ⟨rfl, rfl, rfl⟩
  have h00 : no_key_held 0 0 = false := rfl
  obtain ⟨g1, t1⟩ := quiet_tick_run fw no_key_held _ _ _ (Tracker.of_live fw.KEY_NUM [e])
    (no_key_held :: (List.replicate r no_key_held ++ rest)) hrow hcol hg hraw
    (by rw [h00]; exact p4)
  have hrel := source_tick_release fw no_key_held _ _ q e hrow hcol g1 hraw hq he1 he2 hlen hnum
    (by rw [h00, p5, hm]) h00
  have g2 := (one_key_scan fw no_key_held _ _ (Tracker.empty fw.KEY_NUM) hrow hcol g1 hraw).2
  rw [h00, p5] at g2
  obtain ⟨g', hg', t3⟩ := steady_run fw no_key_held _ (Tracker.empty fw.KEY_NUM) rest hrow hcol
    hraw (by rw [h00]; exact p6) r _ g2
  refine ⟨g', hg', ?_⟩
  rw [List.replicate_succ, List.replicate_succ, List.cons_append, List.cons_append, t1,
    source_run_cons_some fw _ _ _ _ _ hrel, t3]

theorem classify_pair_fields (cfg : Keymap) (code : Nat) (k : key_index_t) :
    (classify cfg code k).index = k.index ∧ (classify cfg code k).source = k.source := by
  unfold classify
  simp only
  split <;> split <;> exact ⟨rfl, rfl⟩

/-- C14: on a source with a 2 x 2 matrix, press and release thresholds of one
scan tick (`KEY_PRESS_DEBOUNCE = KEY_RELEASE_DEBOUNCE = SCAN_DELAY > 0`), cell
(0, 0) mapped to a position whose code on the base layer is a regular key
`code` (the key A in the claim), and an 8-byte report: from boot, holding the
key at cell (0, 0) for at least two scans makes the pipeline send exactly one
report, `[0, 0, code, 0, 0, 0, 0, 0]`, and releasing it for at least two scans
then makes it send exactly one more, `[0, 0, 0, 0, 0, 0, 0, 0]`, leaving the
tracker empty. -/
theorem press_release_reports (fw : Firmware) (q code h r : Nat)
    (hrow : fw.MATRIX_ROW_NUM = 2) (hcol : fw.MATRIX_COL_NUM = 2)
    (hP : fw.debounce.KEY_PRESS_DEBOUNCE = fw.debounce.SCAN_DELAY)
    (hR : fw.debounce.KEY_RELEASE_DEBOUNCE = fw.debounce.SCAN_DELAY)
    (hD : 0 < fw.debounce.SCAN_DELAY)
    (hm : fw.MATRIX 0 0 = (q : Int) + 1) (hq : q ≤ 126)
    (hcode : fw.keymap.lookup (fw.keymap._BASE_LAYER % 256) (q : Int) = .ok code)
    (hlayer : fw.keymap.IS_LAYER code = false) (htr : code ≠ fw.keymap.KC_TRANSPARENT)
    (hmod : fw.keymap.IS_MOD code = false) (hkey : fw.keymap.IS_KEY code = true)
    (hlen : fw.INPUT_REPORT_KEYS_MAX_LEN = 8) (hnum : 1 ≤ fw.KEY_NUM) :
    (∃ s : Source,
      source_run fw (Source.boot fw) (List.replicate (h + 2) first_key_held)
        = .ok (s, [[0, 0, code % 256, 0, 0, 0, 0, 0]])) ∧
    (∃ s : Source,
      source_run fw (Source.boot fw)
          (List.replicate (h + 2) first_key_held ++ List.replicate (r + 2) no_key_held)
        = .ok (s, [[0, 0, code % 256, 0, 0, 0, 0, 0], [0, 0, 0, 0, 0, 0, 0, 0]]) ∧
      s.tracker = Tracker.empty fw.KEY_NUM) := by
  constructor
  · obtain ⟨g, _, h1⟩ := held_phase fw q code h [] hrow hcol hP hR hD hm hq hcode hlayer htr hmod
      hkey hlen hnum
    rw [List.append_nil] at h1
    exact ⟨_, by rw [h1]; rfl⟩
  · obtain ⟨g, hg, h1⟩ := held_phase fw q code h (List.replicate (r + 2) no_key_held) hrow hcol
      hP hR hD hm hq hcode hlayer htr hmod hkey hlen hnum
    have hf := classify_pair_fields fw.keymap code (key_index_t.pressed ((q : Int) + 1) fw.SOURCE)
    obtain ⟨g', _, h2⟩ := idle_phase fw q r _ [] hrow hcol hP hR hD hm hq hf.1 hf.2 hlen hnum g hg
    rw [List.append_nil] at h2
    exact ⟨Source.mk g' (Tracker.empty fw.KEY_NUM), by rw [h1, h2]; rfl, rfl⟩

/-- C14 at `firmware_example`, whose cell (0, 0) is position 1 with code 4 (the
key A), for holds and idle periods of three scans. -/
theorem press_release_reports_witness :
    firmware_example.MATRIX_ROW_NUM = 2 ∧ firmware_example.MATRIX_COL_NUM = 2 ∧
    firmware_example.debounce.KEY_PRESS_DEBOUNCE = firmware_example.debounce.SCAN_DELAY ∧
    firmware_example.debounce.KEY_RELEASE_DEBOUNCE = firmware_example.debounce.SCAN_DELAY ∧
    0 < firmware_example.debounce.SCAN_DELAY ∧
    firmware_example.MATRIX 0 0 = ((0 : Nat) : Int) + 1 ∧
    firmware_example.keymap.lookup (firmware_example.keymap._BASE_LAYER % 256) ((0 : Nat) : Int)
      = .ok 4 ∧
    (∃ s : Source,
      source_run firmware_example (Source.boot firmware_example)
          (List.replicate (1 + 2) first_key_held ++ List.replicate (1 + 2) no_key_held)
        = .ok (s, [[0, 0, 4 % 256, 0, 0, 0, 0, 0], [0, 0, 0, 0, 0, 0, 0, 0]]) ∧
      s.tracker = Tracker.empty firmware_example.KEY_NUM) :=
  ⟨rfl, rfl, by decide, by decide, by decide, by decide, by rfl,
    (press_release_reports firmware_example 0 4 1 1 rfl rfl (by decide) (by decide) (by decide)
      (by decide) (by decide) (by rfl) (by rfl) (by decide) (by rfl) (by rfl) rfl
      (by decide)).2⟩

/-! ## The tracker mirrors the pressed cells -/

theorem of_live_live (KEY_NUM : Nat) (l : List key_index_t) :
    (Tracker.of_live KEY_NUM l).live = l := by
  unfold Tracker.live Tracker.of_live
  simp

theorem filter_flip {α : Type} [DecidableEq α] (p : α → Bool) (a : α) :
    ∀ L : List α, L.Nodup → a ∈ L →
      (L.filter (fun x => if x = a then true else p x)).Perm
        (a :: L.filter (fun x => if x = a then false else p x)) := by
  intro L
  induction L with
  | nil => intro _ h; cases h
  | cons b L ih =>
    intro hnd hmem
    obtain ⟨hb, hL⟩ := List.nodup_cons.1 hnd
    by_cases hab : b = a
    · subst hab
      have hc : L.filter (fun x => if x = b then true else p x)
          = L.filter (fun x => if x = b then false else p x) := by
        apply List.filter_congr
        intro x hx
        have hne : x ≠ b := fun h => hb (h ▸ hx)
        simp only [if_neg hne]
      simp only [List.filter_cons, if_true, Bool.false_eq_true, if_false, hc]
      exact List.Perm.refl _
    · have ha : a ∈ L := by
        rcases List.mem_cons.1 hmem with h | h
        · exact absurd h.symm hab
        · exact h
      have ih2 := ih hL ha
      simp only [List.filter_cons, if_neg hab]
      cases hp : p b
      · simpa using ih2
      · simp only [if_true]
        exact (List.Perm.cons b ih2).trans (List.Perm.swap a b _)

theorem length_flatMap_const {α β : Type} (f : α → List β) (n : Nat) :
    ∀ l : List α, (∀ x ∈ l, (f x).length = n) → (l.flatMap f).length = l.length * n := by
  intro l
  induction l with
  | nil => intro _; simp
  | cons a l ih =>
    intro h
    rw [List.flatMap_cons, List.length_append, h a (List.mem_cons_self _ _),
      ih (fun x hx => h x (List.mem_cons_of_mem _ hx)), List.length_cons]
    ring

theorem length_scan_order (fw : Firmware) :
    (scan_order fw).length = fw.MATRIX_COL_NUM * fw.MATRIX_ROW_NUM := by
  unfold scan_order
  rw [length_flatMap_const _ fw.MATRIX_ROW_NUM _ (fun x _ => by simp)]
  simp

theorem cell_step_event_cases (cfg : Debounce) (m : Int) (c : Cell) (s : Bool) :
    ((cell_step cfg m c s).2 = none ∧ (cell_step cfg m c s).1.key_pressed = c.key_pressed) ∨
    ((cell_step cfg m c s).2 = some m ∧ c.key_pressed = false ∧
      (cell_step cfg m c s).1.key_pressed = true) ∨
    ((cell_step cfg m c s).2 = some (-m) ∧ c.key_pressed = true ∧
      (cell_step cfg m c s).1.key_pressed = false) := by
  obtain ⟨kp, d⟩ := c
  unfold cell_step
  by_cases hd : d ≤ 0 <;> cases s <;> cases kp <;> simp [hd]

theorem pred_cons (new p : Nat × Nat → Bool) (a : Nat × Nat) (rest : List (Nat × Nat))
    (h : a ∉ rest) :
    (fun x => if x ∈ rest then new x else (if x = a then new a else p x))
      = (fun x => if x ∈ a :: rest then new x else p x) := by
  funext x
  by_cases hx : x = a
  · subst hx
    simp [h]
  · by_cases hr : x ∈ rest
    · simp [hr]
    · simp [hx, hr]

theorem run_updates_cells (fw : Firmware) (raw : Nat → Nat → Bool) (g : Grid)
    (hpos : ∀ row col, row < fw.MATRIX_ROW_NUM → col < fw.MATRIX_COL_NUM →
      1 ≤ fw.MATRIX row col ∧ fw.MATRIX row col ≤ 127)
    (hnum : fw.MATRIX_ROW_NUM * fw.MATRIX_COL_NUM ≤ fw.KEY_NUM) :
    ∀ cs : List (Nat × Nat), cs.Nodup → (∀ rc ∈ cs, rc ∈ scan_order fw) →
      ∀ (p : Nat × Nat → Bool) (l : List key_index_t),
        (∀ rc ∈ cs, p rc = (g rc.1 rc.2).key_pressed) →
        (l.map (fun k => (k.index, k.source))).Perm
          (((scan_order fw).filter p).map fw.local_pair) →
        ∃ l' : List key_index_t,
          run_updates fw.KEY_NUM (Tracker.of_live fw.KEY_NUM l)
              ((cs.filterMap (fun rc => (fw.step g raw rc).2)).map
                (fun d => (int8_wrap d, fw.SOURCE)))
            = .ok (Tracker.of_live fw.KEY_NUM l') ∧
          (l'.map (fun k => (k.index, k.source))).Perm
            (((scan_order fw).filter
              (fun rc => if rc ∈ cs then (fw.step g raw rc).1.key_pressed else p rc)).map
              fw.local_pair) := by
  have hso : (scan_order fw).length ≤ fw.KEY_NUM := by
    rw [length_scan_order, Nat.mul_comm]
    exact hnum
  intro cs
  induction cs with
  | nil =>
    intro _ _ p l _ hperm
    exact ⟨l, rfl, by simpa using hperm⟩
  | cons rc0 rest ih =>
    intro hnd hsub p l hp hperm
    obtain ⟨h0, hrest⟩ := List.nodup_cons.1 hnd
    have hmem0 : rc0 ∈ scan_order fw := hsub rc0 (List.mem_cons_self _ _)
    have hin := (mem_scan_order fw rc0.1 rc0.2).1 hmem0
    have hm := hpos rc0.1 rc0.2 hin.1 hin.2
    have hp0 : p rc0 = (g rc0.1 rc0.2).key_pressed := hp rc0 (List.mem_cons_self _ _)
    have hlen : l.length = ((scan_order fw).filter p).length := by
      have := hperm.length_eq
      simpa using this
    have hfl : ((scan_order fw).filter p).length ≤ (scan_order fw).length :=
      List.length_filter_le _ _
    -- the predicate after the step of `rc0`, and the remaining cells
    have hp1 : ∀ rc ∈ rest,
        (if rc = rc0 then (fw.step g raw rc0).1.key_pressed else p rc)
          = (g rc.1 rc.2).key_pressed := by
      intro rc hrc
      have hne : rc ≠ rc0 := fun h => h0 (h ▸ hrc)
      rw [if_neg hne]
      exact hp rc (List.mem_cons_of_mem _ hrc)
    have hfin : (fun rc => if rc ∈ rest then (fw.step g raw rc).1.key_pressed
          else (if rc = rc0 then (fw.step g raw rc0).1.key_pressed else p rc))
        = (fun rc => if rc ∈ rc0 :: rest then (fw.step g raw rc).1.key_pressed else p rc) :=
      pred_cons (fun rc => (fw.step g raw rc).1.key_pressed) p rc0 rest h0
    have hflip := filter_flip p rc0 (scan_order fw) (nodup_scan_order fw) hmem0
    have hstep : fw.step g raw rc0
        = cell_step fw.debounce (fw.MATRIX rc0.1 rc0.2) (g rc0.1 rc0.2) (raw rc0.1 rc0.2) := rfl
    rcases cell_step_event_cases fw.debounce (fw.MATRIX rc0.1 rc0.2) (g rc0.1 rc0.2)
      (raw rc0.1 rc0.2) with ⟨hev, hkp⟩ | ⟨hev, hold, hkp⟩ | ⟨hev, hold, hkp⟩
    · -- no event
      have hsame : (fun rc => if rc = rc0 then (fw.step g raw rc0).1.key_pressed else p rc)
          = p := by
        funext rc
        by_cases h : rc = rc0
        · rw [if_pos h, hstep, hkp, h, hp0]
        · rw [if_neg h]
      obtain ⟨l', h1, h2⟩ := ih hrest (fun rc h => hsub rc (List.mem_cons_of_mem _ h))
        (fun rc => if rc = rc0 then (fw.step g raw rc0).1.key_pressed else p rc) l hp1
        (by rw [hsame]; exact hperm)
      refine ⟨l', ?_, ?_⟩
      · rw [List.filterMap_cons, hstep, hev]
        exact h1
      · rw [← hfin]
        exact h2
    · -- press
      have hpf : (fun rc => if rc = rc0 then false else p rc) = p := by
        funext rc
        by_cases h : rc = rc0
        · rw [if_pos h, h, hp0, hold]
        · rw [if_neg h]
      have hpt : (fun rc => if rc = rc0 then (fw.step g raw rc0).1.key_pressed else p rc)
          = (fun rc => if rc = rc0 then true else p rc) := by
        rw [hstep, hkp]
      rw [hpf] at hflip
      have hlt : l.length < fw.KEY_NUM := by
        have : ((scan_order fw).filter p).length + 1 ≤ (scan_order fw).length := by
          have h3 := hflip.length_eq
          rw [List.length_cons] at h3
          rw [← h3]
          exact List.length_filter_le _ _
        omega
      have hup := update_key_index_press_of_live fw.KEY_NUM l (fw.MATRIX rc0.1 rc0.2) fw.SOURCE
        (by omega) hlt
      have hperm1 : ((l ++ [key_index_t.pressed (fw.MATRIX rc0.1 rc0.2) fw.SOURCE]).map
          (fun k => (k.index, k.source))).Perm
          (((scan_order fw).filter (fun rc => if rc = rc0 then true else p rc)).map
            fw.local_pair) := by
        rw [List.map_append]
        have e1 : [key_index_t.pressed (fw.MATRIX rc0.1 rc0.2) fw.SOURCE].map
            (fun k => (k.index, k.source)) = [fw.local_pair rc0] := rfl
        rw [e1]
        refine List.Perm.trans ?_ (hflip.map fw.local_pair).symm
        rw [List.map_cons]
        exact (List.perm_append_singleton _ _).trans (List.Perm.cons _ hperm)
      obtain ⟨l', h1, h2⟩ := ih hrest (fun rc h => hsub rc (List.mem_cons_of_mem _ h))
        (fun rc => if rc = rc0 then (fw.step g raw rc0).1.key_pressed else p rc) _ hp1
        (by rw [hpt]; exact hperm1)
      refine ⟨l', ?_, ?_⟩
      · rw [List.filterMap_cons, hstep, hev]
        simp only [List.map_cons, run_updates, int8_wrap_of_int8 _ (show -128 ≤ fw.MATRIX rc0.1
          rc0.2 ∧ fw.MATRIX rc0.1 rc0.2 ≤ 127 from ⟨by omega, hm.2⟩), hup, bind, Except.bind]
        exact h1
      · rw [← hfin]
        exact h2
    · -- release
      have hpt : (fun rc => if rc = rc0 then true else p rc) = p := by
        funext rc
        by_cases h : rc = rc0
        · rw [if_pos h, h, hp0, hold]
        · rw [if_neg h]
      have hpf : (fun rc => if rc = rc0 then (fw.step g raw rc0).1.key_pressed else p rc)
          = (fun rc => if rc = rc0 then false else p rc) := by
        rw [hstep, hkp]
      rw [hpt] at hflip
      have hall : (l.map (fun k => (k.index, k.source))).Perm
          (fw.local_pair rc0 ::
            ((scan_order fw).filter (fun rc => if rc = rc0 then false else p rc)).map
              fw.local_pair) :=
        hperm.trans (hflip.map fw.local_pair)
      have hin0 : fw.local_pair rc0 ∈ l.map (fun k => (k.index, k.source)) :=
        hall.symm.subset (List.mem_cons_self _ _)
      obtain ⟨e0, he0, hpair⟩ := List.mem_map.1 hin0
      obtain ⟨l1, e, l2, hl, ⟨he1, he2⟩, hno⟩ := exists_first_split
        (fun k : key_index_t => k.index = fw.MATRIX rc0.1 rc0.2 ∧ k.source = fw.SOURCE) l
        ⟨e0, he0, (Prod.mk.injEq _ _ _ _ ▸ hpair).1, (Prod.mk.injEq _ _ _ _ ▸ hpair).2⟩
      have hup := update_key_index_release_of_live fw.KEY_NUM (fw.MATRIX rc0.1 rc0.2) fw.SOURCE hm
        l1 e l2 (by rw [← hl]; omega) hno he1 he2
      have hperm1 : ((l1 ++ l2).map (fun k => (k.index, k.source))).Perm
          (((scan_order fw).filter (fun rc => if rc = rc0 then false else p rc)).map
            fw.local_pair) := by
        have e2 : (l.map (fun k => (k.index, k.source))).Perm
            (fw.local_pair rc0 :: (l1 ++ l2).map (fun k => (k.index, k.source))) := by
          rw [hl, List.map_append, List.map_cons, List.map_append]
          have : (e.index, e.source) = fw.local_pair rc0 := by
            unfold Firmware.local_pair
            rw [he1, he2]
          rw [this]
          exact List.perm_middle
        exact (e2.symm.trans hall).cons_inv
      obtain ⟨l', h1, h2⟩ := ih hrest (fun rc h => hsub rc (List.mem_cons_of_mem _ h))
        (fun rc => if rc = rc0 then (fw.step g raw rc0).1.key_pressed else p rc) _ hp1
        (by rw [hpf]; exact hperm1)
      refine ⟨l', ?_, ?_⟩
      · rw [List.filterMap_cons, hstep, hev]
        simp only [List.map_cons, run_updates, int8_wrap_of_int8 _ (show -128 ≤ -fw.MATRIX rc0.1
          rc0.2 ∧ -fw.MATRIX rc0.1 rc0.2 ≤ 127 from ⟨by omega, by omega⟩), bind, Except.bind]
        rw [← hl] at hup
        rw [hup]
        exact h1
      · rw [← hfin]
        exact h2

theorem translate_of_live (cfg : Keymap) (KEY_NUM : Nat) (l : List key_index_t) (tr' : Tracker)
    (h : translate_key_index cfg (Tracker.of_live KEY_NUM l) = .ok tr') :
    ∃ l' : List key_index_t, tr' = Tracker.of_live KEY_NUM l' ∧
      l'.map (fun k => (k.index, k.source)) = l.map (fun k => (k.index, k.source)) := by
  obtain ⟨hn, hlen, _, hdead, hmap⟩ := translate_key_index_preserves cfg _ _ h
  obtain ⟨keys', nk'⟩ := tr'
  simp only [Tracker.of_live] at hn hlen hdead hmap
  have hlen2 : keys'.length = l.length + (KEY_NUM - l.length) := by
    rw [hlen, List.length_append, List.length_replicate]
  have hdrop : keys'.drop l.length = List.replicate (KEY_NUM - l.length) key_index_t.zero := by
    apply List.ext_getElem?
    intro j
    rw [List.getElem?_drop, hdead (l.length + j) (Nat.le_add_right _ _),
      List.getElem?_append_right (Nat.le_add_right _ _), Nat.add_sub_cancel_left]
  have hl' : (keys'.take l.length).length = l.length := by
    rw [List.length_take]
    omega
  refine ⟨keys'.take l.length, ?_, ?_⟩
  · unfold Tracker.of_live
    rw [hl', ← hdrop, List.take_append_drop, hn]
  · rw [List.map_take, hmap, List.map_append]
    exact List.take_left' (by simp)

theorem scan_tracked (fw : Firmware)
    (hpos : ∀ row col, row < fw.MATRIX_ROW_NUM → col < fw.MATRIX_COL_NUM →
      1 ≤ fw.MATRIX row col ∧ fw.MATRIX row col ≤ 127)
    (hnum : fw.MATRIX_ROW_NUM * fw.MATRIX_COL_NUM ≤ fw.KEY_NUM)
    (g : Grid) (tr : Tracker) (h : fw.tracked g tr) (raw : Nat → Nat → Bool) :
    ∃ tr' : Tracker,
      master_scan fw raw (SourceScan.mk g tr false false)
        = .ok (SourceScan.mk (g.stepped fw raw) tr' (tick_has_press fw g raw)
            (tick_has_release fw g raw)) ∧
      fw.tracked (g.stepped fw raw) tr' := by
  obtain ⟨l, rfl, hperm⟩ := h
  obtain ⟨l', h1, h2⟩ := run_updates_cells fw raw g hpos hnum (scan_order fw)
    (nodup_scan_order fw) (fun _ h => h) (fun rc => (g rc.1 rc.2).key_pressed) l
    (fun _ _ => rfl) hperm
  refine ⟨Tracker.of_live fw.KEY_NUM l', ?_, l', rfl, ?_⟩
  · rw [master_scan_closed]
    unfold tick_transitions
    rw [h1]
    rfl
  · have hf : pressed_cells fw (g.stepped fw raw)
        = (scan_order fw).filter (fun rc =>
            if rc ∈ scan_order fw then (fw.step g raw rc).1.key_pressed
            else (g rc.1 rc.2).key_pressed) := by
      unfold pressed_cells
      apply List.filter_congr
      intro rc hrc
      rw [if_pos hrc]
      unfold Grid.stepped
      rw [if_pos ((mem_scan_order fw rc.1 rc.2).1 hrc)]
    rw [hf]
    exact h2

theorem tick_tracked (fw : Firmware)
    (hpos : ∀ row col, row < fw.MATRIX_ROW_NUM → col < fw.MATRIX_COL_NUM →
      1 ≤ fw.MATRIX row col ∧ fw.MATRIX row col ≤ 127)
    (hnum : fw.MATRIX_ROW_NUM * fw.MATRIX_COL_NUM ≤ fw.KEY_NUM)
    (s s' : Source) (b : Bool) (raw : Nat → Nat → Bool) (h : fw.tracked s.cells s.tracker)
    (ht : scan_matrix_task_master fw s raw = .ok (s', b)) :
    fw.tracked s'.cells s'.tracker := by
  obtain ⟨tr1, h1, h2⟩ := scan_tracked fw hpos hnum s.cells s.tracker h raw
  unfold scan_matrix_task_master at ht
  simp only [bind, Except.bind] at ht
  rw [h1] at ht
  simp only at ht
  split at ht
  · cases htr : translate_key_index fw.keymap tr1 with
    | error e => rw [htr] at ht; cases ht
    | ok tr2 =>
      rw [htr] at ht
      cases ht
      obtain ⟨l, rfl, hperm⟩ := h2
      obtain ⟨l2, rfl, hmap⟩ := translate_of_live fw.keymap fw.KEY_NUM l tr2 htr
      exact ⟨l2, rfl, by rw [hmap]; exact hperm⟩
  · split at ht
    · cases ht
      exact h2
    · cases ht
      exact h2

theorem run_tracked (fw : Firmware)
    (hpos : ∀ row col, row < fw.MATRIX_ROW_NUM → col < fw.MATRIX_COL_NUM →
      1 ≤ fw.MATRIX row col ∧ fw.MATRIX row col ≤ 127)
    (hnum : fw.MATRIX_ROW_NUM * fw.MATRIX_COL_NUM ≤ fw.KEY_NUM) :
    ∀ (raws : List (Nat → Nat → Bool)) (s s' : Source), fw.tracked s.cells s.tracker →
      scan_ticks fw s raws = .ok s' → fw.tracked s'.cells s'.tracker := by
  intro raws
  induction raws with
  | nil =>
    intro s s' h hrun
    cases hrun
    exact h
  | cons raw rest ih =>
    intro s s' h hrun
    rw [scan_ticks] at hrun
    simp only [bind, Except.bind] at hrun
    cases ht : scan_matrix_task_master fw s raw with
    | error e => rw [ht] at hrun; cases hrun
    | ok v =>
      obtain ⟨s1, b⟩ := v
      rw [ht] at hrun
      exact ih s1 s' (tick_tracked fw hpos hnum s s1 b raw h ht) hrun

theorem boot_tracked (fw : Firmware) :
    fw.tracked (Source.boot fw).cells (Source.boot fw).tracker := by
  refine ⟨[], (of_live_nil _).symm, ?_⟩
  have hnil : pressed_cells fw (Source.boot fw).cells = [] := by
    unfold pressed_cells
    rw [List.filter_eq_nil_iff]
    intro rc _
    simp [Source.boot, boot_grid, boot_cell]
  rw [hnil]
  exact List.Perm.refl _

/-- C20: on a source with no remote traffic, when `MATRIX` maps the cells of
the matrix to pairwise distinct positions in 1 .. 127 (the positive range of
the `int8_t` argument of `update_key_index`) and the number of cells is at most
`KEY_NUM`, after every sequence of scan ticks from boot the (index, source)
pairs of the live tracker entries are, up to order, the pairs
(`MATRIX[row][col]`, `SOURCE`) of the cells with `key_pressed` set, no pair
occurs twice, and `next_key` is the number of those cells; moreover the tracker
updates of the next scan never fault, whatever the samples. -/
theorem tracker_mirrors_pressed_cells (fw : Firmware)
    (hpos : ∀ row col, row < fw.MATRIX_ROW_NUM → col < fw.MATRIX_COL_NUM →
      1 ≤ fw.MATRIX row col ∧ fw.MATRIX row col ≤ 127)
    (hinj : ∀ r1 c1 r2 c2, r1 < fw.MATRIX_ROW_NUM → c1 < fw.MATRIX_COL_NUM →
      r2 < fw.MATRIX_ROW_NUM → c2 < fw.MATRIX_COL_NUM →
      fw.MATRIX r1 c1 = fw.MATRIX r2 c2 → r1 = r2 ∧ c1 = c2)
    (hnum : fw.MATRIX_ROW_NUM * fw.MATRIX_COL_NUM ≤ fw.KEY_NUM)
    (raws : List (Nat → Nat → Bool)) (s : Source)
    (hrun : scan_ticks fw (Source.boot fw) raws = .ok s) :
    s.tracker.live_pairs.Perm ((pressed_cells fw s.cells).map fw.local_pair) ∧
    s.tracker.no_duplicates ∧
    s.tracker.next_key = (pressed_cells fw s.cells).length ∧
    ∀ raw : Nat → Nat → Bool, ∃ s1 : SourceScan,
      master_scan fw raw (SourceScan.mk s.cells s.tracker false false) = .ok s1 ∧
      s1.tracker.live_pairs.Perm ((pressed_cells fw s1.cells).map fw.local_pair) := by
  have ht := run_tracked fw hpos hnum raws _ s (boot_tracked fw) hrun
  have hlive : ∀ (g : Grid) (tr : Tracker), fw.tracked g tr →
      tr.live_pairs.Perm ((pressed_cells fw g).map fw.local_pair) := by
    intro g tr h
    obtain ⟨l, rfl, hperm⟩ := h
    unfold Tracker.live_pairs
    rw [of_live_live]
    exact hperm
  have hperm := hlive _ _ ht
  refine ⟨hperm, ?_, ?_, ?_⟩
  · unfold Tracker.no_duplicates
    rw [hperm.nodup_iff]
    apply List.Nodup.map_on
    · intro x hx y hy hxy
      have hx2 := (mem_scan_order fw x.1 x.2).1 (List.mem_filter.1 hx).1
      have hy2 := (mem_scan_order fw y.1 y.2).1 (List.mem_filter.1 hy).1
      have h3 := hinj x.1 x.2 y.1 y.2 hx2.1 hx2.2 hy2.1 hy2.2 (Prod.mk.injEq _ _ _ _ ▸ hxy).1
      exact Prod.ext h3.1 h3.2
    · exact (nodup_scan_order fw).filter _
  · obtain ⟨l, hl, hp⟩ := ht
    rw [hl]
    have := hp.length_eq
    simpa [Tracker.of_live] using this
  · intro raw
    obtain ⟨tr', h1, h2⟩ := scan_tracked fw hpos hnum s.cells s.tracker ht raw
    exact ⟨_, h1, hlive _ _ h2⟩

/-- C20 at `firmware_example` (positions 1, 2, 3, 4 on a 2 x 2 matrix,
`KEY_NUM = 4`), after two scans with the key at cell (0, 0) held: one cell is
pressed and one entry is live. -/
theorem tracker_mirrors_pressed_cells_witness :
    firmware_example.MATRIX_ROW_NUM * firmware_example.MATRIX_COL_NUM
      ≤ firmware_example.KEY_NUM ∧
    ∃ s : Source,
      scan_ticks firmware_example (Source.boot firmware_example)
          [first_key_held, first_key_held] = .ok s ∧
      s.tracker.next_key = 1 ∧
      s.tracker.next_key = (pressed_cells firmware_example s.cells).length :=
  ⟨by decide, _, by rfl, by rfl,
    (tracker_mirrors_pressed_cells firmware_example
      (fun row col hr hc => by
        have hr2 : row < 2 := hr
        have hc2 : col < 2 := hc
        show 1 ≤ 2 * (row : Int) + (col : Int) + 1 ∧ 2 * (row : Int) + (col : Int) + 1 ≤ 127
        omega)
      (fun r1 c1 r2 c2 h1 h2 h3 h4 h => by
        have h1b : r1 < 2 := h1
        have h2b : c1 < 2 := h2
        have h3b : r2 < 2 := h3
        have h4b : c2 < 2 := h4
        have hb : 2 * (r1 : Int) + (c1 : Int) + 1 = 2 * (r2 : Int) + (c2 : Int) + 1 := h
        omega)
      (by decide) [first_key_held, first_key_held] _ (by rfl)).2.2.1⟩

end Bmk
